import Mathlib

/-!
# Storage market actor (`chain/actors/actor_storagemarket.go`)

A shallow embedding of the storage market actor and a verification development
over it.

Modelling conventions.

* `types.BigInt` is an arbitrary-precision integer: `Int`.
* `uint64` values are `Nat`; the one place where the source does `uint64`
  arithmetic (`self.NextDealID++`) reduces modulo `2^64`.
* `address.Address` is a comparable key: `Nat`.
* A content identifier (`cid.Cid`) is identified with the content it names, so
  `Storage().Put`, `Storage().Get`, `hamt.LoadNode`, `Flush` and the IPLD store
  are the identity on contents and never fail.  The paths of the source that
  only handle a failure of these calls therefore do not appear.
* The HAMT of balances and the AMT of deals (external libraries) are modelled
  by their `Find`/`Get` and `Set` contracts over association lists.
* Every method takes the virtual machine state (the committed head of the
  actor and the trace of storage and send calls made so far) and returns its
  Go result together with the new virtual machine state.
* A nested `Send` may re-enter the actor: the send function of the context
  receives the current head and returns the head after the call.
-/

namespace StorageMarket

/-! ## Data model -/

abbrev Address := Nat
abbrev BigInt := Int
abbrev Bytes := List Nat

/-- Modelled from the spec: `types.Signature` (declared in `chain/types`), of
which only the signature bytes matter here. -/
structure Signature where
  Data : Bytes
deriving DecidableEq

structure StorageParticipantBalance where
  Locked : BigInt
  Available : BigInt
deriving DecidableEq

structure StorageDealProposal where
  PieceRef : Bytes
  PieceSize : Nat
  PieceSerialization : Nat
  Client : Address
  Provider : Address
  ProposalExpiration : Nat
  Duration : Nat
  StoragePrice : BigInt
  StorageCollateral : BigInt
  ProposerSignature : Option Signature
deriving DecidableEq

structure StorageDeal where
  Proposal : StorageDealProposal
  CounterSignature : Signature
deriving DecidableEq

structure OnChainDeal where
  Deal : StorageDeal
  ActivationEpoch : Nat
deriving DecidableEq

/-- The balances HAMT `hamt<addr, StorageParticipantBalance>`. -/
abbrev BalanceMap := List (Address × StorageParticipantBalance)

/-- The deals AMT `amt<StorageDeal>`. -/
abbrev DealArray := List (Nat × OnChainDeal)

structure StorageMarketState where
  Balances : BalanceMap
  Deals : DealArray
  NextDealID : Nat
deriving DecidableEq

structure WithdrawBalanceParams where
  Balance : BigInt

structure PublishStorageDealsParams where
  Deals : List StorageDeal

structure PublishStorageDealResponse where
  DealIDs : List Nat
deriving DecidableEq

structure ActivateStorageDealsParams where
  Deals : List Nat

structure ProcessStorageDealsPaymentParams where
  DealIDs : List Nat

/-! ## Errors -/

/-- The message given to `aerrors.HandleExternalError` at each of its call
sites that the model can reach. -/
inductive ExternalSite where
  | serializingDealProposal
  | verifyingProposerSignature
  | serializingDeal
  | verifyingProviderSignature
  | gettingDealInfo
  | serialisingOutput
deriving DecidableEq

/-- The failures a method can end in: `new c` is `aerrors.New(c, _)` or
`aerrors.Newf(c, _)`, `external s` is `aerrors.HandleExternalError(_, s)`,
`wrap e` is `aerrors.Wrap(e, _)`, `staleCommit` is the error of a
`Storage().Commit` whose expected root is not the head, and `runtimePanic` is a
Go run-time panic (here: `big.Int` division by zero). -/
inductive ActorError where
  | new (retCode : Nat)
  | external (site : ExternalSite)
  | wrap (inner : ActorError)
  | staleCommit
  | runtimePanic
deriving DecidableEq

/-! ## Persistent structures (contracts of the external HAMT and AMT) -/

/-- Lookup in an association list: `hamt.Node.Find` and `amt.Root.Get`. -/
def kvFind {α : Type} (k : Nat) : List (Nat × α) → Option α
  | [] => none
  | (k', v) :: m => if k' = k then some v else kvFind k m

/-- Update of an association list: `hamt.Node.Set` and `amt.Root.Set`.  An
existing entry is replaced, a new one is added. -/
def kvSet {α : Type} (k : Nat) (v : α) : List (Nat × α) → List (Nat × α)
  | [] => [(k, v)]
  | (k', v') :: m => if k' = k then (k, v) :: m else (k', v') :: kvSet k v m

/-- A Go map literal `map[K]V{k1: v1, k2: v2, ...}` with non-constant keys:
the elements are stored in order, a later element replaces an earlier one with
an equal key. -/
def goMapLit {α : Type} (elems : List (Nat × α)) : List (Nat × α) :=
  elems.foldl (fun m e => kvSet e.1 e.2 m) []

/-! ## Fund transfer primitives -/

/-- Modelled from the spec: `types.BigSub`, `types.BigAdd`, `types.BigMul` and
`types.BigInt.LessThan` (declared in `chain/types`) are integer subtraction,
addition, multiplication and `<`; `types.BigDiv` is integer division, which
truncates and panics on a zero divisor (`none`). -/
def BigDiv (a b : BigInt) : Option BigInt :=
  if b = 0 then none else some (Int.tdiv a b)

def transferFunds (frm dest amt : BigInt) : BigInt × BigInt :=
  -- TODO: some asserts
  (frm - amt, dest + amt)

def lockFunds (p : StorageParticipantBalance) (amt : BigInt) : StorageParticipantBalance :=
  let r := transferFunds p.Available p.Locked amt
  { p with Available := r.1, Locked := r.2 }

/-! ## Balance map access -/

/-- The zero balance given to an address without an entry. -/
def zeroBalance : StorageParticipantBalance := { Locked := 0, Available := 0 }

/-- One iteration of the loop of `GetMarketBalances`: `hamt.ErrNotFound`
yields the zero balance. -/
def getOrZero (nd : BalanceMap) (a : Address) : StorageParticipantBalance :=
  match kvFind a nd with
  | none => zeroBalance
  | some balance => balance

/-- The function `GetMarketBalances`: the balances of `addrs`, in order, and the
loaded node. -/
def GetMarketBalances (rcid : BalanceMap) (addrs : List Address) :
    List StorageParticipantBalance × BalanceMap :=
  let nd := rcid
  (addrs.map (getOrZero nd), nd)

/-- The function `setMarketBalances`: sets every entry of the Go map `set` in
the node, flushes it and returns its root. -/
def setMarketBalances (nd : BalanceMap) (set : List (Address × StorageParticipantBalance)) :
    BalanceMap :=
  set.foldl (fun n e => kvSet e.1 e.2 n) nd

/-! ## Environment -/

/-- The parts of the repository that the actor calls and that lie outside
`actor_storagemarket.go`: the generated CBOR encoders (`none` is an encoding
error), signature verification (`true` is a nil error; the first argument is
`none` for a nil `*types.Signature`), the build constant
`build.ProvingPeriodDuration`, `CreateExecParams(StorageMinerCodeCid,
&IsMinerParam{Addr})`, `StoragePowerAddress` and `SPAMethods.IsMiner`. -/
structure Env where
  marshalProposal : StorageDealProposal → Option Bytes
  marshalDeal : StorageDeal → Option Bytes
  marshalResponse : PublishStorageDealResponse → Option Bytes
  verify : Option Signature → Address → Bytes → Bool
  ProvingPeriodDuration : Nat
  isMinerParams : Address → Except ActorError Bytes
  StoragePowerAddress : Address
  IsMiner : Nat

/-- The constant `cbg.CborBoolTrue`. -/
def CborBoolTrue : Bytes := [0xf5]

/-- The constant `cbg.CborBoolFalse`. -/
def CborBoolFalse : Bytes := [0xf4]

/-- A storage or send call recorded in the trace. -/
inductive Event where
  | getHead
  | get (root : StorageMarketState)
  | loadAMT (root : DealArray)
  | flushAMT (root : DealArray)
  | put (st : StorageMarketState)
  | commit (old new : StorageMarketState)
  | send (dest : Address) (method : Nat) (value : BigInt) (params : Bytes)
deriving DecidableEq

/-- The state of the virtual machine as far as the actor sees it: the
committed head of the actor and the trace of calls made so far. -/
structure VMState where
  head : StorageMarketState
  trace : List Event
deriving DecidableEq

/-- The `types.VMContext` of one message: block height, sender, attached
value and the send function, which maps the head before the nested call to
the outcome and the head after it. -/
structure VMContext where
  BlockHeight : Nat
  From : Address
  Value : BigInt
  Send : StorageMarketState → Address → Nat → BigInt → Bytes →
    Except ActorError Bytes × StorageMarketState

/-- Appends an event to the trace. -/
def VMState.record (vm : VMState) (e : Event) : VMState :=
  { vm with trace := vm.trace ++ [e] }

/-- The call `vmctx.Storage().GetHead()`. -/
def GetHead (vm : VMState) : StorageMarketState × VMState :=
  (vm.head, vm.record .getHead)

/-- The call `vmctx.Storage().Get(root, &self)`. -/
def Get (vm : VMState) (root : StorageMarketState) : StorageMarketState × VMState :=
  (root, vm.record (.get root))

/-- The call `vmctx.Storage().Put(&self)`. -/
def Put (vm : VMState) (self : StorageMarketState) : StorageMarketState × VMState :=
  (self, vm.record (.put self))

/-- Modelled from the spec: `vmctx.Storage().Commit(old, new)` (implemented in
the virtual machine) is a compare-and-swap on the head of the actor: it
succeeds only if the head is still `old`. -/
def Commit (vm : VMState) (old new : StorageMarketState) : Option ActorError × VMState :=
  let vm1 := vm.record (.commit old new)
  if vm1.head = old then (none, { vm1 with head := new })
  else (some .staleCommit, vm1)

/-- The call `vmctx.Send(dest, method, value, params)`. -/
def Send (vmctx : VMContext) (vm : VMState) (dest : Address) (method : Nat) (value : BigInt)
    (params : Bytes) : Except ActorError Bytes × VMState :=
  let r := vmctx.Send vm.head dest method value params
  (r.1, { head := r.2, trace := vm.trace ++ [.send dest method value params] })

/-! ## Signing and verifying a proposal -/

/-- The method `StorageDealProposal.Sign`: the outcome (`none` is a nil error)
and the proposal afterwards. -/
def StorageDealProposal.Sign (env : Env) (sdp : StorageDealProposal)
    (sign : Bytes → Option Signature) : Option Unit × StorageDealProposal :=
  if sdp.ProposerSignature ≠ none then
    (some (), sdp)
  else
    match env.marshalProposal sdp with
    | none => (some (), sdp)
    | some buf =>
      match sign buf with
      | none => (some (), sdp)
      | some sig => (none, { sdp with ProposerSignature := some sig })

/-- The method `StorageDealProposal.Verify`: `true` is a nil error.  The copy
`unsigned` is made and cleared, and the receiver `sdp` is what is encoded. -/
def StorageDealProposal.Verify (env : Env) (sdp : StorageDealProposal) : Bool :=
  let unsigned := sdp
  let _unsigned := { unsigned with ProposerSignature := none }
  match env.marshalProposal sdp with
  | none => false
  | some buf => env.verify sdp.ProposerSignature sdp.Client buf

/-! ## Deal validation -/

/-- The method `StorageMarketState.validateDeal`: the error (`none` is nil) and
the receiver afterwards. -/
def validateDeal (env : Env) (vmctx : VMContext) (self : StorageMarketState)
    (deal : StorageDeal) : Option ActorError × StorageMarketState :=
  -- REVIEW: just > ?
  if vmctx.BlockHeight ≥ deal.Proposal.ProposalExpiration then
    (some (.new 1), self)
  else
  match env.marshalProposal deal.Proposal with
  | none => (some (.external .serializingDealProposal), self)
  | some proposalBuf =>
  if env.verify deal.Proposal.ProposerSignature deal.Proposal.Client proposalBuf = false then
    (some (.external .verifyingProposerSignature), self)
  else
  match env.marshalDeal deal with
  | none => (some (.external .serializingDeal), self)
  | some dealBuf =>
  if env.verify (some deal.CounterSignature) deal.Proposal.Provider dealBuf = false then
    (some (.external .verifyingProviderSignature), self)
  else
  if vmctx.From ≠ deal.Proposal.Provider ∧ vmctx.From ≠ deal.Proposal.Client then
    (some (.new 4), self)
  else
  let (b, bnd) := GetMarketBalances self.Balances [deal.Proposal.Client, deal.Proposal.Provider]
  let clientBalance := b.getD 0 zeroBalance
  let providerBalance := b.getD 1 zeroBalance
  if clientBalance.Available < deal.Proposal.StoragePrice then
    (some (.new 5), self)
  else
  let clientBalance := lockFunds clientBalance deal.Proposal.StoragePrice
  if providerBalance.Available < deal.Proposal.StorageCollateral then
    (some (.new 6), self)
  else
  let providerBalance := lockFunds providerBalance deal.Proposal.StorageCollateral
  let bcid := setMarketBalances bnd (goMapLit
    [(deal.Proposal.Client, clientBalance), (deal.Proposal.Provider, providerBalance)])
  (none, { self with Balances := bcid })

/-! ## Methods -/

/-- The method `StorageMarketActor.WithdrawBalance`. -/
def WithdrawBalance (vmctx : VMContext) (vm : VMState) (params : WithdrawBalanceParams) :
    Except ActorError Bytes × VMState :=
  -- TODO: (spec) this should be 2-stage
  let (old, vm) := GetHead vm
  let (self, vm) := Get vm old
  let (b, bnd) := GetMarketBalances self.Balances [vmctx.From]
  let balance := b.getD 0 zeroBalance
  if balance.Available < params.Balance then
    (.error (.new 1), vm)
  else
  let balance := { balance with Available := balance.Available - params.Balance }
  match Send vmctx vm vmctx.From 0 params.Balance [] with
  | (.error err, vm) => (.error (.wrap err), vm)
  | (.ok _, vm) =>
  let bcid := setMarketBalances bnd (goMapLit [(vmctx.From, balance)])
  let self := { self with Balances := bcid }
  let (nroot, vm) := Put vm self
  match Commit vm old nroot with
  | (some aerr, vm) => (.error aerr, vm)
  | (none, vm) => (.ok [], vm)

/-- The method `StorageMarketActor.AddBalance`. -/
def AddBalance (vmctx : VMContext) (vm : VMState) : Except ActorError Bytes × VMState :=
  let (old, vm) := GetHead vm
  let (self, vm) := Get vm old
  let (b, bnd) := GetMarketBalances self.Balances [vmctx.From]
  let balance := b.getD 0 zeroBalance
  let balance := { balance with Available := balance.Available + vmctx.Value }
  let bcid := setMarketBalances bnd (goMapLit [(vmctx.From, balance)])
  let self := { self with Balances := bcid }
  let (nroot, vm) := Put vm self
  match Commit vm old nroot with
  | (some aerr, vm) => (.error aerr, vm)
  | (none, vm) => (.ok [], vm)

/-- The loop `for i, deal := range params.Deals` of `PublishStorageDeals`, over
the working copies `self`, `deals` and `out.DealIDs` (the identifiers assigned
so far); an error is the early return of the method. -/
def publishLoop (env : Env) (vmctx : VMContext) :
    StorageMarketState → DealArray → List Nat → List StorageDeal →
    Except ActorError (StorageMarketState × DealArray × List Nat)
  | self, deals, out, [] => .ok (self, deals, out)
  | self, deals, out, deal :: rest =>
    match validateDeal env vmctx self deal with
    | (some err, _) => .error err
    | (none, self) =>
      let deals := kvSet self.NextDealID { Deal := deal, ActivationEpoch := 0 } deals
      let out := out ++ [self.NextDealID]
      let self := { self with NextDealID := (self.NextDealID + 1) % 2 ^ 64 }
      publishLoop env vmctx self deals out rest

/-- The method `StorageMarketActor.PublishStorageDeals`. -/
def PublishStorageDeals (env : Env) (vmctx : VMContext) (vm : VMState)
    (params : PublishStorageDealsParams) : Except ActorError Bytes × VMState :=
  let (old, vm) := GetHead vm
  let (self, vm) := Get vm old
  let deals := self.Deals
  let vm := vm.record (.loadAMT self.Deals)
  -- todo: handle duplicate deals
  match publishLoop env vmctx self deals [] params.Deals with
  | .error err => (.error err, vm)
  | .ok (self, deals, out) =>
  let dealsCid := deals
  let vm := vm.record (.flushAMT dealsCid)
  let self := { self with Deals := dealsCid }
  let (nroot, vm) := Put vm self
  match Commit vm old nroot with
  | (some aerr, vm) => (.error aerr, vm)
  | (none, vm) =>
  match env.marshalResponse { DealIDs := out } with
  | none => (.error (.external .serialisingOutput), vm)
  | some outBuf => (.ok outBuf, vm)

/-- The loop `for _, deal := range params.Deals` of `ActivateStorageDeals`,
over the working copy `deals`; an error is the early return of the method. -/
def activateLoop (vmctx : VMContext) : DealArray → List Nat → Except ActorError DealArray
  | deals, [] => .ok deals
  | deals, deal :: rest =>
    match kvFind deal deals with
    | none => .error (.external .gettingDealInfo)
    | some dealInfo =>
      if vmctx.From ≠ dealInfo.Deal.Proposal.Provider then
        .error (.new 1)
      else if vmctx.BlockHeight > dealInfo.Deal.Proposal.ProposalExpiration then
        .error (.new 2)
      else if dealInfo.ActivationEpoch > 0 then
        -- this probably can't happen in practice
        .error (.new 3)
      else
        let dealInfo := { dealInfo with ActivationEpoch := vmctx.BlockHeight }
        activateLoop vmctx (kvSet deal dealInfo deals) rest

/-- The method `StorageMarketActor.ActivateStorageDeals`. -/
def ActivateStorageDeals (vmctx : VMContext) (vm : VMState)
    (params : ActivateStorageDealsParams) : Except ActorError Bytes × VMState :=
  let (old, vm) := GetHead vm
  let (self, vm) := Get vm old
  let deals := self.Deals
  let vm := vm.record (.loadAMT self.Deals)
  match activateLoop vmctx deals params.Deals with
  | .error err => (.error err, vm)
  | .ok deals =>
  let dealsCid := deals
  let vm := vm.record (.flushAMT dealsCid)
  let self := { self with Deals := dealsCid }
  let (nroot, vm) := Put vm self
  match Commit vm old nroot with
  | (some aerr, vm) => (.error aerr, vm)
  | (none, vm) => (.ok [], vm)

/-- How the loop of `ProcessStorageDealsPayment` ends: it runs to its end with
the working copy `self`, or the method returns from inside it with the given
error (`none` is `return nil, nil`). -/
inductive PaymentLoop where
  | finished (self : StorageMarketState)
  | returned (err : Option ActorError)
deriving DecidableEq

/-- The loop `for _, deal := range params.DealIDs` of
`ProcessStorageDealsPayment`, over the working copy `self` and the virtual
machine state; `deals` is the AMT loaded before the loop. -/
def paymentLoop (env : Env) (vmctx : VMContext) (deals : DealArray) :
    StorageMarketState → VMState → List Nat → PaymentLoop × VMState
  | self, vm, [] => (.finished self, vm)
  | self, vm, deal :: rest =>
    match kvFind deal deals with
    | none => (.returned (some (.external .gettingDealInfo)), vm)
    | some dealInfo =>
      match env.isMinerParams vmctx.From with
      | .error err => (.returned (some err), vm)
      | .ok encoded =>
        match Send vmctx vm env.StoragePowerAddress env.IsMiner 0 encoded with
        | (.error err, vm) => (.returned (some err), vm)
        | (.ok ret, vm) =>
          if ret = CborBoolTrue then
            (.returned (some (.new 1)), vm)
          else if vmctx.BlockHeight > dealInfo.Deal.Proposal.ProposalExpiration then
            -- TODO: ???
            (.returned none, vm)
          else
            -- todo: check math (written on a plane, also tired)
            -- TODO: division is hard, this more than likely has some off-by-one issue
            match BigDiv (dealInfo.Deal.Proposal.StoragePrice * (env.ProvingPeriodDuration : Int))
                (dealInfo.Deal.Proposal.Duration : Int) with
            | none => (.returned (some .runtimePanic), vm)
            | some toPay =>
              let (b, bnd) := GetMarketBalances self.Balances
                [dealInfo.Deal.Proposal.Client, dealInfo.Deal.Proposal.Provider]
              let clientBal := b.getD 0 zeroBalance
              let providerBal := b.getD 1 zeroBalance
              let r := transferFunds clientBal.Locked providerBal.Available toPay
              let clientBal := { clientBal with Locked := r.1 }
              let providerBal := { providerBal with Available := r.2 }
              -- TODO: call set once
              let bcid := setMarketBalances bnd (goMapLit
                [(dealInfo.Deal.Proposal.Client, clientBal),
                 (dealInfo.Deal.Proposal.Provider, providerBal)])
              paymentLoop env vmctx deals { self with Balances := bcid } vm rest

/-- The method `StorageMarketActor.ProcessStorageDealsPayment`. -/
def ProcessStorageDealsPayment (env : Env) (vmctx : VMContext) (vm : VMState)
    (params : ProcessStorageDealsPaymentParams) : Except ActorError Bytes × VMState :=
  let (old, vm) := GetHead vm
  let (self, vm) := Get vm old
  let deals := self.Deals
  let vm := vm.record (.loadAMT self.Deals)
  match paymentLoop env vmctx deals self vm params.DealIDs with
  | (.returned (some err), vm) => (.error err, vm)
  | (.returned none, vm) => (.ok [], vm)
  | (.finished self, vm) =>
  let (nroot, vm) := Put vm self
  match Commit vm old nroot with
  | (some aerr, vm) => (.error aerr, vm)
  | (none, vm) => (.ok [], vm)

/-- The balance the actor reports for an address in a market state. -/
def balanceOf (st : StorageMarketState) (a : Address) : StorageParticipantBalance :=
  getOrZero st.Balances a

/-! ## Auxiliary definitions for the statements -/

/-- The balance map that a successful `validateDeal` writes back. -/
def lockedBalances (self : StorageMarketState) (deal : StorageDeal) : BalanceMap :=
  setMarketBalances self.Balances (goMapLit
    [(deal.Proposal.Client,
        lockFunds (getOrZero self.Balances deal.Proposal.Client) deal.Proposal.StoragePrice),
     (deal.Proposal.Provider,
        lockFunds (getOrZero self.Balances deal.Proposal.Provider)
          deal.Proposal.StorageCollateral)])

/-- Both signatures of a deal verify over the bytes that `validateDeal` encodes
for them. -/
def validSignatures (env : Env) (deal : StorageDeal) : Prop :=
  (∃ buf, env.marshalProposal deal.Proposal = some buf ∧
    env.verify deal.Proposal.ProposerSignature deal.Proposal.Client buf = true) ∧
  (∃ buf, env.marshalDeal deal = some buf ∧
    env.verify (some deal.CounterSignature) deal.Proposal.Provider buf = true)

/-- The checks that `validateDeal` makes before it reads any balance: the
proposal has not expired, both signatures verify, and the message comes from
the provider or the client. -/
def passesChecks (env : Env) (vmctx : VMContext) (deal : StorageDeal) : Prop :=
  vmctx.BlockHeight < deal.Proposal.ProposalExpiration ∧
  validSignatures env deal ∧
  (vmctx.From = deal.Proposal.Provider ∨ vmctx.From = deal.Proposal.Client)

/-- The receiver after the deals of a batch have been validated one after the
other, each against the balances left by the ones before it; `none` when one
of them is rejected. -/
def validateAll (env : Env) (vmctx : VMContext) :
    StorageMarketState → List StorageDeal → Option StorageMarketState
  | self, [] => some self
  | self, deal :: rest =>
    match validateDeal env vmctx self deal with
    | (some _, _) => none
    | (none, self1) => validateAll env vmctx self1 rest

/-- The identifiers handed out by `n` rounds of the publish loop that starts
with the counter at `c`. -/
def idsFrom : Nat → Nat → List Nat
  | _, 0 => []
  | c, n + 1 => c :: idsFrom ((c + 1) % 2 ^ 64) n

/-- The counter after `n` rounds of the publish loop that starts with the
counter at `c`. -/
def counterAfter : Nat → Nat → Nat
  | c, 0 => c
  | c, n + 1 => counterAfter ((c + 1) % 2 ^ 64) n

/-- The deal array after the publish loop has stored the given deals, starting
with the counter at `c`. -/
def storeDeals : DealArray → Nat → List StorageDeal → DealArray
  | deals, _, [] => deals
  | deals, c, deal :: rest =>
    storeDeals (kvSet c { Deal := deal, ActivationEpoch := 0 } deals) ((c + 1) % 2 ^ 64) rest

/-- The total `locked + available` of a balance. -/
def StorageParticipantBalance.total (b : StorageParticipantBalance) : BigInt :=
  b.Locked + b.Available

/-! ## Concrete environments and inputs -/

/-- A concrete encoding of a proposal: its fields in declaration order, the
signature as a presence tag followed by its bytes. -/
def demoMarshalProposal (p : StorageDealProposal) : Option Bytes :=
  some (p.PieceRef ++ [p.PieceSize, p.PieceSerialization, p.Client, p.Provider,
    p.ProposalExpiration, p.Duration, p.StoragePrice.toNat, p.StorageCollateral.toNat] ++
    (match p.ProposerSignature with
     | none => [0]
     | some sig => 1 :: sig.Data))

/-- A concrete encoding of a deal: the proposal, then the counter-signature. -/
def demoMarshalDeal (d : StorageDeal) : Option Bytes :=
  (demoMarshalProposal d.Proposal).map (fun b => b ++ d.CounterSignature.Data)

/-- A send function for contexts in which no call re-enters the actor: the
head is left as it is and the reply is `reply`. -/
def quietSend (reply : Bytes) : StorageMarketState → Address → Nat → BigInt → Bytes →
    Except ActorError Bytes × StorageMarketState :=
  fun head _ _ _ _ => (.ok reply, head)

/-- An environment whose signature check accepts, for an address, the
signature that carries exactly that address (it does not depend on the
message). -/
def demoEnv : Env where
  marshalProposal := demoMarshalProposal
  marshalDeal := demoMarshalDeal
  marshalResponse := fun r => some r.DealIDs
  verify := fun sig a _ => decide (sig = some { Data := [a] })
  ProvingPeriodDuration := 100
  isMinerParams := fun a => .ok [a]
  StoragePowerAddress := 2
  IsMiner := 1

/-- An environment whose signature check binds the message: the signature of
`msg` by `a` is `a` followed by `msg`. -/
def bindingEnv : Env :=
  { demoEnv with verify := fun sig a msg => decide (sig = some { Data := a :: msg }) }

/-- The signing function that goes with `bindingEnv`, for the signer `a`. -/
def bindingSign (a : Address) : Bytes → Option Signature :=
  fun msg => some { Data := a :: msg }

/-- The proposal of the end-to-end scenario of the specification: client 10,
provider 20, price 100, collateral 50, duration 200, expiration 10000. -/
def demoProposal (client provider : Address) : StorageDealProposal where
  PieceRef := [1, 2, 3]
  PieceSize := 1024
  PieceSerialization := 0
  Client := client
  Provider := provider
  ProposalExpiration := 10000
  Duration := 200
  StoragePrice := 100
  StorageCollateral := 50
  ProposerSignature := some { Data := [client] }

def demoDeal (client provider : Address) : StorageDeal where
  Proposal := demoProposal client provider
  CounterSignature := { Data := [provider] }

/-- The market state of the scenario: client 10 has 1000 available, provider
20 has 500 available, no deal yet. -/
def demoState : StorageMarketState where
  Balances := [(10, { Locked := 0, Available := 1000 }), (20, { Locked := 0, Available := 500 })]
  Deals := []
  NextDealID := 0

def demoCtx (height : Nat) (sender : Address) : VMContext where
  BlockHeight := height
  From := sender
  Value := 0
  Send := quietSend CborBoolFalse


/-- The market state after the deal of the scenario has been published: the
client has 100 locked, the provider 50, and the deal is stored under
identifier 0. -/
def paidState : StorageMarketState where
  Balances := [(10, { Locked := 100, Available := 900 }), (20, { Locked := 50, Available := 450 })]
  Deals := [(0, { Deal := demoDeal 10 20, ActivationEpoch := 0 })]
  NextDealID := 1

/-- The proposal of the scenario before it is signed. -/
def unsignedProposal : StorageDealProposal :=
  { demoProposal 10 20 with ProposerSignature := none }

/-- The proposal of the scenario as `Sign` leaves it when it is given the
signing function of `bindingEnv` for the client. -/
def signedProposal : StorageDealProposal :=
  (StorageDealProposal.Sign bindingEnv unsignedProposal (bindingSign 10)).2

/-- An environment whose signature check accepts, for an address, the
signature that carries that address, on messages that end with that address. -/
def tailEnv : Env :=
  { demoEnv with
    verify := fun sig a msg => decide (sig = some { Data := [a] }) && decide (msg.getLast? = some a) }

/-- The market state after the provider has activated deal 0 at epoch 50. -/
def activeState : StorageMarketState :=
  { paidState with Deals := [(0, { Deal := demoDeal 10 20, ActivationEpoch := 50 })] }

/-- A deal like the one of the scenario with a storage price of 950: the
client of `demoState` can pay for it, the client of `paidState` cannot. -/
def dearDeal : StorageDeal :=
  { demoDeal 10 20 with Proposal := { demoProposal 10 20 with StoragePrice := 950 } }

/-- The identifiers `c`, `c + 1`, ..., `c + n - 1` in `uint64` arithmetic. -/
def sequentialIDs (c n : Nat) : List Nat :=
  (List.range n).map (fun i => (c + i) % 2 ^ 64)

/-- A state like `paidState` whose deal 0 lasts 50 epochs, half a proving
period of `demoEnv`. -/
def shortDealState : StorageMarketState :=
  { paidState with
    Deals := [(0, { Deal := { demoDeal 10 20 with
                              Proposal := { demoProposal 10 20 with Duration := 50 } },
                    ActivationEpoch := 0 })] }

/-- The error with which one round of the loop of `ActivateStorageDeals`
returns for the identifier `deal`, given the working copy `deals` of the deal
array; `none` when the round passes its four checks. -/
def activationError (vmctx : VMContext) (deals : DealArray) (deal : Nat) : Option ActorError :=
  match kvFind deal deals with
  | none => some (.external .gettingDealInfo)
  | some dealInfo =>
    if vmctx.From ≠ dealInfo.Deal.Proposal.Provider then some (.new 1)
    else if vmctx.BlockHeight > dealInfo.Deal.Proposal.ProposalExpiration then some (.new 2)
    else if dealInfo.ActivationEpoch > 0 then some (.new 3)
    else none

/-- A deal record with its activation epoch set to `epoch`. -/
def OnChainDeal.activatedAt (d : OnChainDeal) (epoch : Nat) : OnChainDeal :=
  { d with ActivationEpoch := epoch }

/-- The deal stored under `id` in `s`, when it is active, is still stored in
`s1` with the same activation epoch. -/
def keepsActivation (id : Nat) (s s1 : StorageMarketState) : Prop :=
  ∀ d, kvFind id s.Deals = some d → 0 < d.ActivationEpoch →
    ∃ d1, kvFind id s1.Deals = some d1 ∧ d1.ActivationEpoch = d.ActivationEpoch

/-- A state like `activeState` whose counter is still at 0, the identifier of
its stored deal. -/
def staleCounterState : StorageMarketState :=
  { activeState with NextDealID := 0 }

/-- The market state after the provider has activated deal 0 at epoch 60. -/
def activeState60 : StorageMarketState :=
  { paidState with Deals := [(0, { Deal := demoDeal 10 20, ActivationEpoch := 60 })] }

/-- The balance map that `WithdrawBalance` and `AddBalance` write back: the
entry of `a` replaced by `b`. -/
def withBalance (self : StorageMarketState) (a : Address) (b : StorageParticipantBalance) :
    StorageMarketState :=
  { self with Balances := setMarketBalances self.Balances (goMapLit [(a, b)]) }

/-- A context like `demoCtx` in which the storage power actor answers the
`IsMiner` query with true. -/
def minerCtx (height : Nat) (sender : Address) : VMContext where
  BlockHeight := height
  From := sender
  Value := 0
  Send := quietSend CborBoolTrue

/-- A state like `activeState` whose counter is at the last `uint64`. -/
def fullCounterState : StorageMarketState :=
  { activeState with NextDealID := 2 ^ 64 - 1 }

/-! ## Dispatch table -/

/-- The struct `smaMethods` of method numbers. -/
structure smaMethods where
  Constructor : Nat
  WithdrawBalance : Nat
  AddBalance : Nat
  CheckLockedBalance : Nat
  PublishStorageDeals : Nat
  HandleCronAction : Nat
  SettleExpiredDeals : Nat
  ProcessStorageDealsPayment : Nat
  SlashStorageDealCollateral : Nat
  GetLastExpirationFromDealIDs : Nat
  ActivateStorageDeals : Nat

/-- The variable `SMAMethods`. -/
def SMAMethods : smaMethods :=
  { Constructor := 1, WithdrawBalance := 2, AddBalance := 3, CheckLockedBalance := 4,
    PublishStorageDeals := 5, HandleCronAction := 6, SettleExpiredDeals := 7,
    ProcessStorageDealsPayment := 8, SlashStorageDealCollateral := 9,
    GetLastExpirationFromDealIDs := 10, ActivateStorageDeals := 11 }

/-- The methods of `StorageMarketActor` that have a body in the source. -/
inductive Handler where
  | WithdrawBalance
  | AddBalance
  | PublishStorageDeals
  | ActivateStorageDeals
  | ProcessStorageDealsPayment
deriving DecidableEq

/-- A Go slice literal with keyed elements `[]T{k1: v1, k2: v2, ...}`: its
length is the largest key plus one, and an index without an element holds
nil. -/
def goKeyedSlice {α : Type} (elems : List (Nat × α)) : List (Option α) :=
  (List.range ((elems.map (fun e => e.1)).foldl max 0 + 1)).map (fun i => kvFind i elems)

/-- The method `StorageMarketActor.Exports`.  The entries 4, 6, 7, 8, 9 and 10
are commented out in the source. -/
def Exports : List (Option Handler) :=
  goKeyedSlice
    [(2, .WithdrawBalance),
     (3, .AddBalance),
     -- 4: sma.CheckLockedBalance,
     (5, .PublishStorageDeals),
     -- 6: sma.HandleCronAction,
     -- 7: sma.SettleExpiredDeals,
     -- 8: sma.ProcessStorageDealsPayment,
     -- 9: sma.SlashStorageDealCollateral,
     -- 10: sma.GetLastExpirationFromDealIDs,
     (11, .ActivateStorageDeals)]

/-- The handler that the dispatch table holds for a method number, if any. -/
def handlerAt (method : Nat) : Option Handler :=
  (Exports.getD method none)

/-! ## Auxiliary definitions for the payment statements -/

/-- The amount that a round of the payment loop computes for a stored deal:
`none` when the division panics. -/
def toPayOf (env : Env) (d : OnChainDeal) : Option BigInt :=
  BigDiv (d.Deal.Proposal.StoragePrice * (env.ProvingPeriodDuration : Int))
    (d.Deal.Proposal.Duration : Int)

/-- The balance map that a round of the payment loop writes back when it pays
`toPay` for the deal `d`. -/
def settledBalances (self : StorageMarketState) (d : OnChainDeal) (toPay : BigInt) :
    BalanceMap :=
  setMarketBalances self.Balances (goMapLit
    [(d.Deal.Proposal.Client,
        { Locked := (getOrZero self.Balances d.Deal.Proposal.Client).Locked - toPay,
          Available := (getOrZero self.Balances d.Deal.Proposal.Client).Available }),
     (d.Deal.Proposal.Provider,
        { Locked := (getOrZero self.Balances d.Deal.Proposal.Provider).Locked,
          Available := (getOrZero self.Balances d.Deal.Proposal.Provider).Available + toPay })])

/-- A context whose caller gets through the caller check of
`ProcessStorageDealsPayment`: the parameters of the `IsMiner` query encode to
`encoded`, and the query returns, with the head of the actor as it was, an
answer that the check lets through. -/
def passesCallerCheck (env : Env) (vmctx : VMContext) (encoded : Bytes) : Prop :=
  env.isMinerParams vmctx.From = .ok encoded ∧
  ∀ head, ∃ ret,
    vmctx.Send head env.StoragePowerAddress env.IsMiner 0 encoded = (.ok ret, head) ∧
    ret ≠ CborBoolTrue

/-- The per-deal settlement in the words of the specification, on the balances
as a function of the address: the client's locked balance falls by `toPay`,
the provider's available balance rises by `toPay`; `none` when `toPay` is not
defined. -/
def settleOne (env : Env) (bal : Address → StorageParticipantBalance) (d : OnChainDeal) :
    Option (Address → StorageParticipantBalance) :=
  (toPayOf env d).map (fun toPay a =>
    if a = d.Deal.Proposal.Client then
      { Locked := (bal a).Locked - toPay, Available := (bal a).Available }
    else if a = d.Deal.Proposal.Provider then
      { Locked := (bal a).Locked, Available := (bal a).Available + toPay }
    else bal a)

/-- The per-deal settlement applied to a list of deals in order, each to the
balances produced by the previous one. -/
def settleAll (env : Env) :
    (Address → StorageParticipantBalance) → List OnChainDeal →
      Option (Address → StorageParticipantBalance)
  | bal, [] => some bal
  | bal, d :: rest =>
    match settleOne env bal d with
    | none => none
    | some bal1 => settleAll env bal1 rest

/-- The sum of `locked + available` over the entries of a balance map. -/
def fundsSum (m : BalanceMap) : BigInt :=
  (m.map (fun e => e.2.total)).sum

/-- The virtual machine state in which the loops of the methods start: the
three reads at entry have been made. -/
def afterReads (vm : VMState) : VMState :=
  { head := vm.head,
    trace := vm.trace ++ [.getHead, .get vm.head, .loadAMT vm.head.Deals] }

/-- A market state with two stored deals of client 10 and provider 20, each
with price 100 and duration 200. -/
def twoDealState : StorageMarketState where
  Balances := [(10, { Locked := 200, Available := 800 }), (20, { Locked := 100, Available := 400 })]
  Deals := [(0, { Deal := demoDeal 10 20, ActivationEpoch := 0 }),
            (1, { Deal := demoDeal 10 20, ActivationEpoch := 0 })]
  NextDealID := 2

/-- The market state committed by `PublishStorageDeals` on the deal of which
address 10 is both the client and the provider. -/
def soloState : StorageMarketState where
  Balances := [(10, { Locked := 50, Available := 950 }), (20, { Locked := 0, Available := 500 })]
  Deals := [(0, { Deal := demoDeal 10 10, ActivationEpoch := 0 })]
  NextDealID := 1

/-- The deal of the scenario with a duration of 0. -/
def zeroDurationDeal : StorageDeal :=
  { demoDeal 10 20 with Proposal := { demoProposal 10 20 with Duration := 0 } }

/-- The market state committed by `PublishStorageDeals` on `zeroDurationDeal`. -/
def zeroDurationState : StorageMarketState :=
  { paidState with Deals := [(0, { Deal := zeroDurationDeal, ActivationEpoch := 0 })] }

/-- The deal of the scenario with a proposal expiration of 40. -/
def expiredDeal : StorageDeal :=
  { demoDeal 10 20 with Proposal := { demoProposal 10 20 with ProposalExpiration := 40 } }

/-- A market state with the zero-duration deal under identifier 0 and a deal that
expires at epoch 40 under identifier 1. -/
def mixedState : StorageMarketState :=
  { twoDealState with
    Deals := [(0, { Deal := zeroDurationDeal, ActivationEpoch := 0 }),
              (1, { Deal := expiredDeal, ActivationEpoch := 0 })] }

/-- A market state with the deal of the scenario under identifier 0 and a deal
that expires at epoch 40 under identifier 1. -/
def expiringState : StorageMarketState :=
  { twoDealState with
    Deals := [(0, { Deal := demoDeal 10 20, ActivationEpoch := 0 }),
              (1, { Deal := expiredDeal, ActivationEpoch := 0 })] }

/-- The event is a send. -/
def Event.isSend : Event → Bool
  | .send _ _ _ _ => true
  | _ => false

/-! ## Auxiliary definitions for the statements on identifiers and on commits -/

/-- Every identifier present in the deal array is below the counter. -/
def dealsBelowCounter (s : StorageMarketState) : Prop :=
  ∀ id d, kvFind id s.Deals = some d → id < s.NextDealID

/-- From `s` to `s1` the identifiers stay below the counter, the counter does
not decrease, and every record of `s` is still stored with the same deal. -/
def extendsDeals (s s1 : StorageMarketState) : Prop :=
  dealsBelowCounter s1 ∧ s.NextDealID ≤ s1.NextDealID ∧
    ∀ id d, kvFind id s.Deals = some d → ∃ d1, kvFind id s1.Deals = some d1 ∧ d1.Deal = d.Deal

/-- When the identifiers of `s` are below its counter, `s1` extends `s`. -/
def keepsDeals (s s1 : StorageMarketState) : Prop :=
  dealsBelowCounter s → extendsDeals s s1

/-- The event is a commit. -/
def Event.isCommit : Event → Bool
  | .commit _ _ => true
  | _ => false

/-- The shape of the calls that one execution of a method adds to the trace:
they start with the read of the head; they hold no commit, or they end with
the put of a state followed by the one commit, whose expected root is the
head at entry and whose new root is the state just put, which is the head
afterwards unless the commit fails; and an execution that returns any other
error than that of the commit or of the encoding of the output has issued no
commit. -/
def commitsOnceAtEnd (vm : VMState) (r : Except ActorError Bytes × VMState) : Prop :=
  ∃ evs, r.2.trace = vm.trace ++ evs ∧ evs.head? = some .getHead ∧
    ((∀ e ∈ evs, e.isCommit = false) ∨
      ∃ pre st, evs = pre ++ [.put st, .commit vm.head st] ∧
        (∀ e ∈ pre, e.isCommit = false) ∧
        (r.1 ≠ .error .staleCommit → r.2.head = st)) ∧
    (∀ e, r.1 = .error e → e ≠ .staleCommit → e ≠ .external .serialisingOutput →
      ∀ ev ∈ evs, ev.isCommit = false)

/-- A context whose caller is authorised for `ProcessStorageDealsPayment`: the
parameters of the `IsMiner` query encode to `encoded`, and the storage power
actor answers the query with true, the caller is a registered storage miner
actor, and leaves the head of the actor as it was. -/
def authorisedCaller (env : Env) (vmctx : VMContext) (encoded : Bytes) : Prop :=
  env.isMinerParams vmctx.From = .ok encoded ∧
  ∀ head, vmctx.Send head env.StoragePowerAddress env.IsMiner 0 encoded =
    (.ok CborBoolTrue, head)

/-- A state like `demoState` whose counter is at the last `uint64`. -/
def lastCounterState : StorageMarketState :=
  { demoState with NextDealID := 2 ^ 64 - 1 }

/-! ## Basic facts about the persistent structures -/

theorem kvFind_kvSet {α : Type} (k j : Nat) (v : α) (m : List (Nat × α)) :
    kvFind j (kvSet k v m) = if k = j then some v else kvFind j m := by
  induction m with
  | nil => simp [kvSet, kvFind]
  | cons e m ih =>
    obtain ⟨k', v'⟩ := e
    by_cases h : k' = k
    · subst h
      by_cases hj : k' = j <;> simp [kvSet, kvFind, hj]
    · by_cases hj : k' = j
      · subst hj
        have hk : ¬ k = k' := fun e => h e.symm
        simp [kvSet, kvFind, h, hk]
      · simp [kvSet, kvFind, h, hj, ih]

theorem getOrZero_kvSet (k j : Nat) (v : StorageParticipantBalance) (m : BalanceMap) :
    getOrZero (kvSet k v m) j = if k = j then v else getOrZero m j := by
  unfold getOrZero
  rw [kvFind_kvSet]
  by_cases h : k = j <;> simp [h]

theorem goMapLit_two {α : Type} (c p : Nat) (cb pb : α) :
    goMapLit [(c, cb), (p, pb)] = if c = p then [(p, pb)] else [(c, cb), (p, pb)] := by
  by_cases h : c = p <;> simp [goMapLit, kvSet, h]

/-- The balances written by a `setMarketBalances` call on a two-element map
literal: the second element wins on its key, the first on its own key when the
keys differ, every other address keeps its balance. -/
theorem getOrZero_set_two (nd : BalanceMap) (c p a : Address)
    (cb pb : StorageParticipantBalance) :
    getOrZero (setMarketBalances nd (goMapLit [(c, cb), (p, pb)])) a =
      if p = a then pb else if c = a then cb else getOrZero nd a := by
  rw [goMapLit_two]
  by_cases hcp : c = p
  · subst hcp
    by_cases ha : c = a <;> simp [setMarketBalances, getOrZero_kvSet, ha]
  · rw [if_neg hcp]
    simp only [setMarketBalances, List.foldl, getOrZero_kvSet]

theorem getOrZero_set_one (nd : BalanceMap) (c a : Address) (cb : StorageParticipantBalance) :
    getOrZero (setMarketBalances nd (goMapLit [(c, cb)])) a =
      if c = a then cb else getOrZero nd a := by
  simp [setMarketBalances, goMapLit, kvSet, getOrZero_kvSet]

/-! ## Deal validation -/

theorem validateDeal_of_checks (env : Env) (vmctx : VMContext) (self : StorageMarketState)
    (deal : StorageDeal) (h : passesChecks env vmctx deal) :
    validateDeal env vmctx self deal =
      if (getOrZero self.Balances deal.Proposal.Client).Available < deal.Proposal.StoragePrice
      then (some (.new 5), self)
      else if (getOrZero self.Balances deal.Proposal.Provider).Available <
          deal.Proposal.StorageCollateral
      then (some (.new 6), self)
      else (none, { self with Balances := lockedBalances self deal }) := by
  obtain ⟨hexp, ⟨⟨pb, hpb, hpv⟩, ⟨db, hdb, hdv⟩⟩, hfrom⟩ := h
  have h1 : ¬ vmctx.BlockHeight ≥ deal.Proposal.ProposalExpiration := by omega
  have h2 : ¬ (vmctx.From ≠ deal.Proposal.Provider ∧ vmctx.From ≠ deal.Proposal.Client) := by
    rcases hfrom with h | h <;> simp [h]
  simp only [validateDeal, h1, if_false, hpb, hpv, hdb, hdv, h2, GetMarketBalances,
    lockedBalances]
  simp

/-- When one of the checks fails, `validateDeal` returns an error that does not
depend on its receiver, and leaves the receiver as it was. -/
theorem validateDeal_of_not_checks (env : Env) (vmctx : VMContext)
    (deal : StorageDeal) (h : ¬ passesChecks env vmctx deal) :
    ∃ e, ∀ self, validateDeal env vmctx self deal = (some e, self) := by
  by_cases h1 : vmctx.BlockHeight ≥ deal.Proposal.ProposalExpiration
  · exact ⟨.new 1, fun self => by simp [validateDeal, h1]⟩
  cases hpb : env.marshalProposal deal.Proposal with
  | none =>
    exact ⟨.external .serializingDealProposal, fun self => by simp [validateDeal, h1, hpb]⟩
  | some pb =>
    cases hpv : env.verify deal.Proposal.ProposerSignature deal.Proposal.Client pb with
    | false =>
      exact ⟨.external .verifyingProposerSignature,
        fun self => by simp [validateDeal, h1, hpb, hpv]⟩
    | true =>
      cases hdb : env.marshalDeal deal with
      | none =>
        exact ⟨.external .serializingDeal, fun self => by simp [validateDeal, h1, hpb, hpv, hdb]⟩
      | some db =>
        cases hdv : env.verify (some deal.CounterSignature) deal.Proposal.Provider db with
        | false =>
          exact ⟨.external .verifyingProviderSignature,
            fun self => by simp [validateDeal, h1, hpb, hpv, hdb, hdv]⟩
        | true =>
          by_cases h2 : vmctx.From ≠ deal.Proposal.Provider ∧ vmctx.From ≠ deal.Proposal.Client
          · exact ⟨.new 4, fun self => by simp [validateDeal, h1, hpb, hpv, hdb, hdv, h2]⟩
          · exfalso
            apply h
            refine ⟨Nat.lt_of_not_ge h1, ⟨⟨pb, hpb, hpv⟩, ⟨db, hdb, hdv⟩⟩, ?_⟩
            by_contra hcon
            exact h2 ⟨fun e => hcon (Or.inl e), fun e => hcon (Or.inr e)⟩

theorem validateDeal_ok_iff (env : Env) (vmctx : VMContext) (self self1 : StorageMarketState)
    (deal : StorageDeal) :
    validateDeal env vmctx self deal = (none, self1) ↔
      passesChecks env vmctx deal ∧
      deal.Proposal.StoragePrice ≤ (getOrZero self.Balances deal.Proposal.Client).Available ∧
      deal.Proposal.StorageCollateral ≤
        (getOrZero self.Balances deal.Proposal.Provider).Available ∧
      self1 = { self with Balances := lockedBalances self deal } := by
  constructor
  · intro h
    have hc : passesChecks env vmctx deal := by
      by_contra hn
      obtain ⟨e, he⟩ := validateDeal_of_not_checks env vmctx deal hn
      rw [he self] at h
      simp at h
    rw [validateDeal_of_checks env vmctx self deal hc] at h
    refine ⟨hc, ?_⟩
    by_cases h5 : (getOrZero self.Balances deal.Proposal.Client).Available <
        deal.Proposal.StoragePrice
    · simp [h5] at h
    by_cases h6 : (getOrZero self.Balances deal.Proposal.Provider).Available <
        deal.Proposal.StorageCollateral
    · simp [h5, h6] at h
    rw [if_neg h5, if_neg h6] at h
    exact ⟨not_lt.mp h5, not_lt.mp h6, (Prod.mk.inj h).2.symm⟩
  · rintro ⟨hc, h5, h6, rfl⟩
    rw [validateDeal_of_checks env vmctx self deal hc, if_neg (not_lt.mpr h5),
      if_neg (not_lt.mpr h6)]

/-- On an error `validateDeal` leaves its receiver as it was. -/
theorem validateDeal_error_state (env : Env) (vmctx : VMContext) (self self1 : StorageMarketState)
    (deal : StorageDeal) (e : ActorError)
    (h : validateDeal env vmctx self deal = (some e, self1)) : self1 = self := by
  by_cases hc : passesChecks env vmctx deal
  · rw [validateDeal_of_checks env vmctx self deal hc] at h
    split at h
    · exact (Prod.mk.inj h).2.symm
    split at h
    · exact (Prod.mk.inj h).2.symm
    · simp at h
  · obtain ⟨e', he⟩ := validateDeal_of_not_checks env vmctx deal hc
    rw [he self] at h
    exact (Prod.mk.inj h).2.symm

/-! ## The publish loop -/

theorem lockFunds_total (p : StorageParticipantBalance) (amt : BigInt) :
    (lockFunds p amt).total = p.total := by
  simp only [lockFunds, transferFunds, StorageParticipantBalance.total]
  ring

theorem getOrZero_lockedBalances (self : StorageMarketState) (deal : StorageDeal) (a : Address) :
    getOrZero (lockedBalances self deal) a =
      if deal.Proposal.Provider = a then
        lockFunds (getOrZero self.Balances deal.Proposal.Provider) deal.Proposal.StorageCollateral
      else if deal.Proposal.Client = a then
        lockFunds (getOrZero self.Balances deal.Proposal.Client) deal.Proposal.StoragePrice
      else getOrZero self.Balances a := by
  unfold lockedBalances
  rw [getOrZero_set_two]

theorem lockedBalances_total (self : StorageMarketState) (deal : StorageDeal) (a : Address) :
    (getOrZero (lockedBalances self deal) a).total = (getOrZero self.Balances a).total := by
  rw [getOrZero_lockedBalances]
  by_cases hp : deal.Proposal.Provider = a
  · rw [if_pos hp, lockFunds_total, hp]
  · rw [if_neg hp]
    by_cases hc : deal.Proposal.Client = a
    · rw [if_pos hc, lockFunds_total, hc]
    · rw [if_neg hc]

theorem validateAll_cons_some (env : Env) (vmctx : VMContext) (self s : StorageMarketState)
    (deal : StorageDeal) (rest : List StorageDeal)
    (h : validateAll env vmctx self (deal :: rest) = some s) :
    validateDeal env vmctx self deal =
        (none, { self with Balances := lockedBalances self deal }) ∧
      validateAll env vmctx { self with Balances := lockedBalances self deal } rest = some s := by
  unfold validateAll at h
  cases hv : validateDeal env vmctx self deal with
  | mk r self1 =>
    cases r with
    | some e => rw [hv] at h; simp at h
    | none =>
      rw [hv] at h
      have h1 := ((validateDeal_ok_iff env vmctx self self1 deal).mp hv).2.2.2
      subst h1
      exact ⟨rfl, h⟩

/-- The outcome of `validateDeal` depends on its receiver through the balances
only. -/
theorem validateDeal_counter (env : Env) (vmctx : VMContext) (self : StorageMarketState)
    (deal : StorageDeal) (deals : DealArray) (n : Nat) :
    validateDeal env vmctx { self with Deals := deals, NextDealID := n } deal =
      ((validateDeal env vmctx self deal).1,
        { (validateDeal env vmctx self deal).2 with Deals := deals, NextDealID := n }) := by
  by_cases hc : passesChecks env vmctx deal
  · rw [validateDeal_of_checks env vmctx self deal hc, validateDeal_of_checks env vmctx _ deal hc]
    simp only [lockedBalances]
    split
    · rfl
    split
    · rfl
    · rfl
  · obtain ⟨e, he⟩ := validateDeal_of_not_checks env vmctx deal hc
    rw [he self, he]

theorem validateAll_counter (env : Env) (vmctx : VMContext) (ds : List StorageDeal) :
    ∀ (self s : StorageMarketState) (deals : DealArray) (n : Nat),
      validateAll env vmctx self ds = some s →
      validateAll env vmctx { self with Deals := deals, NextDealID := n } ds =
        some { s with Deals := deals, NextDealID := n } := by
  induction ds with
  | nil =>
    intro self s deals n h
    simp only [validateAll, Option.some.injEq] at h ⊢
    rw [h]
  | cons d rest ih =>
    intro self s deals n h
    obtain ⟨h1, h2⟩ := validateAll_cons_some env vmctx self s d rest h
    have h3 := ih _ s deals n h2
    unfold validateAll
    rw [validateDeal_counter, h1]
    exact h3

/-- Validation touches neither the deals nor the counter of its receiver. -/
theorem validateAll_frame (env : Env) (vmctx : VMContext) (ds : List StorageDeal) :
    ∀ (self s : StorageMarketState), validateAll env vmctx self ds = some s →
      s.Deals = self.Deals ∧ s.NextDealID = self.NextDealID := by
  induction ds with
  | nil =>
    intro self s h
    simp only [validateAll, Option.some.injEq] at h
    subst h
    exact ⟨rfl, rfl⟩
  | cons d rest ih =>
    intro self s h
    obtain ⟨_, h2⟩ := validateAll_cons_some env vmctx self s d rest h
    exact ih { self with Balances := lockedBalances self d } s h2

/-- Validation of a batch preserves the total of every address. -/
theorem validateAll_total (env : Env) (vmctx : VMContext) (ds : List StorageDeal) :
    ∀ (self s : StorageMarketState), validateAll env vmctx self ds = some s →
      ∀ a, (getOrZero s.Balances a).total = (getOrZero self.Balances a).total := by
  induction ds with
  | nil =>
    intro self s h a
    simp only [validateAll, Option.some.injEq] at h
    subst h
    rfl
  | cons d rest ih =>
    intro self s h a
    obtain ⟨_, h2⟩ := validateAll_cons_some env vmctx self s d rest h
    rw [ih { self with Balances := lockedBalances self d } s h2 a]
    exact lockedBalances_total self d a

/-- The publish loop on a batch whose deals all validate. -/
theorem publishLoop_of_validateAll (env : Env) (vmctx : VMContext) (ds : List StorageDeal) :
    ∀ (self s : StorageMarketState) (deals : DealArray) (out : List Nat),
      validateAll env vmctx self ds = some s →
      publishLoop env vmctx self deals out ds =
        .ok ({ s with NextDealID := counterAfter self.NextDealID ds.length },
          storeDeals deals self.NextDealID ds, out ++ idsFrom self.NextDealID ds.length) := by
  induction ds with
  | nil =>
    intro self s deals out h
    simp only [validateAll, Option.some.injEq] at h
    subst h
    simp [publishLoop, counterAfter, storeDeals, idsFrom]
  | cons d rest ih =>
    intro self s deals out h
    obtain ⟨h1, h2⟩ := validateAll_cons_some env vmctx self s d rest h
    have h3 := validateAll_counter env vmctx rest _ s self.Deals
      ((self.NextDealID + 1) % 2 ^ 64) h2
    have h4 := ih _ _ (kvSet self.NextDealID { Deal := d, ActivationEpoch := 0 } deals)
      (out ++ [self.NextDealID]) h3
    unfold publishLoop
    rw [h1]
    simp only [] at h4 ⊢
    rw [h4]
    have hf := (validateAll_frame env vmctx (d :: rest) self s h).1
    simp [counterAfter, storeDeals, idsFrom, hf]

/-- The publish loop on a batch whose first rejected deal is `deal`. -/
theorem publishLoop_of_reject (env : Env) (vmctx : VMContext) (pre : List StorageDeal) :
    ∀ (self s : StorageMarketState) (deals : DealArray) (out : List Nat) (deal : StorageDeal)
      (post : List StorageDeal) (e : ActorError),
      validateAll env vmctx self pre = some s →
      (validateDeal env vmctx s deal).1 = some e →
      publishLoop env vmctx self deals out (pre ++ deal :: post) = .error e := by
  induction pre with
  | nil =>
    intro self s deals out deal post e h he
    simp only [validateAll, Option.some.injEq] at h
    subst h
    simp only [List.nil_append]
    unfold publishLoop
    cases hv : validateDeal env vmctx self deal with
    | mk r self1 =>
      rw [hv] at he
      simp only at he
      subst he
      rfl
  | cons d rest ih =>
    intro self s deals out deal post e h he
    obtain ⟨h1, h2⟩ := validateAll_cons_some env vmctx self s d rest h
    have h3 := validateAll_counter env vmctx rest _ s self.Deals
      ((self.NextDealID + 1) % 2 ^ 64) h2
    have he' : (validateDeal env vmctx
        { s with Deals := self.Deals, NextDealID := (self.NextDealID + 1) % 2 ^ 64 } deal).1 =
        some e := by
      rw [validateDeal_counter, he]
    have h4 := ih _ _ (kvSet self.NextDealID { Deal := d, ActivationEpoch := 0 } deals)
      (out ++ [self.NextDealID]) deal post e h3 he'
    simp only [List.cons_append]
    unfold publishLoop
    rw [h1]
    simp only [] at h4 ⊢
    exact h4

/-! ## The methods in closed form -/

theorem PublishStorageDeals_of_loop_error (env : Env) (vmctx : VMContext) (vm : VMState)
    (params : PublishStorageDealsParams) (e : ActorError)
    (h : publishLoop env vmctx vm.head vm.head.Deals [] params.Deals = .error e) :
    PublishStorageDeals env vmctx vm params =
      (.error e, { head := vm.head,
                   trace := vm.trace ++ [.getHead, .get vm.head, .loadAMT vm.head.Deals] }) := by
  simp [PublishStorageDeals, GetHead, Get, VMState.record, h]

theorem PublishStorageDeals_of_loop_ok (env : Env) (vmctx : VMContext) (vm : VMState)
    (params : PublishStorageDealsParams) (self : StorageMarketState) (deals : DealArray)
    (out : List Nat)
    (h : publishLoop env vmctx vm.head vm.head.Deals [] params.Deals = .ok (self, deals, out)) :
    PublishStorageDeals env vmctx vm params =
      ((match env.marshalResponse { DealIDs := out } with
        | none => .error (.external .serialisingOutput)
        | some outBuf => .ok outBuf),
       { head := { self with Deals := deals },
         trace := vm.trace ++ [.getHead, .get vm.head, .loadAMT vm.head.Deals, .flushAMT deals,
           .put { self with Deals := deals }, .commit vm.head { self with Deals := deals }] }) := by
  simp only [PublishStorageDeals, GetHead, Get, Put, Commit, VMState.record, h]
  cases env.marshalResponse { DealIDs := out } <;> simp

theorem ActivateStorageDeals_of_loop_error (vmctx : VMContext) (vm : VMState)
    (params : ActivateStorageDealsParams) (e : ActorError)
    (h : activateLoop vmctx vm.head.Deals params.Deals = .error e) :
    ActivateStorageDeals vmctx vm params =
      (.error e, { head := vm.head,
                   trace := vm.trace ++ [.getHead, .get vm.head, .loadAMT vm.head.Deals] }) := by
  simp [ActivateStorageDeals, GetHead, Get, VMState.record, h]

theorem ActivateStorageDeals_of_loop_ok (vmctx : VMContext) (vm : VMState)
    (params : ActivateStorageDealsParams) (deals : DealArray)
    (h : activateLoop vmctx vm.head.Deals params.Deals = .ok deals) :
    ActivateStorageDeals vmctx vm params =
      (.ok [],
       { head := { vm.head with Deals := deals },
         trace := vm.trace ++ [.getHead, .get vm.head, .loadAMT vm.head.Deals, .flushAMT deals,
           .put { vm.head with Deals := deals },
           .commit vm.head { vm.head with Deals := deals }] }) := by
  simp [ActivateStorageDeals, GetHead, Get, Put, Commit, VMState.record, h]

/-- A batch that does not validate splits at its first rejected deal. -/
theorem validateAll_none_split (env : Env) (vmctx : VMContext) (ds : List StorageDeal) :
    ∀ (self : StorageMarketState), validateAll env vmctx self ds = none →
      ∃ pre deal post s e, ds = pre ++ deal :: post ∧ validateAll env vmctx self pre = some s ∧
        (validateDeal env vmctx s deal).1 = some e := by
  induction ds with
  | nil =>
    intro self h
    simp [validateAll] at h
  | cons d rest ih =>
    intro self h
    cases hv : validateDeal env vmctx self d with
    | mk r self1 =>
      cases r with
      | some e =>
        exact ⟨[], d, rest, self, e, rfl, rfl, by rw [hv]⟩
      | none =>
        unfold validateAll at h
        rw [hv] at h
        simp only at h
        obtain ⟨pre, deal, post, s, e, h1, h2, h3⟩ := ih self1 h
        refine ⟨d :: pre, deal, post, s, e, by rw [h1]; rfl, ?_, h3⟩
        unfold validateAll
        rw [hv]
        exact h2

/-- The first component of the publish loop's result says whether the batch
validates. -/
theorem publishLoop_ok_validateAll (env : Env) (vmctx : VMContext) (ds : List StorageDeal)
    (self : StorageMarketState) (deals : DealArray) (out : List Nat)
    (r : StorageMarketState × DealArray × List Nat)
    (h : publishLoop env vmctx self deals out ds = .ok r) :
    ∃ s, validateAll env vmctx self ds = some s := by
  cases hv : validateAll env vmctx self ds with
  | some s => exact ⟨s, rfl⟩
  | none =>
    obtain ⟨pre, deal, post, s, e, h1, h2, h3⟩ := validateAll_none_split env vmctx ds self hv
    rw [h1, publishLoop_of_reject env vmctx pre self s deals out deal post e h2 h3] at h
    simp at h

/-! ## Identifiers handed out by the publish loop -/

theorem idsFrom_eq (n : Nat) : ∀ c, c < 2 ^ 64 →
    idsFrom c n = (List.range n).map (fun i => (c + i) % 2 ^ 64) := by
  induction n with
  | zero => intro c _; rfl
  | succ n ih =>
    intro c hc
    have h1 : (c + 1) % 2 ^ 64 < 2 ^ 64 := Nat.mod_lt _ (by norm_num)
    rw [idsFrom, ih _ h1, List.range_succ_eq_map, List.map_cons, List.map_map]
    congr 1
    · simp only [Nat.add_zero]
      exact (Nat.mod_eq_of_lt hc).symm
    · apply List.map_congr_left
      intro i _
      simp only [Function.comp]
      omega

theorem counterAfter_eq (n : Nat) : ∀ c, c < 2 ^ 64 →
    counterAfter c n = (c + n) % 2 ^ 64 := by
  induction n with
  | zero =>
    intro c hc
    simp only [counterAfter, Nat.add_zero]
    exact (Nat.mod_eq_of_lt hc).symm
  | succ n ih =>
    intro c hc
    have h1 : (c + 1) % 2 ^ 64 < 2 ^ 64 := Nat.mod_lt _ (by norm_num)
    rw [counterAfter, ih _ h1]
    omega

theorem kvFind_storeDeals_of_not_mem (ds : List StorageDeal) :
    ∀ (deals : DealArray) (c j : Nat), j ∉ idsFrom c ds.length →
      kvFind j (storeDeals deals c ds) = kvFind j deals := by
  induction ds with
  | nil => intro deals c j _; rfl
  | cons d rest ih =>
    intro deals c j hj
    simp only [List.length_cons, idsFrom, List.mem_cons, not_or] at hj
    rw [storeDeals, ih _ _ j hj.2, kvFind_kvSet, if_neg (fun e => hj.1 e.symm)]

theorem kvFind_storeDeals (ds : List StorageDeal) :
    ∀ (deals : DealArray) (c : Nat), c < 2 ^ 64 → ds.length ≤ 2 ^ 64 →
      ∀ (i : Nat) (hi : i < ds.length),
        kvFind ((c + i) % 2 ^ 64) (storeDeals deals c ds) =
          some { Deal := ds[i], ActivationEpoch := 0 } := by
  induction ds with
  | nil => intro deals c _ _ i hi; simp at hi
  | cons d rest ih =>
    intro deals c hc hlen i hi
    have h1 : (c + 1) % 2 ^ 64 < 2 ^ 64 := Nat.mod_lt _ (by norm_num)
    simp only [List.length_cons] at hlen hi
    cases i with
    | zero =>
      have hnm : c ∉ idsFrom ((c + 1) % 2 ^ 64) rest.length := by
        rw [idsFrom_eq _ _ h1]
        simp only [List.mem_map, List.mem_range, not_exists, not_and]
        intro j hj
        omega
      simp only [Nat.add_zero, Nat.mod_eq_of_lt hc, List.getElem_cons_zero]
      rw [storeDeals, kvFind_storeDeals_of_not_mem rest _ _ c hnm, kvFind_kvSet, if_pos rfl]
    | succ i =>
      have hi' : i < rest.length := by omega
      have h2 := ih (kvSet c { Deal := d, ActivationEpoch := 0 } deals) _ h1 (by omega) i hi'
      simp only [List.getElem_cons_succ]
      rw [storeDeals, ← h2]
      congr 1
      omega

/-- The publish loop fails on every batch that contains an expired deal. -/
theorem publishLoop_of_expired (env : Env) (vmctx : VMContext) (deal : StorageDeal)
    (post : List StorageDeal)
    (h : deal.Proposal.ProposalExpiration ≤ vmctx.BlockHeight) (pre : List StorageDeal) :
    ∀ (self : StorageMarketState) (deals : DealArray) (out : List Nat),
      ∃ e, publishLoop env vmctx self deals out (pre ++ deal :: post) = .error e := by
  induction pre with
  | nil =>
    intro self deals out
    refine ⟨.new 1, ?_⟩
    have hv : validateDeal env vmctx self deal = (some (.new 1), self) := by
      simp [validateDeal, h]
    simp only [List.nil_append]
    unfold publishLoop
    rw [hv]
  | cons d rest ih =>
    intro self deals out
    simp only [List.cons_append]
    unfold publishLoop
    cases hv : validateDeal env vmctx self d with
    | mk r self1 =>
      cases r with
      | some e => exact ⟨e, rfl⟩
      | none => exact ih _ _ _

/-- The state committed by a successful `PublishStorageDeals`: the batch
validates, and the head holds the balances left by the validation, the deals
stored by the loop and the counter after the loop. -/
theorem PublishStorageDeals_ok_head (env : Env) (vmctx : VMContext) (vm vm1 : VMState)
    (params : PublishStorageDealsParams) (out : Bytes)
    (h : PublishStorageDeals env vmctx vm params = (.ok out, vm1)) :
    ∃ s, validateAll env vmctx vm.head params.Deals = some s ∧
      vm1.head =
        { Balances := s.Balances,
          Deals := storeDeals vm.head.Deals vm.head.NextDealID params.Deals,
          NextDealID := counterAfter vm.head.NextDealID params.Deals.length } := by
  cases hl : publishLoop env vmctx vm.head vm.head.Deals [] params.Deals with
  | error e =>
    rw [PublishStorageDeals_of_loop_error env vmctx vm params e hl] at h
    simp at h
  | ok r =>
    obtain ⟨s, hs⟩ := publishLoop_ok_validateAll env vmctx _ _ _ _ r hl
    have hl2 := publishLoop_of_validateAll env vmctx params.Deals vm.head s vm.head.Deals [] hs
    rw [PublishStorageDeals_of_loop_ok env vmctx vm params _ _ _ hl2] at h
    exact ⟨s, hs, by rw [← (Prod.mk.inj h).2]⟩

/-- The state committed by a successful `ActivateStorageDeals`: the head at
entry with the deals left by the loop. -/
theorem ActivateStorageDeals_ok_head (vmctx : VMContext) (vm vm1 : VMState)
    (params : ActivateStorageDealsParams) (out : Bytes)
    (h : ActivateStorageDeals vmctx vm params = (.ok out, vm1)) :
    ∃ deals, activateLoop vmctx vm.head.Deals params.Deals = .ok deals ∧
      vm1.head = { vm.head with Deals := deals } := by
  cases hl : activateLoop vmctx vm.head.Deals params.Deals with
  | error e =>
    rw [ActivateStorageDeals_of_loop_error vmctx vm params e hl] at h
    simp at h
  | ok deals =>
    rw [ActivateStorageDeals_of_loop_ok vmctx vm params deals hl] at h
    exact ⟨deals, rfl, by rw [← (Prod.mk.inj h).2]⟩

/-! ## The activation loop -/

theorem activateLoop_nil (vmctx : VMContext) (deals : DealArray) :
    activateLoop vmctx deals [] = .ok deals := rfl

/-- A round of the activation loop whose checks fail returns their error. -/
theorem activateLoop_cons_error (vmctx : VMContext) (deals : DealArray) (id : Nat)
    (rest : List Nat) (e : ActorError) (h : activationError vmctx deals id = some e) :
    activateLoop vmctx deals (id :: rest) = .error e := by
  unfold activationError at h
  unfold activateLoop
  cases hk : kvFind id deals with
  | none =>
    rw [hk] at h
    simp only [Option.some.injEq] at h
    simp only [h]
  | some d =>
    rw [hk] at h
    simp only at h ⊢
    by_cases h1 : vmctx.From ≠ d.Deal.Proposal.Provider
    · rw [if_pos h1] at h ⊢
      rw [Option.some.inj h]
    · rw [if_neg h1] at h ⊢
      by_cases h2 : vmctx.BlockHeight > d.Deal.Proposal.ProposalExpiration
      · rw [if_pos h2] at h ⊢
        rw [Option.some.inj h]
      · rw [if_neg h2] at h ⊢
        by_cases h3 : d.ActivationEpoch > 0
        · rw [if_pos h3] at h ⊢
          rw [Option.some.inj h]
        · rw [if_neg h3] at h
          simp at h

/-- The checks of a round pass exactly for a stored, inactive, unexpired deal
of which the sender is the provider. -/
theorem activationError_none_iff (vmctx : VMContext) (deals : DealArray) (id : Nat) :
    activationError vmctx deals id = none ↔
      ∃ d, kvFind id deals = some d ∧ vmctx.From = d.Deal.Proposal.Provider ∧
        vmctx.BlockHeight ≤ d.Deal.Proposal.ProposalExpiration ∧ d.ActivationEpoch = 0 := by
  unfold activationError
  cases hk : kvFind id deals with
  | none => simp
  | some d =>
    simp only [Option.some.injEq, exists_eq_left']
    by_cases h1 : vmctx.From ≠ d.Deal.Proposal.Provider
    · simp [h1]
    · rw [if_neg h1]
      by_cases h2 : vmctx.BlockHeight > d.Deal.Proposal.ProposalExpiration
      · rw [if_pos h2]
        simp only [false_iff, not_and, reduceCtorEq]
        intro _ h
        omega
      · rw [if_neg h2]
        by_cases h3 : d.ActivationEpoch > 0
        · rw [if_pos h3]
          simp only [false_iff, not_and, reduceCtorEq]
          intro _ _ h
          omega
        · rw [if_neg h3]
          simp only [true_iff]
          exact ⟨not_not.mp h1, by omega, by omega⟩

/-- A round of the activation loop whose checks pass stores the record with the
current epoch and goes on. -/
theorem activateLoop_cons_ok (vmctx : VMContext) (deals : DealArray) (id : Nat)
    (rest : List Nat) (d : OnChainDeal) (hk : kvFind id deals = some d)
    (h : activationError vmctx deals id = none) :
    activateLoop vmctx deals (id :: rest) =
      activateLoop vmctx (kvSet id (d.activatedAt vmctx.BlockHeight) deals) rest := by
  obtain ⟨d', hk', h1, h2, h3⟩ := (activationError_none_iff vmctx deals id).mp h
  rw [hk] at hk'
  obtain rfl := Option.some.inj hk'
  rw [activateLoop, hk]
  simp only [OnChainDeal.activatedAt]
  rw [if_neg (not_not.mpr h1), if_neg (by omega), if_neg (by omega)]

/-- The activation loop on distinct identifiers that all pass their checks
against the deal array at entry: it succeeds, every listed record gets the
current epoch, every other lookup is as before. -/
theorem activateLoop_of_distinct (vmctx : VMContext) (ids : List Nat) :
    ∀ (deals : DealArray), ids.Nodup →
      (∀ id ∈ ids, activationError vmctx deals id = none) →
      ∃ deals1, activateLoop vmctx deals ids = .ok deals1 ∧
        ∀ j, kvFind j deals1 =
          if j ∈ ids then (kvFind j deals).map (fun d => d.activatedAt vmctx.BlockHeight)
          else kvFind j deals := by
  induction ids with
  | nil =>
    intro deals _ _
    exact ⟨deals, rfl, fun j => by simp⟩
  | cons id rest ih =>
    intro deals hnd hall
    have hid := hall id (List.mem_cons_self _ _)
    obtain ⟨d, hk, _, _, _⟩ := (activationError_none_iff vmctx deals id).mp hid
    have hnd' := List.nodup_cons.mp hnd
    have hrest : ∀ id' ∈ rest,
        activationError vmctx (kvSet id (d.activatedAt vmctx.BlockHeight) deals) id' = none := by
      intro id' hmem
      have hne : id ≠ id' := fun e => hnd'.1 (e ▸ hmem)
      have h0 := hall id' (List.mem_cons_of_mem _ hmem)
      unfold activationError at h0 ⊢
      rw [kvFind_kvSet, if_neg hne]
      exact h0
    obtain ⟨deals1, hl, hfind⟩ := ih _ hnd'.2 hrest
    refine ⟨deals1, ?_, ?_⟩
    · rw [activateLoop_cons_ok vmctx deals id rest d hk hid, hl]
    · intro j
      rw [hfind j, kvFind_kvSet]
      by_cases hj : id = j
      · subst hj
        simp [hnd'.1, hk]
      · have hj' : ¬ j = id := fun e => hj e.symm
        simp [hj, hj']

/-- An activation loop that succeeds leaves every active record as it was. -/
theorem activateLoop_keeps_active (vmctx : VMContext) (ids : List Nat) :
    ∀ (deals deals1 : DealArray), activateLoop vmctx deals ids = .ok deals1 →
      ∀ id d, kvFind id deals = some d → 0 < d.ActivationEpoch →
        kvFind id deals1 = some d := by
  induction ids with
  | nil =>
    intro deals deals1 h id d hk _
    rw [activateLoop_nil] at h
    rw [← Except.ok.inj h]
    exact hk
  | cons id0 rest ih =>
    intro deals deals1 h id d hk hpos
    cases he : activationError vmctx deals id0 with
    | some e =>
      rw [activateLoop_cons_error vmctx deals id0 rest e he] at h
      simp at h
    | none =>
      obtain ⟨d0, hk0, _, _, h0⟩ := (activationError_none_iff vmctx deals id0).mp he
      rw [activateLoop_cons_ok vmctx deals id0 rest d0 hk0 he] at h
      have hne : id0 ≠ id := by
        intro e
        subst e
        rw [hk0] at hk
        obtain rfl := Option.some.inj hk
        omega
      exact ih _ deals1 h id d (by rw [kvFind_kvSet, if_neg hne]; exact hk) hpos

/-- An activation loop that succeeds changes nothing but activation epochs: a
record that was stored is still stored with the same deal, and nothing new is
stored. -/
theorem activateLoop_keeps_deal (vmctx : VMContext) (ids : List Nat) :
    ∀ (deals deals1 : DealArray), activateLoop vmctx deals ids = .ok deals1 →
      ∀ id, (kvFind id deals1).map (fun d => d.Deal) = (kvFind id deals).map (fun d => d.Deal) := by
  induction ids with
  | nil =>
    intro deals deals1 h id
    rw [activateLoop_nil] at h
    rw [← Except.ok.inj h]
  | cons id0 rest ih =>
    intro deals deals1 h id
    cases he : activationError vmctx deals id0 with
    | some e =>
      rw [activateLoop_cons_error vmctx deals id0 rest e he] at h
      simp at h
    | none =>
      obtain ⟨d0, hk0, _, _, _⟩ := (activationError_none_iff vmctx deals id0).mp he
      rw [activateLoop_cons_ok vmctx deals id0 rest d0 hk0 he] at h
      rw [ih _ deals1 h id, kvFind_kvSet]
      by_cases hne : id0 = id
      · subst hne
        simp [hk0, OnChainDeal.activatedAt]
      · rw [if_neg hne]

/-! ## `AddBalance` and `WithdrawBalance` in closed form -/

theorem AddBalance_eq (vmctx : VMContext) (vm : VMState) :
    AddBalance vmctx vm =
      (.ok [],
        { head := withBalance vm.head vmctx.From
            { Locked := (balanceOf vm.head vmctx.From).Locked,
              Available := (balanceOf vm.head vmctx.From).Available + vmctx.Value },
          trace := vm.trace ++ [.getHead, .get vm.head,
            .put (withBalance vm.head vmctx.From
              { Locked := (balanceOf vm.head vmctx.From).Locked,
                Available := (balanceOf vm.head vmctx.From).Available + vmctx.Value }),
            .commit vm.head (withBalance vm.head vmctx.From
              { Locked := (balanceOf vm.head vmctx.From).Locked,
                Available := (balanceOf vm.head vmctx.From).Available + vmctx.Value })] }) := by
  simp [AddBalance, GetHead, Get, Put, Commit, VMState.record, GetMarketBalances, withBalance,
    balanceOf]

theorem WithdrawBalance_of_short (vmctx : VMContext) (vm : VMState)
    (params : WithdrawBalanceParams)
    (h : (balanceOf vm.head vmctx.From).Available < params.Balance) :
    WithdrawBalance vmctx vm params =
      (.error (.new 1), { head := vm.head, trace := vm.trace ++ [.getHead, .get vm.head] }) := by
  simp only [balanceOf] at h
  simp [WithdrawBalance, GetHead, Get, VMState.record, GetMarketBalances, h]

theorem WithdrawBalance_of_send_error (vmctx : VMContext) (vm : VMState)
    (params : WithdrawBalanceParams) (err : ActorError) (head1 : StorageMarketState)
    (h : params.Balance ≤ (balanceOf vm.head vmctx.From).Available)
    (hs : vmctx.Send vm.head vmctx.From 0 params.Balance [] = (.error err, head1)) :
    WithdrawBalance vmctx vm params =
      (.error (.wrap err),
        { head := head1,
          trace := vm.trace ++ [.getHead, .get vm.head,
            .send vmctx.From 0 params.Balance []] }) := by
  simp only [balanceOf] at h
  simp [WithdrawBalance, GetHead, Get, VMState.record, GetMarketBalances, not_lt.mpr h, Send, hs]

theorem WithdrawBalance_of_send_ok (vmctx : VMContext) (vm : VMState)
    (params : WithdrawBalanceParams) (ret : Bytes) (head1 : StorageMarketState)
    (h : params.Balance ≤ (balanceOf vm.head vmctx.From).Available)
    (hs : vmctx.Send vm.head vmctx.From 0 params.Balance [] = (.ok ret, head1)) :
    WithdrawBalance vmctx vm params =
      ((if head1 = vm.head then .ok [] else .error .staleCommit),
        { head := if head1 = vm.head then withBalance vm.head vmctx.From
              { Locked := (balanceOf vm.head vmctx.From).Locked,
                Available := (balanceOf vm.head vmctx.From).Available - params.Balance }
            else head1,
          trace := vm.trace ++ [.getHead, .get vm.head,
            .send vmctx.From 0 params.Balance [],
            .put (withBalance vm.head vmctx.From
              { Locked := (balanceOf vm.head vmctx.From).Locked,
                Available := (balanceOf vm.head vmctx.From).Available - params.Balance }),
            .commit vm.head (withBalance vm.head vmctx.From
              { Locked := (balanceOf vm.head vmctx.From).Locked,
                Available := (balanceOf vm.head vmctx.From).Available - params.Balance })] }) := by
  simp only [balanceOf] at h
  by_cases hh : head1 = vm.head
  · simp [WithdrawBalance, GetHead, Get, Put, Commit, VMState.record, GetMarketBalances,
      not_lt.mpr h, Send, hs, hh, withBalance, balanceOf]
  · simp [WithdrawBalance, GetHead, Get, Put, Commit, VMState.record, GetMarketBalances,
      not_lt.mpr h, Send, hs, hh, withBalance, balanceOf]

theorem balanceOf_withBalance (self : StorageMarketState) (a c : Address)
    (b : StorageParticipantBalance) :
    balanceOf (withBalance self a b) c = if a = c then b else balanceOf self c := by
  simp only [balanceOf, withBalance, getOrZero_set_one]

/-! ## Activation epochs across the methods -/

theorem keepsActivation_of_deals_eq (id : Nat) (s s1 : StorageMarketState)
    (h : s1.Deals = s.Deals) : keepsActivation id s s1 := by
  intro d hk _
  exact ⟨d, by rw [h]; exact hk, rfl⟩

theorem keepsActivation_trans (id : Nat) (s s1 s2 : StorageMarketState)
    (h1 : keepsActivation id s s1) (h2 : keepsActivation id s1 s2) :
    keepsActivation id s s2 := by
  intro d hk hpos
  obtain ⟨d1, hk1, he1⟩ := h1 d hk hpos
  obtain ⟨d2, hk2, he2⟩ := h2 d1 hk1 (by omega)
  exact ⟨d2, hk2, by omega⟩

/-- Without a wrap of the counter, the identifiers handed out by the publish
loop are at or above the counter at entry. -/
theorem le_of_mem_idsFrom (n : Nat) : ∀ c, c + n ≤ 2 ^ 64 → ∀ j ∈ idsFrom c n, c ≤ j := by
  induction n with
  | zero =>
    intro c _ j hj
    simp [idsFrom] at hj
  | succ n ih =>
    intro c hc j hj
    simp only [idsFrom, List.mem_cons] at hj
    rcases hj with hj | hj
    · omega
    · cases n with
      | zero => simp [idsFrom] at hj
      | succ m =>
        have hmod : (c + 1) % 2 ^ 64 = c + 1 := Nat.mod_eq_of_lt (by omega)
        rw [hmod] at hj
        have := ih (c + 1) (by omega) j hj
        omega

/-- The head after `PublishStorageDeals` is the head at entry, or the head at
entry with new balances, the deals stored by the loop and the counter after
the loop. -/
theorem PublishStorageDeals_head (env : Env) (vmctx : VMContext) (vm : VMState)
    (params : PublishStorageDealsParams) :
    (PublishStorageDeals env vmctx vm params).2.head = vm.head ∨
      ∃ s, validateAll env vmctx vm.head params.Deals = some s ∧
        (PublishStorageDeals env vmctx vm params).2.head =
          { Balances := s.Balances,
            Deals := storeDeals vm.head.Deals vm.head.NextDealID params.Deals,
            NextDealID := counterAfter vm.head.NextDealID params.Deals.length } := by
  cases hl : publishLoop env vmctx vm.head vm.head.Deals [] params.Deals with
  | error e =>
    left
    rw [PublishStorageDeals_of_loop_error env vmctx vm params e hl]
  | ok r =>
    right
    obtain ⟨s, hs⟩ := publishLoop_ok_validateAll env vmctx _ _ _ _ r hl
    have hl2 := publishLoop_of_validateAll env vmctx params.Deals vm.head s vm.head.Deals [] hs
    rw [PublishStorageDeals_of_loop_ok env vmctx vm params _ _ _ hl2]
    exact ⟨s, hs, rfl⟩

/-- The head after `ActivateStorageDeals` is the head at entry, or the head at
entry with the deals left by the loop. -/
theorem ActivateStorageDeals_head (vmctx : VMContext) (vm : VMState)
    (params : ActivateStorageDealsParams) :
    (ActivateStorageDeals vmctx vm params).2.head = vm.head ∨
      ∃ deals, activateLoop vmctx vm.head.Deals params.Deals = .ok deals ∧
        (ActivateStorageDeals vmctx vm params).2.head = { vm.head with Deals := deals } := by
  cases hl : activateLoop vmctx vm.head.Deals params.Deals with
  | error e =>
    left
    rw [ActivateStorageDeals_of_loop_error vmctx vm params e hl]
  | ok deals =>
    right
    rw [ActivateStorageDeals_of_loop_ok vmctx vm params deals hl]
    exact ⟨deals, rfl, rfl⟩

/-- The head after `WithdrawBalance` is the head at entry, the head left by
the send, or the head at entry with a new balance for the sender. -/
theorem WithdrawBalance_head (vmctx : VMContext) (vm : VMState)
    (params : WithdrawBalanceParams) :
    (WithdrawBalance vmctx vm params).2.head = vm.head ∨
      (WithdrawBalance vmctx vm params).2.head =
        (vmctx.Send vm.head vmctx.From 0 params.Balance []).2 ∨
      ∃ b, (WithdrawBalance vmctx vm params).2.head = withBalance vm.head vmctx.From b := by
  by_cases h : (balanceOf vm.head vmctx.From).Available < params.Balance
  · left
    rw [WithdrawBalance_of_short vmctx vm params h]
  · have h' := not_lt.mp h
    cases hs : vmctx.Send vm.head vmctx.From 0 params.Balance [] with
    | mk r head1 =>
      cases r with
      | error err =>
        right; left
        rw [WithdrawBalance_of_send_error vmctx vm params err head1 h' hs]
      | ok ret =>
        rw [WithdrawBalance_of_send_ok vmctx vm params ret head1 h' hs]
        by_cases hh : head1 = vm.head
        · right; right
          simp only [if_pos hh]
          exact ⟨_, rfl⟩
        · right; left
          simp only [if_neg hh]

theorem Send_head (vmctx : VMContext) (vm : VMState) (dest : Address) (method : Nat)
    (value : BigInt) (params : Bytes) :
    (Send vmctx vm dest method value params).2.head =
      (vmctx.Send vm.head dest method value params).2 := rfl

/-- The payment loop changes the head of the actor through its sends only,
and its working copy through the balances only. -/
theorem paymentLoop_head (env : Env) (vmctx : VMContext) (deals : DealArray) (id : Nat)
    (hsend : ∀ head dest method value params,
      keepsActivation id head (vmctx.Send head dest method value params).2)
    (ids : List Nat) :
    ∀ (self : StorageMarketState) (vm : VMState),
      keepsActivation id vm.head (paymentLoop env vmctx deals self vm ids).2.head ∧
      ∀ self1, (paymentLoop env vmctx deals self vm ids).1 = .finished self1 →
        self1.Deals = self.Deals ∧ self1.NextDealID = self.NextDealID := by
  induction ids with
  | nil =>
    intro self vm
    refine ⟨keepsActivation_of_deals_eq _ _ _ rfl, ?_⟩
    intro self1 h
    simp only [paymentLoop, PaymentLoop.finished.injEq] at h
    subst h
    exact ⟨rfl, rfl⟩
  | cons deal rest ih =>
    intro self vm
    have hS : keepsActivation id vm.head
        (Send vmctx vm env.StoragePowerAddress env.IsMiner 0
          ((env.isMinerParams vmctx.From).toOption.getD [])).2.head := by
      rw [Send_head]
      exact hsend _ _ _ _ _
    unfold paymentLoop
    split
    · exact ⟨keepsActivation_of_deals_eq _ _ _ rfl, by intro s h; simp at h⟩
    · split
      · exact ⟨keepsActivation_of_deals_eq _ _ _ rfl, by intro s h; simp at h⟩
      · rename_i encoded hparams
        rw [hparams] at hS
        simp only [Except.toOption, Option.getD] at hS
        split
        · rename_i err vm1 hsd
          rw [hsd] at hS
          exact ⟨hS, by intro s h; simp at h⟩
        · rename_i ret vm1 hsd
          rw [hsd] at hS
          split
          · exact ⟨hS, by intro s h; simp at h⟩
          · split
            · exact ⟨hS, by intro s h; simp at h⟩
            · split
              · exact ⟨hS, by intro s h; simp at h⟩
              · obtain ⟨h1, h2⟩ := ih _ vm1
                refine ⟨keepsActivation_trans id _ _ _ hS h1, ?_⟩
                intro self1 hf
                exact h2 self1 hf

/-! ## The payment loop -/

/-- A round of the payment loop for a stored deal, when the caller gets through
the caller check. -/
theorem paymentLoop_cons (env : Env) (vmctx : VMContext) (deals : DealArray)
    (self : StorageMarketState) (vm : VMState) (id : Nat) (rest : List Nat) (d : OnChainDeal)
    (encoded : Bytes) (hc : passesCallerCheck env vmctx encoded)
    (hk : kvFind id deals = some d) :
    paymentLoop env vmctx deals self vm (id :: rest) =
      if vmctx.BlockHeight > d.Deal.Proposal.ProposalExpiration then
        (.returned none,
          { head := vm.head,
            trace := vm.trace ++ [.send env.StoragePowerAddress env.IsMiner 0 encoded] })
      else
        match toPayOf env d with
        | none =>
          (.returned (some .runtimePanic),
            { head := vm.head,
              trace := vm.trace ++ [.send env.StoragePowerAddress env.IsMiner 0 encoded] })
        | some toPay =>
          paymentLoop env vmctx deals { self with Balances := settledBalances self d toPay }
            { head := vm.head,
              trace := vm.trace ++ [.send env.StoragePowerAddress env.IsMiner 0 encoded] }
            rest := by
  obtain ⟨hp, hs⟩ := hc
  obtain ⟨ret, hsend, hret⟩ := hs vm.head
  rw [paymentLoop]
  simp only [hk, hp, Send, hsend, hret, if_false, toPayOf]
  by_cases hexp : vmctx.BlockHeight > d.Deal.Proposal.ProposalExpiration
  · simp only [hexp, if_true]
  · simp only [hexp, if_false]
    cases BigDiv (d.Deal.Proposal.StoragePrice * (env.ProvingPeriodDuration : Int))
        (d.Deal.Proposal.Duration : Int) with
    | none => rfl
    | some toPay =>
      simp only [GetMarketBalances, settledBalances, transferFunds, List.map, List.getD_cons_zero,
        List.getD_cons_succ]

theorem getOrZero_settledBalances (self : StorageMarketState) (d : OnChainDeal) (toPay : BigInt)
    (a : Address) :
    getOrZero (settledBalances self d toPay) a =
      if d.Deal.Proposal.Provider = a then
        { Locked := (getOrZero self.Balances d.Deal.Proposal.Provider).Locked,
          Available := (getOrZero self.Balances d.Deal.Proposal.Provider).Available + toPay }
      else if d.Deal.Proposal.Client = a then
        { Locked := (getOrZero self.Balances d.Deal.Proposal.Client).Locked - toPay,
          Available := (getOrZero self.Balances d.Deal.Proposal.Client).Available }
      else getOrZero self.Balances a := by
  unfold settledBalances
  rw [getOrZero_set_two]

/-- `ProcessStorageDealsPayment` when its loop returns from inside. -/
theorem ProcessStorageDealsPayment_of_returned (env : Env) (vmctx : VMContext) (vm vm1 : VMState)
    (params : ProcessStorageDealsPaymentParams) (err : Option ActorError)
    (h : paymentLoop env vmctx vm.head.Deals vm.head (afterReads vm) params.DealIDs =
      (.returned err, vm1)) :
    ProcessStorageDealsPayment env vmctx vm params =
      ((match err with
        | some e => .error e
        | none => .ok []), vm1) := by
  simp only [afterReads] at h
  simp only [ProcessStorageDealsPayment, GetHead, Get, VMState.record, List.append_assoc,
    List.singleton_append, List.cons_append, List.nil_append] at h ⊢
  rw [h]
  cases err <;> rfl

/-- `ProcessStorageDealsPayment` when its loop runs to its end. -/
theorem ProcessStorageDealsPayment_of_finished (env : Env) (vmctx : VMContext)
    (vm vm1 : VMState) (params : ProcessStorageDealsPaymentParams) (self1 : StorageMarketState)
    (h : paymentLoop env vmctx vm.head.Deals vm.head (afterReads vm) params.DealIDs =
      (.finished self1, vm1)) :
    ProcessStorageDealsPayment env vmctx vm params =
      ((if vm1.head = vm.head then .ok [] else .error .staleCommit),
        { head := if vm1.head = vm.head then self1 else vm1.head,
          trace := vm1.trace ++ [.put self1, .commit vm.head self1] }) := by
  simp only [afterReads] at h
  simp only [ProcessStorageDealsPayment, GetHead, Get, VMState.record, List.append_assoc,
    List.singleton_append, List.cons_append, List.nil_append] at h ⊢
  rw [h]
  by_cases hh : vm1.head = vm.head
  · simp [Put, Commit, VMState.record, hh]
  · simp [Put, Commit, VMState.record, hh]

/-- The payment loop on stored, unexpired deals with client and provider
different, for a caller that gets through the check: it computes the
sequential settlement of the deals. -/
theorem paymentLoop_settleAll (env : Env) (vmctx : VMContext) (deals : DealArray)
    (encoded : Bytes) (hc : passesCallerCheck env vmctx encoded) (ids : List Nat) :
    ∀ (ds : List OnChainDeal) (self : StorageMarketState) (vm : VMState)
      (bal : Address → StorageParticipantBalance),
      List.Forall₂ (fun id d => kvFind id deals = some d) ids ds →
      (∀ d ∈ ds, vmctx.BlockHeight ≤ d.Deal.Proposal.ProposalExpiration ∧
        d.Deal.Proposal.Client ≠ d.Deal.Proposal.Provider) →
      (∀ a, getOrZero self.Balances a = bal a) →
      (∀ final, settleAll env bal ds = some final →
        ∃ self1 vm1, paymentLoop env vmctx deals self vm ids = (.finished self1, vm1) ∧
          vm1.head = vm.head ∧ (∀ a, getOrZero self1.Balances a = final a) ∧
          self1.Deals = self.Deals ∧ self1.NextDealID = self.NextDealID) ∧
      (settleAll env bal ds = none →
        ∃ vm1, paymentLoop env vmctx deals self vm ids =
            (.returned (some .runtimePanic), vm1) ∧ vm1.head = vm.head) := by
  induction ids with
  | nil =>
    intro ds self vm bal hf _ hbal
    cases hf
    constructor
    · intro final hfin
      simp only [settleAll, Option.some.injEq] at hfin
      subst hfin
      exact ⟨self, vm, rfl, rfl, hbal, rfl, rfl⟩
    · intro hnone
      simp [settleAll] at hnone
  | cons id rest ih =>
    intro ds self vm bal hf hall hbal
    cases hf with
    | cons hk hrest =>
      rename_i d drest
      have hd := hall d (List.mem_cons_self _ _)
      have hexp : ¬ vmctx.BlockHeight > d.Deal.Proposal.ProposalExpiration := by omega
      rw [paymentLoop_cons env vmctx deals self vm id rest d encoded hc hk, if_neg hexp]
      cases ht : toPayOf env d with
      | none =>
        have hs : settleAll env bal (d :: drest) = none := by
          simp [settleAll, settleOne, ht]
        constructor
        · intro final hfin
          rw [hs] at hfin
          simp at hfin
        · intro _
          exact ⟨_, rfl, rfl⟩
      | some toPay =>
        simp only
        have hbal1 : ∀ a, getOrZero (settledBalances self d toPay) a =
            (if a = d.Deal.Proposal.Client then
              { Locked := (bal a).Locked - toPay, Available := (bal a).Available }
            else if a = d.Deal.Proposal.Provider then
              { Locked := (bal a).Locked, Available := (bal a).Available + toPay }
            else bal a) := by
          intro a
          rw [getOrZero_settledBalances]
          by_cases hp : d.Deal.Proposal.Provider = a
          · have hca : ¬ a = d.Deal.Proposal.Client := fun e => hd.2 (e.symm.trans hp.symm)
            rw [if_pos hp, if_neg hca, if_pos hp.symm, hbal, hp]
          · rw [if_neg hp]
            by_cases hcl : d.Deal.Proposal.Client = a
            · rw [if_pos hcl, if_pos hcl.symm, hbal, hcl]
            · rw [if_neg hcl, if_neg (fun e => hcl e.symm), if_neg (fun e => hp e.symm), hbal]
        have hs : settleAll env bal (d :: drest) =
            settleAll env (fun a =>
              if a = d.Deal.Proposal.Client then
                { Locked := (bal a).Locked - toPay, Available := (bal a).Available }
              else if a = d.Deal.Proposal.Provider then
                { Locked := (bal a).Locked, Available := (bal a).Available + toPay }
              else bal a) drest := by
          simp [settleAll, settleOne, ht]
        rw [hs]
        exact ih drest { self with Balances := settledBalances self d toPay } _ _ hrest
          (fun d' hd' => hall d' (List.mem_cons_of_mem _ hd')) hbal1

/-- `ProcessStorageDealsPayment` on stored, unexpired deals with client and
provider different, for a caller that gets through the check. -/
theorem ProcessStorageDealsPayment_settleAll (env : Env) (vmctx : VMContext) (vm : VMState)
    (params : ProcessStorageDealsPaymentParams) (ds : List OnChainDeal) (encoded : Bytes)
    (hc : passesCallerCheck env vmctx encoded)
    (hids : List.Forall₂ (fun id d => kvFind id vm.head.Deals = some d) params.DealIDs ds)
    (hall : ∀ d ∈ ds, vmctx.BlockHeight ≤ d.Deal.Proposal.ProposalExpiration ∧
      d.Deal.Proposal.Client ≠ d.Deal.Proposal.Provider) :
    (∀ final, settleAll env (balanceOf vm.head) ds = some final →
        (ProcessStorageDealsPayment env vmctx vm params).1 = .ok [] ∧
        (∀ a, balanceOf (ProcessStorageDealsPayment env vmctx vm params).2.head a = final a) ∧
        (ProcessStorageDealsPayment env vmctx vm params).2.head.Deals = vm.head.Deals ∧
        (ProcessStorageDealsPayment env vmctx vm params).2.head.NextDealID =
          vm.head.NextDealID) ∧
      (settleAll env (balanceOf vm.head) ds = none →
        (ProcessStorageDealsPayment env vmctx vm params).1 = .error .runtimePanic ∧
        (ProcessStorageDealsPayment env vmctx vm params).2.head = vm.head) := by
  obtain ⟨h1, h2⟩ := paymentLoop_settleAll env vmctx vm.head.Deals encoded hc params.DealIDs ds
    vm.head (afterReads vm) (balanceOf vm.head) hids hall (fun _ => rfl)
  constructor
  · intro final hfin
    obtain ⟨self1, vm1, hl, hh, hb, hd, hn⟩ := h1 final hfin
    have hh' : vm1.head = vm.head := hh
    rw [ProcessStorageDealsPayment_of_finished env vmctx vm vm1 params self1 hl, if_pos hh',
      if_pos hh']
    exact ⟨rfl, hb, hd, hn⟩
  · intro hnone
    obtain ⟨vm1, hl, hh⟩ := h2 hnone
    rw [ProcessStorageDealsPayment_of_returned env vmctx vm vm1 params _ hl]
    exact ⟨rfl, hh⟩

theorem toPayOf_of_pos (env : Env) (d : OnChainDeal) (h : 0 < d.Deal.Proposal.Duration) :
    toPayOf env d = some (Int.tdiv
      (d.Deal.Proposal.StoragePrice * (env.ProvingPeriodDuration : Int))
      (d.Deal.Proposal.Duration : Int)) := by
  have hd0 : ¬ ((d.Deal.Proposal.Duration : Nat) : Int) = 0 := by omega
  simp only [toPayOf, BigDiv, if_neg hd0]

/-- The payment loop, for a caller that gets through the check, returns a nil
error from inside when it reaches an expired deal after stored deals that are
expired or have a duration above 0; it has made sends only and left the head
as it was. -/
theorem paymentLoop_of_expired (env : Env) (vmctx : VMContext) (deals : DealArray)
    (encoded : Bytes) (hc : passesCallerCheck env vmctx encoded) (id : Nat) (d : OnChainDeal)
    (post : List Nat) (hk : kvFind id deals = some d)
    (hexp : vmctx.BlockHeight > d.Deal.Proposal.ProposalExpiration) (pre : List Nat) :
    ∀ (self : StorageMarketState) (vm : VMState),
      (∀ id1 ∈ pre, ∃ d1, kvFind id1 deals = some d1 ∧
        (vmctx.BlockHeight ≤ d1.Deal.Proposal.ProposalExpiration →
          0 < d1.Deal.Proposal.Duration)) →
      ∃ vm1 sends, paymentLoop env vmctx deals self vm (pre ++ id :: post) =
          (.returned none, vm1) ∧
        vm1.head = vm.head ∧ vm1.trace = vm.trace ++ sends ∧
        ∀ e ∈ sends, e.isSend = true := by
  induction pre with
  | nil =>
    intro self vm _
    rw [List.nil_append, paymentLoop_cons env vmctx deals self vm id post d encoded hc hk,
      if_pos hexp]
    exact ⟨_, [.send env.StoragePowerAddress env.IsMiner 0 encoded], rfl, rfl, rfl,
      by simp [Event.isSend]⟩
  | cons id1 rest ih =>
    intro self vm hpre
    obtain ⟨d1, hk1, hdur⟩ := hpre id1 (List.mem_cons_self _ _)
    rw [List.cons_append, paymentLoop_cons env vmctx deals self vm id1 _ d1 encoded hc hk1]
    by_cases hexp1 : vmctx.BlockHeight > d1.Deal.Proposal.ProposalExpiration
    · rw [if_pos hexp1]
      exact ⟨_, [.send env.StoragePowerAddress env.IsMiner 0 encoded], rfl, rfl, rfl,
        by simp [Event.isSend]⟩
    · rw [if_neg hexp1, toPayOf_of_pos env d1 (hdur (by omega))]
      simp only
      obtain ⟨vm1, sends, hl, hh, ht, hs⟩ := ih
        { self with Balances := settledBalances self d1 (Int.tdiv
            (d1.Deal.Proposal.StoragePrice * (env.ProvingPeriodDuration : Int))
            (d1.Deal.Proposal.Duration : Int)) }
        { head := vm.head,
          trace := vm.trace ++ [.send env.StoragePowerAddress env.IsMiner 0 encoded] }
        (fun id2 h2 => hpre id2 (List.mem_cons_of_mem _ h2))
      refine ⟨vm1, .send env.StoragePowerAddress env.IsMiner 0 encoded :: sends, hl, hh, ?_, ?_⟩
      · rw [ht]
        simp
      · intro e he
        simp only [List.mem_cons] at he
        rcases he with he | he
        · subst he
          rfl
        · exact hs e he

/-! ## Identifiers and records across the methods -/

theorem extendsDeals_of_eq (s s1 : StorageMarketState) (hd : s1.Deals = s.Deals)
    (hn : s1.NextDealID = s.NextDealID) (hinv : dealsBelowCounter s) : extendsDeals s s1 := by
  refine ⟨?_, by omega, ?_⟩
  · intro id d hk
    rw [hd] at hk
    rw [hn]
    exact hinv id d hk
  · intro id d hk
    exact ⟨d, by rw [hd]; exact hk, rfl⟩

theorem keepsDeals_of_eq (s s1 : StorageMarketState) (hd : s1.Deals = s.Deals)
    (hn : s1.NextDealID = s.NextDealID) : keepsDeals s s1 :=
  fun hinv => extendsDeals_of_eq s s1 hd hn hinv

theorem keepsDeals_trans (s s1 s2 : StorageMarketState) (h1 : keepsDeals s s1)
    (h2 : keepsDeals s1 s2) : keepsDeals s s2 := by
  intro hinv
  obtain ⟨hi1, hn1, hr1⟩ := h1 hinv
  obtain ⟨hi2, hn2, hr2⟩ := h2 hi1
  refine ⟨hi2, by omega, ?_⟩
  intro id d hk
  obtain ⟨d1, hk1, hd1⟩ := hr1 id d hk
  obtain ⟨d2, hk2, hd2⟩ := hr2 id d1 hk1
  exact ⟨d2, hk2, hd2.trans hd1⟩

/-- Without a wrap of the counter, the identifiers handed out by the publish
loop are below the counter after the loop. -/
theorem lt_of_mem_idsFrom (n : Nat) : ∀ c, c + n ≤ 2 ^ 64 → ∀ j ∈ idsFrom c n, j < c + n := by
  induction n with
  | zero =>
    intro c _ j hj
    simp [idsFrom] at hj
  | succ n ih =>
    intro c hc j hj
    simp only [idsFrom, List.mem_cons] at hj
    rcases hj with hj | hj
    · omega
    · cases n with
      | zero => simp [idsFrom] at hj
      | succ m =>
        have hmod : (c + 1) % 2 ^ 64 = c + 1 := Nat.mod_eq_of_lt (by omega)
        rw [hmod] at hj
        have := ih (c + 1) (by omega) j hj
        omega

/-- The relation of the head before a payment loop to the head after it, for
every relation that is reflexive, transitive and kept by the sends. -/
theorem paymentLoop_rel (env : Env) (vmctx : VMContext) (deals : DealArray)
    (R : StorageMarketState → StorageMarketState → Prop)
    (hrefl : ∀ s, R s s) (htrans : ∀ s s1 s2, R s s1 → R s1 s2 → R s s2)
    (hsend : ∀ head dest method value params,
      R head (vmctx.Send head dest method value params).2)
    (ids : List Nat) :
    ∀ (self : StorageMarketState) (vm : VMState),
      R vm.head (paymentLoop env vmctx deals self vm ids).2.head ∧
      ∀ self1, (paymentLoop env vmctx deals self vm ids).1 = .finished self1 →
        self1.Deals = self.Deals ∧ self1.NextDealID = self.NextDealID := by
  induction ids with
  | nil =>
    intro self vm
    refine ⟨hrefl _, ?_⟩
    intro self1 h
    simp only [paymentLoop, PaymentLoop.finished.injEq] at h
    subst h
    exact ⟨rfl, rfl⟩
  | cons deal rest ih =>
    intro self vm
    have hS : R vm.head
        (Send vmctx vm env.StoragePowerAddress env.IsMiner 0
          ((env.isMinerParams vmctx.From).toOption.getD [])).2.head := by
      rw [Send_head]
      exact hsend _ _ _ _ _
    unfold paymentLoop
    split
    · exact ⟨hrefl _, by intro s h; simp at h⟩
    · split
      · exact ⟨hrefl _, by intro s h; simp at h⟩
      · rename_i encoded hparams
        rw [hparams] at hS
        simp only [Except.toOption, Option.getD] at hS
        split
        · rename_i err vm1 hsd
          rw [hsd] at hS
          exact ⟨hS, by intro s h; simp at h⟩
        · rename_i ret vm1 hsd
          rw [hsd] at hS
          split
          · exact ⟨hS, by intro s h; simp at h⟩
          · split
            · exact ⟨hS, by intro s h; simp at h⟩
            · split
              · exact ⟨hS, by intro s h; simp at h⟩
              · obtain ⟨h1, h2⟩ := ih _ vm1
                refine ⟨htrans _ _ _ hS h1, ?_⟩
                intro self1 hf
                exact h2 self1 hf

/-- The head after `ProcessStorageDealsPayment` is related to the head at
entry by every relation that is reflexive, transitive, kept by the sends and
holds between states with the same deals and counter. -/
theorem ProcessStorageDealsPayment_rel (env : Env) (vmctx : VMContext) (vm : VMState)
    (params : ProcessStorageDealsPaymentParams)
    (R : StorageMarketState → StorageMarketState → Prop)
    (hrefl : ∀ s, R s s) (htrans : ∀ s s1 s2, R s s1 → R s1 s2 → R s s2)
    (hsend : ∀ head dest method value params,
      R head (vmctx.Send head dest method value params).2)
    (heq : ∀ s s1, s1.Deals = s.Deals → s1.NextDealID = s.NextDealID → R s s1) :
    R vm.head (ProcessStorageDealsPayment env vmctx vm params).2.head := by
  obtain ⟨hk, hf⟩ := paymentLoop_rel env vmctx vm.head.Deals R hrefl htrans hsend
    params.DealIDs vm.head (afterReads vm)
  cases hl : paymentLoop env vmctx vm.head.Deals vm.head (afterReads vm) params.DealIDs with
  | mk r vm1 =>
    rw [hl] at hk hf
    cases r with
    | returned err =>
      rw [ProcessStorageDealsPayment_of_returned env vmctx vm vm1 params err hl]
      exact hk
    | finished self1 =>
      rw [ProcessStorageDealsPayment_of_finished env vmctx vm vm1 params self1 hl]
      obtain ⟨hd, hn⟩ := hf self1 rfl
      by_cases hh : vm1.head = vm.head
      · simp only [if_pos hh]
        exact heq _ _ hd hn
      · simp only [if_neg hh]
        exact hk

/-! ## The storage calls of the methods -/

theorem Send_trace (vmctx : VMContext) (vm : VMState) (dest : Address) (method : Nat)
    (value : BigInt) (params : Bytes) :
    (Send vmctx vm dest method value params).2.trace =
      vm.trace ++ [.send dest method value params] := rfl

/-- The payment loop adds sends to the trace and nothing else. -/
theorem paymentLoop_trace (env : Env) (vmctx : VMContext) (deals : DealArray) (ids : List Nat) :
    ∀ (self : StorageMarketState) (vm : VMState),
      ∃ sends, (paymentLoop env vmctx deals self vm ids).2.trace = vm.trace ++ sends ∧
        ∀ e ∈ sends, e.isSend = true := by
  induction ids with
  | nil =>
    intro self vm
    exact ⟨[], by simp [paymentLoop], by simp⟩
  | cons deal rest ih =>
    intro self vm
    have hS := Send_trace vmctx vm env.StoragePowerAddress env.IsMiner 0
      ((env.isMinerParams vmctx.From).toOption.getD [])
    have hone : ∀ e ∈ [Event.send env.StoragePowerAddress env.IsMiner 0
        ((env.isMinerParams vmctx.From).toOption.getD [])], e.isSend = true := by
      intro e he
      simp only [List.mem_singleton] at he
      subst he
      rfl
    unfold paymentLoop
    split
    · exact ⟨[], by simp, by simp⟩
    · split
      · exact ⟨[], by simp, by simp⟩
      · rename_i encoded hparams
        rw [hparams] at hS hone
        simp only [Except.toOption, Option.getD] at hS hone
        split
        · rename_i err vm1 hsd
          rw [hsd] at hS
          exact ⟨_, hS, hone⟩
        · rename_i ret vm1 hsd
          rw [hsd] at hS
          split
          · exact ⟨_, hS, hone⟩
          · split
            · exact ⟨_, hS, hone⟩
            · split
              · exact ⟨_, hS, hone⟩
              · obtain ⟨sends, ht, hs⟩ := ih _ vm1
                refine ⟨.send env.StoragePowerAddress env.IsMiner 0 encoded :: sends, ?_, ?_⟩
                · rw [ht, hS]
                  simp
                · intro e he
                  simp only [List.mem_cons] at he
                  rcases he with he | he
                  · subst he
                    rfl
                  · exact hs e he

theorem isCommit_of_isSend (e : Event) (h : e.isSend = true) : e.isCommit = false := by
  cases e <;> simp_all [Event.isSend, Event.isCommit]

/-- An execution that has added calls without a commit. -/
theorem commitsOnceAtEnd_of_no_commit (vm : VMState) (r : Except ActorError Bytes × VMState)
    (evs : List Event) (ht : r.2.trace = vm.trace ++ (.getHead :: evs))
    (hn : ∀ e ∈ evs, e.isCommit = false) : commitsOnceAtEnd vm r := by
  have hall : ∀ e ∈ Event.getHead :: evs, e.isCommit = false := by
    intro e he
    simp only [List.mem_cons] at he
    rcases he with he | he
    · subst he
      rfl
    · exact hn e he
  exact ⟨.getHead :: evs, ht, rfl, Or.inl hall, fun _ _ _ _ => hall⟩

/-- An execution that has added calls ending with a put and the commit. -/
theorem commitsOnceAtEnd_of_commit (vm : VMState) (r : Except ActorError Bytes × VMState)
    (pre : List Event) (st : StorageMarketState)
    (ht : r.2.trace = vm.trace ++ (.getHead :: pre ++ [.put st, .commit vm.head st]))
    (hn : ∀ e ∈ pre, e.isCommit = false)
    (hhead : r.1 ≠ .error .staleCommit → r.2.head = st)
    (herr : ∀ e, r.1 = .error e → e = .staleCommit ∨ e = .external .serialisingOutput) :
    commitsOnceAtEnd vm r := by
  have hall : ∀ e ∈ Event.getHead :: pre, e.isCommit = false := by
    intro e he
    simp only [List.mem_cons] at he
    rcases he with he | he
    · subst he
      rfl
    · exact hn e he
  refine ⟨.getHead :: pre ++ [.put st, .commit vm.head st], ht, by simp,
    Or.inr ⟨.getHead :: pre, st, rfl, hall, hhead⟩, ?_⟩
  intro e he h1 h2
  rcases herr e he with h | h
  · exact absurd h h1
  · exact absurd h h2

/-! ## Escrow lock in `validateDeal` -/

/-- For a deal whose client and provider differ, an accepted deal moves the
storage price from the client's available to the client's locked balance and
the collateral from the provider's available to the provider's locked
balance, and leaves every other address as it was. -/
theorem validateDeal_locks_distinct (env : Env) (vmctx : VMContext)
    (self self1 : StorageMarketState) (deal : StorageDeal)
    (h : validateDeal env vmctx self deal = (none, self1))
    (hne : deal.Proposal.Client ≠ deal.Proposal.Provider) :
    balanceOf self1 deal.Proposal.Client =
        { Locked := (balanceOf self deal.Proposal.Client).Locked + deal.Proposal.StoragePrice,
          Available :=
            (balanceOf self deal.Proposal.Client).Available - deal.Proposal.StoragePrice } ∧
      balanceOf self1 deal.Proposal.Provider =
        { Locked :=
            (balanceOf self deal.Proposal.Provider).Locked + deal.Proposal.StorageCollateral,
          Available :=
            (balanceOf self deal.Proposal.Provider).Available -
              deal.Proposal.StorageCollateral } ∧
      ∀ a, a ≠ deal.Proposal.Client → a ≠ deal.Proposal.Provider →
        balanceOf self1 a = balanceOf self a := by
  have h1 := ((validateDeal_ok_iff env vmctx self self1 deal).mp h).2.2.2
  subst h1
  simp only [balanceOf]
  refine ⟨?_, ?_, ?_⟩
  · rw [getOrZero_lockedBalances, if_neg (fun e => hne e.symm), if_pos rfl]
    simp [lockFunds, transferFunds]
  · rw [getOrZero_lockedBalances, if_pos rfl]
    simp [lockFunds, transferFunds]
  · intro a ha hb
    rw [getOrZero_lockedBalances, if_neg (fun e => hb e.symm), if_neg (fun e => ha e.symm)]

/-- For a deal whose client is also its provider, an accepted deal moves the
collateral only: the storage price stays available. -/
theorem validateDeal_locks_same (env : Env) (vmctx : VMContext)
    (self self1 : StorageMarketState) (deal : StorageDeal)
    (h : validateDeal env vmctx self deal = (none, self1))
    (heq : deal.Proposal.Client = deal.Proposal.Provider) :
    balanceOf self1 deal.Proposal.Client =
      { Locked := (balanceOf self deal.Proposal.Client).Locked + deal.Proposal.StorageCollateral,
        Available :=
          (balanceOf self deal.Proposal.Client).Available - deal.Proposal.StorageCollateral } := by
  have h1 := ((validateDeal_ok_iff env vmctx self self1 deal).mp h).2.2.2
  subst h1
  simp only [balanceOf]
  rw [getOrZero_lockedBalances, if_pos heq.symm, ← heq]
  simp [lockFunds, transferFunds]

/-- C1, at the failing input.  Address 10 has 1000 available and is both the
client and the provider of a deal with price 100 and collateral 50.
`validateDeal` accepts the deal and writes back, for address 10, available 950
and locked 50: the collateral is locked, the storage price is not.  The state
committed by `PublishStorageDeals` on that deal has the same balances. -/
theorem validateDeal_same_address_locks_collateral_only :
    validateDeal demoEnv (demoCtx 1 10) demoState (demoDeal 10 10) =
        (none, { demoState with Balances :=
          [(10, { Locked := 50, Available := 950 }), (20, { Locked := 0, Available := 500 })] }) ∧
      (PublishStorageDeals demoEnv (demoCtx 1 10) { head := demoState, trace := [] }
          { Deals := [demoDeal 10 10] }).2.head.Balances =
        [(10, { Locked := 50, Available := 950 }), (20, { Locked := 0, Available := 500 })] := by
  constructor
  · decide
  · decide

/-! ## Totals -/

/-- C2.  Escrow lock preserves totals: a successful `PublishStorageDeals` and
a successful `ActivateStorageDeals` leave `locked + available` of every
address, as read from the committed state, as it was before the call. -/
theorem escrow_lock_preserves_total (env : Env) (vmctx : VMContext) (vm vm1 : VMState)
    (out : Bytes) (a : Address) :
    (∀ params, PublishStorageDeals env vmctx vm params = (.ok out, vm1) →
        (balanceOf vm1.head a).total = (balanceOf vm.head a).total) ∧
      (∀ params, ActivateStorageDeals vmctx vm params = (.ok out, vm1) →
        (balanceOf vm1.head a).total = (balanceOf vm.head a).total) := by
  constructor
  · intro params h
    obtain ⟨s, hs, hhead⟩ := PublishStorageDeals_ok_head env vmctx vm vm1 params out h
    rw [hhead]
    exact validateAll_total env vmctx params.Deals vm.head s hs a
  · intro params h
    obtain ⟨deals, _, hhead⟩ := ActivateStorageDeals_ok_head vmctx vm vm1 params out h
    rw [hhead]
    rfl

/-- C2, on the scenario: publishing the deal of client 10 and provider 20
succeeds and leaves the total of the client at 1000; the activation of the
published deal by the provider succeeds and leaves it there too. -/
theorem escrow_lock_preserves_total_witness :
    (PublishStorageDeals demoEnv (demoCtx 1 10) { head := demoState, trace := [] }
        { Deals := [demoDeal 10 20] } =
      (.ok [0], { head := paidState,
                  trace := [.getHead, .get demoState, .loadAMT [], .flushAMT paidState.Deals,
                    .put paidState, .commit demoState paidState] }) ∧
      (balanceOf paidState 10).total = (balanceOf demoState 10).total) ∧
    (ActivateStorageDeals (demoCtx 50 20) { head := paidState, trace := [] } { Deals := [0] } =
      (.ok [], { head := activeState,
                 trace := [.getHead, .get paidState, .loadAMT paidState.Deals,
                   .flushAMT activeState.Deals, .put activeState,
                   .commit paidState activeState] }) ∧
      (balanceOf activeState 10).total = (balanceOf paidState 10).total) :=
  ⟨⟨by rfl, (escrow_lock_preserves_total demoEnv (demoCtx 1 10)
      { head := demoState, trace := [] } _ [0] 10).1 { Deals := [demoDeal 10 20] } (by rfl)⟩,
   ⟨by rfl, (escrow_lock_preserves_total demoEnv (demoCtx 50 20)
      { head := paidState, trace := [] } _ [] 10).2 { Deals := [0] } (by rfl)⟩⟩

/-! ## Non-negative balances -/

/-- C3, at the failing inputs.  In the state left by the scenario (client 10
has 100 locked for deal 0, whose price is 100 and duration 200) the provider
calls `ProcessStorageDealsPayment` on the identifiers `[0, 0, 0]` with a
proving period of 100.  The call succeeds and commits a state in which the
client's locked balance is -50: each round pays 50 out of the client's locked
balance, and nothing compares the payment with what is locked.  When the deal
lasts 50 epochs, one call on `[0]` pays 200 and commits a locked balance of
-100. -/
theorem ProcessStorageDealsPayment_drives_locked_negative :
    ((ProcessStorageDealsPayment demoEnv (demoCtx 50 20) { head := paidState, trace := [] }
        { DealIDs := [0, 0, 0] }).1 = .ok [] ∧
      (ProcessStorageDealsPayment demoEnv (demoCtx 50 20) { head := paidState, trace := [] }
        { DealIDs := [0, 0, 0] }).2.head.Balances =
        [(10, { Locked := -50, Available := 900 }), (20, { Locked := 50, Available := 600 })]) ∧
    ((ProcessStorageDealsPayment demoEnv (demoCtx 50 20) { head := shortDealState, trace := [] }
        { DealIDs := [0] }).1 = .ok [] ∧
      (ProcessStorageDealsPayment demoEnv (demoCtx 50 20) { head := shortDealState, trace := [] }
        { DealIDs := [0] }).2.head.Balances =
        [(10, { Locked := -100, Available := 900 }), (20, { Locked := 50, Available := 650 })]) := by
  refine ⟨⟨?_, ?_⟩, ?_, ?_⟩
  · rfl
  · decide
  · rfl
  · decide

/-! ## Publishing -/

/-- C4, counterexample.  In a state whose counter is at the last `uint64`, the
two deals of a batch both validate and `PublishStorageDeals` succeeds; the
identifiers it returns are `2^64 - 1` and 0: the one at index 1 is not
`c + 1` and they are not increasing, and the counter it leaves is 1, not
`c + 2`. -/
theorem PublishStorageDeals_ids_fall_at_wrap :
    (validateAll demoEnv (demoCtx 1 10) lastCounterState
        [demoDeal 10 20, demoDeal 10 20]).isSome = true ∧
      (PublishStorageDeals demoEnv (demoCtx 1 10) { head := lastCounterState, trace := [] }
          { Deals := [demoDeal 10 20, demoDeal 10 20] }).1 = .ok [2 ^ 64 - 1, 0] ∧
      ¬ List.Pairwise (fun x y => x < y) ([2 ^ 64 - 1, 0] : List Nat) ∧
      (0 : Nat) ≠ lastCounterState.NextDealID + 1 ∧
      (PublishStorageDeals demoEnv (demoCtx 1 10) { head := lastCounterState, trace := [] }
          { Deals := [demoDeal 10 20, demoDeal 10 20] }).2.head.NextDealID = 1 ∧
      (1 : Nat) ≠ lastCounterState.NextDealID + 2 := by
  refine ⟨?_, ?_, ?_, ?_, ?_, ?_⟩
  · decide
  · rfl
  · decide
  · decide
  · decide
  · decide

/-- C4, amended.  When every deal of the batch validates (each against the
balances left by the ones before it), the counter `c` at entry is a `uint64`
and the batch has `N` deals, at most `2^64`: `PublishStorageDeals` returns the
encoding of the response whose list of identifiers is `sequentialIDs c N`,
which has `N` elements, `(c + i) mod 2^64` at index `i` (or the error of the
encoder, after the commit); the committed state has its counter at
`(c + N) mod 2^64` and holds deal `i` under identifier `(c + i) mod 2^64` with
activation epoch 0.  The identifiers are strictly increasing exactly when
`c + N` does not pass `2^64`, and then the one at index `i` is `c + i`; the
counter is `c + N` when `c + N` is below `2^64`. -/
theorem PublishStorageDeals_assigns_sequential_ids (env : Env) (vmctx : VMContext)
    (vm : VMState) (params : PublishStorageDealsParams) (s : StorageMarketState)
    (hc : vm.head.NextDealID < 2 ^ 64) (hn : params.Deals.length ≤ 2 ^ 64)
    (hv : validateAll env vmctx vm.head params.Deals = some s) :
    (PublishStorageDeals env vmctx vm params).1 =
        (match env.marshalResponse
            { DealIDs := sequentialIDs vm.head.NextDealID params.Deals.length } with
          | none => .error (.external .serialisingOutput)
          | some outBuf => .ok outBuf) ∧
      (sequentialIDs vm.head.NextDealID params.Deals.length).length = params.Deals.length ∧
      (PublishStorageDeals env vmctx vm params).2.head.NextDealID =
        (vm.head.NextDealID + params.Deals.length) % 2 ^ 64 ∧
      (∀ (i : Nat) (hi : i < params.Deals.length),
        kvFind ((vm.head.NextDealID + i) % 2 ^ 64)
            (PublishStorageDeals env vmctx vm params).2.head.Deals =
          some { Deal := params.Deals[i], ActivationEpoch := 0 }) ∧
      (List.Pairwise (fun x y => x < y)
          (sequentialIDs vm.head.NextDealID params.Deals.length) ↔
        vm.head.NextDealID + params.Deals.length ≤ 2 ^ 64) ∧
      (vm.head.NextDealID + params.Deals.length ≤ 2 ^ 64 →
        sequentialIDs vm.head.NextDealID params.Deals.length =
          (List.range params.Deals.length).map (fun i => vm.head.NextDealID + i)) ∧
      (vm.head.NextDealID + params.Deals.length < 2 ^ 64 →
        (PublishStorageDeals env vmctx vm params).2.head.NextDealID =
          vm.head.NextDealID + params.Deals.length) := by
  have hl := publishLoop_of_validateAll env vmctx params.Deals vm.head s vm.head.Deals [] hv
  rw [PublishStorageDeals_of_loop_ok env vmctx vm params _ _ _ hl]
  simp only [List.nil_append]
  refine ⟨?_, ?_, ?_, ?_, ⟨?_, ?_⟩, ?_, ?_⟩
  · rw [idsFrom_eq _ _ hc, sequentialIDs]
  · simp only [sequentialIDs, List.length_map, List.length_range]
  · exact counterAfter_eq _ _ hc
  · intro i hi
    exact kvFind_storeDeals params.Deals vm.head.Deals _ hc hn i hi
  · intro hp
    by_contra hgt
    rw [sequentialIDs, List.pairwise_map, List.pairwise_iff_getElem] at hp
    have h := hp (2 ^ 64 - 1 - vm.head.NextDealID) (2 ^ 64 - vm.head.NextDealID)
      (by rw [List.length_range]; omega) (by rw [List.length_range]; omega) (by omega)
    simp only [List.getElem_range] at h
    have h1 : vm.head.NextDealID + (2 ^ 64 - 1 - vm.head.NextDealID) = 2 ^ 64 - 1 := by omega
    have h2 : vm.head.NextDealID + (2 ^ 64 - vm.head.NextDealID) = 2 ^ 64 := by omega
    rw [h1, h2] at h
    exact absurd h (by decide)
  · intro hle
    rw [sequentialIDs, List.pairwise_map]
    refine List.Pairwise.imp_of_mem ?_ (List.pairwise_lt_range _)
    intro a b ha hb hab
    rw [List.mem_range] at ha hb
    rw [Nat.mod_eq_of_lt (by omega), Nat.mod_eq_of_lt (by omega)]
    omega
  · intro hle
    rw [sequentialIDs]
    apply List.map_congr_left
    intro i hi
    rw [List.mem_range] at hi
    exact Nat.mod_eq_of_lt (by omega)
  · intro hlt
    rw [counterAfter_eq _ _ hc]
    exact Nat.mod_eq_of_lt hlt

/-- C4, amended, on the scenario: the counter is 0, the batch is the one deal of client
10 and provider 20; the call returns the identifier list `[0]`. -/
theorem PublishStorageDeals_assigns_sequential_ids_witness :
    (PublishStorageDeals demoEnv (demoCtx 1 10) { head := demoState, trace := [] }
        { Deals := [demoDeal 10 20] }).1 = .ok [0] ∧
      (PublishStorageDeals demoEnv (demoCtx 1 10) { head := demoState, trace := [] }
        { Deals := [demoDeal 10 20] }).2.head.NextDealID = 1 ∧
      kvFind 0 (PublishStorageDeals demoEnv (demoCtx 1 10) { head := demoState, trace := [] }
        { Deals := [demoDeal 10 20] }).2.head.Deals =
        some { Deal := demoDeal 10 20, ActivationEpoch := 0 } := by
  have h := PublishStorageDeals_assigns_sequential_ids demoEnv (demoCtx 1 10)
    { head := demoState, trace := [] } { Deals := [demoDeal 10 20] }
    { demoState with Balances := paidState.Balances } (by decide) (by decide) (by decide)
  exact ⟨h.1, h.2.2.1, h.2.2.2.1 0 (by decide)⟩

/-- C5.  `PublishStorageDeals` is all or nothing: when the deals `pre` of a
batch validate and the next deal is rejected with the error `e` (against the
balances left by `pre`), the call returns `e` and no output, the head of the
actor is the state at entry, and the only storage calls made are the reads at
entry: no commit is issued. -/
theorem PublishStorageDeals_all_or_nothing (env : Env) (vmctx : VMContext) (vm : VMState)
    (pre post : List StorageDeal) (deal : StorageDeal) (s : StorageMarketState)
    (e : ActorError)
    (hpre : validateAll env vmctx vm.head pre = some s)
    (hrej : (validateDeal env vmctx s deal).1 = some e) :
    PublishStorageDeals env vmctx vm { Deals := pre ++ deal :: post } =
      (.error e, { head := vm.head,
                   trace := vm.trace ++ [.getHead, .get vm.head, .loadAMT vm.head.Deals] }) :=
  PublishStorageDeals_of_loop_error env vmctx vm _ e
    (publishLoop_of_reject env vmctx pre vm.head s vm.head.Deals [] deal post e hpre hrej)

/-- C5, on the scenario: the first deal of the batch validates and locks 100
of the client's funds in the working copy, the second asks for 950 and is
rejected with exit code 5; the head stays `demoState`. -/
theorem PublishStorageDeals_all_or_nothing_witness :
    validateAll demoEnv (demoCtx 1 10) demoState [demoDeal 10 20] =
        some { demoState with Balances := paidState.Balances } ∧
      (validateDeal demoEnv (demoCtx 1 10) { demoState with Balances := paidState.Balances }
        dearDeal).1 = some (.new 5) ∧
      PublishStorageDeals demoEnv (demoCtx 1 10) { head := demoState, trace := [] }
          { Deals := [demoDeal 10 20] ++ dearDeal :: [] } =
        (.error (.new 5), { head := demoState,
                            trace := [] ++ [.getHead, .get demoState, .loadAMT demoState.Deals] }) :=
  ⟨by decide, by decide,
    PublishStorageDeals_all_or_nothing demoEnv (demoCtx 1 10) { head := demoState, trace := [] }
      [demoDeal 10 20] [] dearDeal { demoState with Balances := paidState.Balances } (.new 5)
      (by decide) (by decide)⟩

/-! ## Rejections of `validateDeal` -/

/-- C6.  A deal whose proposal expiration is at or before the current epoch is
rejected by `validateDeal` with exit code 1 whatever the encoders, the
signature check, the sender and the balances are, and the receiver stays as it
was; `PublishStorageDeals` on a batch that contains such a deal fails (with
exit code 1 when the deal comes first), leaves the head of the actor at the
state at entry and issues no commit. -/
theorem expired_proposal_rejected (env : Env) (vmctx : VMContext) (deal : StorageDeal)
    (h : deal.Proposal.ProposalExpiration ≤ vmctx.BlockHeight) :
    (∀ self, validateDeal env vmctx self deal = (some (.new 1), self)) ∧
      (∀ vm pre post, ∃ e,
        PublishStorageDeals env vmctx vm { Deals := pre ++ deal :: post } =
          (.error e, { head := vm.head,
                       trace := vm.trace ++ [.getHead, .get vm.head, .loadAMT vm.head.Deals] })) ∧
      (∀ vm post,
        PublishStorageDeals env vmctx vm { Deals := deal :: post } =
          (.error (.new 1),
            { head := vm.head,
              trace := vm.trace ++ [.getHead, .get vm.head, .loadAMT vm.head.Deals] })) := by
  have hv : ∀ self, validateDeal env vmctx self deal = (some (.new 1), self) := by
    intro self
    simp [validateDeal, h]
  refine ⟨hv, ?_, ?_⟩
  · intro vm pre post
    obtain ⟨e, he⟩ := publishLoop_of_expired env vmctx deal post h pre vm.head vm.head.Deals []
    exact ⟨e, PublishStorageDeals_of_loop_error env vmctx vm _ e he⟩
  · intro vm post
    apply PublishStorageDeals_of_loop_error
    unfold publishLoop
    rw [hv]

/-- C6, on the scenario at epoch 10000, the expiration of the proposal. -/
theorem expired_proposal_rejected_witness :
    (demoDeal 10 20).Proposal.ProposalExpiration ≤ (demoCtx 10000 10).BlockHeight ∧
      validateDeal demoEnv (demoCtx 10000 10) demoState (demoDeal 10 20) =
        (some (.new 1), demoState) :=
  ⟨by decide,
    (expired_proposal_rejected demoEnv (demoCtx 10000 10) (demoDeal 10 20) (by decide)).1
      demoState⟩

/-- C7.  For a deal that is not expired, whose signatures pass and that is
submitted by its client or provider: when the client's available balance is
below the storage price `validateDeal` fails with exit code 5; otherwise, when
the provider's available balance is below the collateral, it fails with exit
code 6; in both cases the receiver, and so its balances root, stays as it
was.  When neither holds the deal is accepted. -/
theorem validateDeal_insufficient_funds (env : Env) (vmctx : VMContext)
    (self : StorageMarketState) (deal : StorageDeal) (h : passesChecks env vmctx deal) :
    ((balanceOf self deal.Proposal.Client).Available < deal.Proposal.StoragePrice →
        validateDeal env vmctx self deal = (some (.new 5), self)) ∧
      ((balanceOf self deal.Proposal.Provider).Available < deal.Proposal.StorageCollateral →
        validateDeal env vmctx self deal = (some (.new 5), self) ∨
          validateDeal env vmctx self deal = (some (.new 6), self)) ∧
      (¬ (balanceOf self deal.Proposal.Client).Available < deal.Proposal.StoragePrice →
        (balanceOf self deal.Proposal.Provider).Available < deal.Proposal.StorageCollateral →
        validateDeal env vmctx self deal = (some (.new 6), self)) ∧
      (¬ (balanceOf self deal.Proposal.Client).Available < deal.Proposal.StoragePrice →
        ¬ (balanceOf self deal.Proposal.Provider).Available < deal.Proposal.StorageCollateral →
        (validateDeal env vmctx self deal).1 = none) := by
  rw [validateDeal_of_checks env vmctx self deal h]
  simp only [balanceOf]
  refine ⟨?_, ?_, ?_, ?_⟩
  · intro h5
    rw [if_pos h5]
  · intro h6
    by_cases h5 : (getOrZero self.Balances deal.Proposal.Client).Available <
        deal.Proposal.StoragePrice
    · left; rw [if_pos h5]
    · right; rw [if_neg h5, if_pos h6]
  · intro h5 h6
    rw [if_neg h5, if_pos h6]
  · intro h5 h6
    rw [if_neg h5, if_neg h6]

/-- C7, on the scenario: in `paidState` the client has 900 available, so the
deal that asks for 950 is rejected with exit code 5. -/
theorem validateDeal_insufficient_funds_witness :
    passesChecks demoEnv (demoCtx 1 10) dearDeal ∧
      (balanceOf paidState dearDeal.Proposal.Client).Available <
        dearDeal.Proposal.StoragePrice ∧
      validateDeal demoEnv (demoCtx 1 10) paidState dearDeal = (some (.new 5), paidState) :=
  have hc : passesChecks demoEnv (demoCtx 1 10) dearDeal :=
    ⟨by decide, ⟨⟨_, rfl, by decide⟩, ⟨_, rfl, by decide⟩⟩, Or.inr rfl⟩
  ⟨hc, by decide,
    (validateDeal_insufficient_funds demoEnv (demoCtx 1 10) paidState dearDeal hc).1
      (by decide)⟩

/-- C8.  For a deal that is not expired and whose signatures pass,
`validateDeal` fails with exit code 4 when the sender is neither the provider
nor the client, whatever the balances are, and leaves the receiver as it was;
when the sender is the client or the provider it does not fail with exit
code 4. -/
theorem validateDeal_unauthorized (env : Env) (vmctx : VMContext) (self : StorageMarketState)
    (deal : StorageDeal)
    (hexp : vmctx.BlockHeight < deal.Proposal.ProposalExpiration)
    (hsig : validSignatures env deal) :
    (vmctx.From ≠ deal.Proposal.Provider ∧ vmctx.From ≠ deal.Proposal.Client →
        validateDeal env vmctx self deal = (some (.new 4), self)) ∧
      (vmctx.From = deal.Proposal.Client ∨ vmctx.From = deal.Proposal.Provider →
        (validateDeal env vmctx self deal).1 ≠ some (.new 4)) := by
  constructor
  · intro hfrom
    obtain ⟨⟨pb, hpb, hpv⟩, ⟨db, hdb, hdv⟩⟩ := hsig
    have h1 : ¬ vmctx.BlockHeight ≥ deal.Proposal.ProposalExpiration := by omega
    simp [validateDeal, h1, hpb, hpv, hdb, hdv, hfrom]
  · intro hfrom
    have hc : passesChecks env vmctx deal := ⟨hexp, hsig, hfrom.symm⟩
    rw [validateDeal_of_checks env vmctx self deal hc]
    split
    · simp
    split
    · simp
    · simp

/-- C8, on the scenario with address 30 as the sender. -/
theorem validateDeal_unauthorized_witness :
    (demoCtx 1 30).BlockHeight < (demoDeal 10 20).Proposal.ProposalExpiration ∧
      validSignatures demoEnv (demoDeal 10 20) ∧
      validateDeal demoEnv (demoCtx 1 30) demoState (demoDeal 10 20) =
        (some (.new 4), demoState) :=
  have hs : validSignatures demoEnv (demoDeal 10 20) :=
    ⟨⟨_, rfl, by decide⟩, ⟨_, rfl, by decide⟩⟩
  ⟨by decide, hs,
    (validateDeal_unauthorized demoEnv (demoCtx 1 30) demoState (demoDeal 10 20)
      (by decide) hs).1 ⟨by decide, by decide⟩⟩

/-! ## Signatures -/

/-- C9, at the failing inputs.  The bytes that `validateDeal` gives to the
check of the proposer signature are the encoding of the proposal as it is, the
signature included.  With a signature scheme that binds the message
(`bindingEnv`), the proposal signed by `Sign` carries a signature that
verifies over the encoding of the proposal with the signature cleared, and
`validateDeal` rejects its deal at the proposer-signature check.  With the
scheme of `tailEnv`, `validateDeal` accepts the deal of the scenario although
its proposer signature does not verify over the encoding of the proposal with
the signature cleared. -/
theorem validateDeal_verifies_signed_encoding :
    (bindingEnv.verify signedProposal.ProposerSignature signedProposal.Client
          ((bindingEnv.marshalProposal
            { signedProposal with ProposerSignature := none }).getD []) = true ∧
        validateDeal bindingEnv (demoCtx 1 10) demoState
            { Proposal := signedProposal, CounterSignature := { Data := [20] } } =
          (some (.external .verifyingProposerSignature), demoState)) ∧
      (tailEnv.verify (demoDeal 10 20).Proposal.ProposerSignature (demoDeal 10 20).Proposal.Client
          ((tailEnv.marshalProposal
            { (demoDeal 10 20).Proposal with ProposerSignature := none }).getD []) = false ∧
        (validateDeal tailEnv (demoCtx 1 10) demoState (demoDeal 10 20)).1 = none) := by
  refine ⟨⟨?_, ?_⟩, ?_, ?_⟩
  · decide
  · decide
  · decide
  · decide

/-- C10, at the failing input.  `Sign` on the unsigned proposal of the
scenario, with a signing function whose signature verifies for the client over
exactly the bytes it was given, succeeds and stores that signature, which
verifies over the encoding of the proposal with the signature cleared; `Verify`
on the signed proposal fails, because it encodes the signed proposal. -/
theorem Sign_then_Verify_fails :
    (StorageDealProposal.Sign bindingEnv unsignedProposal (bindingSign 10)).1 = none ∧
      signedProposal.ProposerSignature =
        bindingSign 10 ((bindingEnv.marshalProposal unsignedProposal).getD []) ∧
      { signedProposal with ProposerSignature := none } = unsignedProposal ∧
      bindingEnv.verify signedProposal.ProposerSignature signedProposal.Client
        ((bindingEnv.marshalProposal unsignedProposal).getD []) = true ∧
      StorageDealProposal.Verify bindingEnv signedProposal = false := by
  refine ⟨?_, ?_, ?_, ?_, ?_⟩
  · decide
  · decide
  · decide
  · decide
  · decide

/-! ## Activation -/

/-- C11.  For a list of distinct identifiers whose deals are all stored,
inactive, not past their expiration and have the sender as provider,
`ActivateStorageDeals` succeeds; in the committed state every listed record
has the current epoch as activation epoch and the deal it had, every record
that is not listed is as it was, nothing new is stored, and the balances and
the counter are as they were. -/
theorem ActivateStorageDeals_activates_listed (vmctx : VMContext) (vm : VMState)
    (params : ActivateStorageDealsParams)
    (hnd : params.Deals.Nodup)
    (hall : ∀ id ∈ params.Deals, ∃ d, kvFind id vm.head.Deals = some d ∧
      vmctx.From = d.Deal.Proposal.Provider ∧
      vmctx.BlockHeight ≤ d.Deal.Proposal.ProposalExpiration ∧ d.ActivationEpoch = 0) :
    (ActivateStorageDeals vmctx vm params).1 = .ok [] ∧
      (∀ id d, kvFind id vm.head.Deals = some d →
        kvFind id (ActivateStorageDeals vmctx vm params).2.head.Deals =
          some (if id ∈ params.Deals then
            { Deal := d.Deal, ActivationEpoch := vmctx.BlockHeight } else d)) ∧
      (∀ id, kvFind id vm.head.Deals = none →
        kvFind id (ActivateStorageDeals vmctx vm params).2.head.Deals = none) ∧
      (ActivateStorageDeals vmctx vm params).2.head.Balances = vm.head.Balances ∧
      (ActivateStorageDeals vmctx vm params).2.head.NextDealID = vm.head.NextDealID := by
  have hall' : ∀ id ∈ params.Deals, activationError vmctx vm.head.Deals id = none :=
    fun id hmem => (activationError_none_iff vmctx vm.head.Deals id).mpr (hall id hmem)
  obtain ⟨deals1, hl, hfind⟩ := activateLoop_of_distinct vmctx params.Deals vm.head.Deals hnd hall'
  rw [ActivateStorageDeals_of_loop_ok vmctx vm params deals1 hl]
  refine ⟨rfl, ?_, ?_, rfl, rfl⟩
  · intro id d hk
    simp only [hfind id, hk]
    by_cases hmem : id ∈ params.Deals
    · simp [hmem, OnChainDeal.activatedAt]
    · simp [hmem]
  · intro id hk
    simp only [hfind id, hk]
    by_cases hmem : id ∈ params.Deals <;> simp [hmem]

/-- C11, on the scenario: the provider 20 activates deal 0 at epoch 50; the
stored activation epoch becomes 50. -/
theorem ActivateStorageDeals_activates_listed_witness :
    (ActivateStorageDeals (demoCtx 50 20) { head := paidState, trace := [] }
        { Deals := [0] }).1 = .ok [] ∧
      kvFind 0 (ActivateStorageDeals (demoCtx 50 20) { head := paidState, trace := [] }
        { Deals := [0] }).2.head.Deals =
        some (if 0 ∈ [0] then { Deal := demoDeal 10 20, ActivationEpoch := 50 }
          else { Deal := demoDeal 10 20, ActivationEpoch := 0 }) :=
  have h := ActivateStorageDeals_activates_listed (demoCtx 50 20)
    { head := paidState, trace := [] } { Deals := [0] } (by decide)
    (by
      intro id hmem
      simp only [List.mem_singleton] at hmem
      subst hmem
      exact ⟨{ Deal := demoDeal 10 20, ActivationEpoch := 0 }, by decide, by decide, by decide,
        by decide⟩)
  ⟨h.1, h.2.1 0 { Deal := demoDeal 10 20, ActivationEpoch := 0 } (by decide)⟩

/-- C14.  `ActivateStorageDeals` on one identifier fails with the error of the
first failing check, in the order: record not found (the external error of
the lookup), sender is not the provider (exit code 1), current epoch above
the proposal expiration (exit code 2), stored activation epoch above 0 (exit
code 3); it succeeds exactly when the record is stored, the sender is its
provider, the current epoch is at most the expiration and the stored
activation epoch is 0. -/
theorem ActivateStorageDeals_single (vmctx : VMContext) (vm : VMState) (id : Nat) :
    (ActivateStorageDeals vmctx vm { Deals := [id] }).1 =
        (match kvFind id vm.head.Deals with
          | none => .error (.external .gettingDealInfo)
          | some d =>
            if vmctx.From ≠ d.Deal.Proposal.Provider then .error (.new 1)
            else if vmctx.BlockHeight > d.Deal.Proposal.ProposalExpiration then .error (.new 2)
            else if d.ActivationEpoch > 0 then .error (.new 3)
            else .ok []) ∧
      ((ActivateStorageDeals vmctx vm { Deals := [id] }).1 = .ok [] ↔
        ∃ d, kvFind id vm.head.Deals = some d ∧ vmctx.From = d.Deal.Proposal.Provider ∧
          vmctx.BlockHeight ≤ d.Deal.Proposal.ProposalExpiration ∧ d.ActivationEpoch = 0) := by
  cases he : activationError vmctx vm.head.Deals id with
  | some e =>
    have hl := activateLoop_cons_error vmctx vm.head.Deals id [] e he
    rw [ActivateStorageDeals_of_loop_error vmctx vm { Deals := [id] } e hl]
    constructor
    · unfold activationError at he
      cases hk : kvFind id vm.head.Deals with
      | none =>
        rw [hk] at he
        simp only [Option.some.injEq] at he
        simp only [he]
      | some d =>
        rw [hk] at he
        simp only at he ⊢
        split at he
        · rw [if_pos (by assumption), Option.some.inj he]
        split at he
        · rw [if_neg (by assumption), if_pos (by assumption), Option.some.inj he]
        split at he
        · rw [if_neg (by assumption), if_neg (by assumption), if_pos (by assumption),
            Option.some.inj he]
        · simp at he
    · constructor
      · intro h
        simp at h
      · intro h
        rw [(activationError_none_iff vmctx vm.head.Deals id).mpr h] at he
        simp at he
  | none =>
    have hex := (activationError_none_iff vmctx vm.head.Deals id).mp he
    obtain ⟨d, hk, h1, h2, h3⟩ := hex
    have hl : activateLoop vmctx vm.head.Deals [id] =
        .ok (kvSet id (d.activatedAt vmctx.BlockHeight) vm.head.Deals) := by
      rw [activateLoop_cons_ok vmctx vm.head.Deals id [] d hk he, activateLoop_nil]
    rw [ActivateStorageDeals_of_loop_ok vmctx vm { Deals := [id] } _ hl]
    refine ⟨?_, fun _ => ⟨d, hk, h1, h2, h3⟩, fun _ => rfl⟩
    rw [hk]
    simp only
    rw [if_neg (not_not.mpr h1), if_neg (by omega), if_neg (by omega)]

/-- C15.  `ActivateStorageDeals` is all or nothing: when the loop has gone
through the identifiers `pre` and the next identifier fails one of its checks
against the working copy left by `pre` (in which the deals of `pre` are
active), the call returns that error, the head of the actor is the state at
entry and the only storage calls made are the reads at entry: no commit is
issued. -/
theorem ActivateStorageDeals_all_or_nothing (vmctx : VMContext) (vm : VMState)
    (pre post : List Nat) (id : Nat) (deals1 : DealArray) (e : ActorError)
    (hpre : activateLoop vmctx vm.head.Deals pre = .ok deals1)
    (hfail : activationError vmctx deals1 id = some e) :
    ActivateStorageDeals vmctx vm { Deals := pre ++ id :: post } =
      (.error e, { head := vm.head,
                   trace := vm.trace ++ [.getHead, .get vm.head, .loadAMT vm.head.Deals] }) := by
  apply ActivateStorageDeals_of_loop_error
  have key : ∀ (ids : List Nat) (deals : DealArray), activateLoop vmctx deals ids = .ok deals1 →
      activateLoop vmctx deals (ids ++ id :: post) = .error e := by
    intro ids
    induction ids with
    | nil =>
      intro deals h
      rw [activateLoop_nil] at h
      obtain rfl := Except.ok.inj h
      exact activateLoop_cons_error vmctx deals id post e hfail
    | cons id0 rest ih =>
      intro deals h
      cases he : activationError vmctx deals id0 with
      | some e0 =>
        rw [activateLoop_cons_error vmctx deals id0 rest e0 he] at h
        simp at h
      | none =>
        obtain ⟨d0, hk0, _, _, _⟩ := (activationError_none_iff vmctx deals id0).mp he
        rw [activateLoop_cons_ok vmctx deals id0 rest d0 hk0 he] at h
        rw [List.cons_append, activateLoop_cons_ok vmctx deals id0 _ d0 hk0 he]
        exact ih _ h
  exact key pre vm.head.Deals hpre

/-- C15, on the scenario: the provider lists deal 0 twice at epoch 50; the
second round finds the deal active in the working copy and fails with exit
code 3, and the head stays `paidState`, in which deal 0 is inactive. -/
theorem ActivateStorageDeals_all_or_nothing_witness :
    activateLoop (demoCtx 50 20) paidState.Deals [0] = .ok activeState.Deals ∧
      activationError (demoCtx 50 20) activeState.Deals 0 = some (.new 3) ∧
      ActivateStorageDeals (demoCtx 50 20) { head := paidState, trace := [] }
          { Deals := [0] ++ 0 :: [] } =
        (.error (.new 3),
          { head := paidState,
            trace := [] ++ [.getHead, .get paidState, .loadAMT paidState.Deals] }) :=
  ⟨by rfl, by decide,
    ActivateStorageDeals_all_or_nothing (demoCtx 50 20) { head := paidState, trace := [] }
      [0] [] 0 activeState.Deals (.new 3) (by rfl) (by decide)⟩

/-- C12, counterexample.  In the scenario the provider activates deal 0 at
epoch 50, which succeeds.  A second call on the same identifier by the
provider at epoch 10001, after the proposal expiration 10000, fails with exit
code 2, not 3: the expiration check comes before the check of the activation
epoch.  And when the first call is made at epoch 0, it succeeds and stores the
activation epoch 0, so that a second call at epoch 60 succeeds as well. -/
theorem second_activation_not_always_already_active :
    ((ActivateStorageDeals (demoCtx 50 20) { head := paidState, trace := [] }
          { Deals := [0] }).1 = .ok [] ∧
      (ActivateStorageDeals (demoCtx 50 20) { head := paidState, trace := [] }
          { Deals := [0] }).2.head = activeState ∧
      (ActivateStorageDeals (demoCtx 10001 20)
          (ActivateStorageDeals (demoCtx 50 20) { head := paidState, trace := [] }
            { Deals := [0] }).2
          { Deals := [0] }).1 = .error (.new 2)) ∧
    ((ActivateStorageDeals (demoCtx 0 20) { head := paidState, trace := [] }
          { Deals := [0] }).1 = .ok [] ∧
      (ActivateStorageDeals (demoCtx 0 20) { head := paidState, trace := [] }
          { Deals := [0] }).2.head = paidState ∧
      (ActivateStorageDeals (demoCtx 60 20)
          (ActivateStorageDeals (demoCtx 0 20) { head := paidState, trace := [] }
            { Deals := [0] }).2
          { Deals := [0] }).1 = .ok [] ∧
      (ActivateStorageDeals (demoCtx 60 20)
          (ActivateStorageDeals (demoCtx 0 20) { head := paidState, trace := [] }
            { Deals := [0] }).2
          { Deals := [0] }).2.head = activeState60) := by
  refine ⟨⟨?_, ?_, ?_⟩, ?_, ?_, ?_, ?_⟩
  · rfl
  · decide
  · rfl
  · rfl
  · decide
  · rfl
  · decide

/-- C12, amended.  When a first `ActivateStorageDeals` call on one identifier
succeeds at an epoch above 0, a second call on the same identifier, at any
epoch and from any sender, fails, issues no commit and leaves the head of the
actor as the first call left it; the error is exit code 3 when the second
call comes from the same sender (the provider) at an epoch that does not
exceed the proposal expiration. -/
theorem second_activation_fails (ctx1 ctx2 : VMContext) (vm vm1 : VMState) (id : Nat)
    (out : Bytes)
    (h1 : ActivateStorageDeals ctx1 vm { Deals := [id] } = (.ok out, vm1))
    (he1 : 0 < ctx1.BlockHeight) :
    (∃ e, ActivateStorageDeals ctx2 vm1 { Deals := [id] } =
        (.error e, { head := vm1.head,
                     trace := vm1.trace ++
                       [.getHead, .get vm1.head, .loadAMT vm1.head.Deals] })) ∧
      (ctx2.From = ctx1.From →
        (∀ d, kvFind id vm.head.Deals = some d →
          ctx2.BlockHeight ≤ d.Deal.Proposal.ProposalExpiration) →
        ActivateStorageDeals ctx2 vm1 { Deals := [id] } =
          (.error (.new 3),
            { head := vm1.head,
              trace := vm1.trace ++ [.getHead, .get vm1.head, .loadAMT vm1.head.Deals] })) := by
  obtain ⟨deals, hl, hhead⟩ := ActivateStorageDeals_ok_head ctx1 vm vm1 _ out h1
  simp only at hl
  cases he : activationError ctx1 vm.head.Deals id with
  | some e =>
    rw [activateLoop_cons_error ctx1 vm.head.Deals id [] e he] at hl
    simp at hl
  | none =>
    obtain ⟨d, hk, hfrom, hexp, _⟩ := (activationError_none_iff ctx1 vm.head.Deals id).mp he
    rw [activateLoop_cons_ok ctx1 vm.head.Deals id [] d hk he, activateLoop_nil] at hl
    have hdeals := Except.ok.inj hl
    have hk1 : kvFind id vm1.head.Deals = some (d.activatedAt ctx1.BlockHeight) := by
      rw [hhead, ← hdeals]
      simp only
      rw [kvFind_kvSet, if_pos rfl]
    constructor
    · cases he2 : activationError ctx2 vm1.head.Deals id with
      | some e2 =>
        exact ⟨e2, ActivateStorageDeals_of_loop_error ctx2 vm1 _ e2
          (activateLoop_cons_error ctx2 vm1.head.Deals id [] e2 he2)⟩
      | none =>
        obtain ⟨d2, hk2, _, _, h0⟩ := (activationError_none_iff ctx2 vm1.head.Deals id).mp he2
        rw [hk1] at hk2
        obtain rfl := Option.some.inj hk2
        simp only [OnChainDeal.activatedAt] at h0
        omega
    · intro hsame hle
      apply ActivateStorageDeals_of_loop_error
      apply activateLoop_cons_error
      unfold activationError
      rw [hk1]
      simp only [OnChainDeal.activatedAt]
      have h2 := hle d hk
      rw [if_neg (not_not.mpr (hsame.trans hfrom)), if_neg (by omega), if_pos he1]

/-- C12, amended, on the scenario: the provider activates deal 0 at epoch 50
and calls again at epoch 60; the second call fails with exit code 3. -/
theorem second_activation_fails_witness :
    ActivateStorageDeals (demoCtx 50 20) { head := paidState, trace := [] } { Deals := [0] } =
        (.ok [], { head := activeState,
                   trace := [.getHead, .get paidState, .loadAMT paidState.Deals,
                     .flushAMT activeState.Deals, .put activeState,
                     .commit paidState activeState] }) ∧
      ActivateStorageDeals (demoCtx 60 20)
          { head := activeState,
            trace := [.getHead, .get paidState, .loadAMT paidState.Deals,
              .flushAMT activeState.Deals, .put activeState, .commit paidState activeState] }
          { Deals := [0] } =
        (.error (.new 3),
          { head := activeState,
            trace := [.getHead, .get paidState, .loadAMT paidState.Deals,
              .flushAMT activeState.Deals, .put activeState, .commit paidState activeState] ++
              [.getHead, .get activeState, .loadAMT activeState.Deals] }) :=
  ⟨by rfl,
    (second_activation_fails (demoCtx 50 20) (demoCtx 60 20) { head := paidState, trace := [] }
      _ 0 [] (by rfl) (by decide)).2 rfl
      (by
        intro d hd
        have hd' : d = { Deal := demoDeal 10 20, ActivationEpoch := 0 } := by
          have h0 : kvFind 0 paidState.Deals =
              some { Deal := demoDeal 10 20, ActivationEpoch := 0 } := by decide
          exact (Option.some.inj (hd.symm.trans h0))
        subst hd'
        decide)⟩

/-! ## Withdrawing and adding funds -/

/-- C16.  `WithdrawBalance` with an amount above the sender's available
balance (which is 0 for a sender without an entry) fails with exit code 1;
the only calls it makes are the two reads of the state at entry, so there is
no outbound transfer and no commit, and the head of the actor, with all its
balances, is as it was. -/
theorem WithdrawBalance_more_than_available (vmctx : VMContext) (vm : VMState)
    (params : WithdrawBalanceParams) :
    ((balanceOf vm.head vmctx.From).Available < params.Balance →
        WithdrawBalance vmctx vm params =
          (.error (.new 1),
            { head := vm.head, trace := vm.trace ++ [.getHead, .get vm.head] })) ∧
      (kvFind vmctx.From vm.head.Balances = none → 0 < params.Balance →
        WithdrawBalance vmctx vm params =
          (.error (.new 1),
            { head := vm.head, trace := vm.trace ++ [.getHead, .get vm.head] })) := by
  refine ⟨WithdrawBalance_of_short vmctx vm params, ?_⟩
  intro hnone hpos
  apply WithdrawBalance_of_short
  simp only [balanceOf, getOrZero, hnone, zeroBalance]
  exact hpos

/-- C16, on the scenario: the client of `paidState` has 900 available and asks
for 901. -/
theorem WithdrawBalance_more_than_available_witness :
    (balanceOf paidState (demoCtx 1 10).From).Available < 901 ∧
      WithdrawBalance (demoCtx 1 10) { head := paidState, trace := [] } { Balance := 901 } =
        (.error (.new 1),
          { head := paidState, trace := [] ++ [.getHead, .get paidState] }) :=
  ⟨by decide,
    (WithdrawBalance_more_than_available (demoCtx 1 10) { head := paidState, trace := [] }
      { Balance := 901 }).1 (by decide)⟩

/-- C17.  For an amount that does not exceed the sender's available balance:
when the outbound transfer succeeds (and returns with the head of the actor
as it was), `WithdrawBalance` succeeds, its one send is the transfer of
exactly that amount to the sender, made before the one commit, and in the
committed state the sender's available balance is lower by that amount while
the sender's locked balance, every other balance, the deals and the counter
are as they were; when the outbound transfer fails, the call fails with the
wrapped error and issues neither a put nor a commit. -/
theorem WithdrawBalance_within_available (vmctx : VMContext) (vm : VMState)
    (params : WithdrawBalanceParams)
    (h : params.Balance ≤ (balanceOf vm.head vmctx.From).Available) :
    (∀ ret, vmctx.Send vm.head vmctx.From 0 params.Balance [] = (.ok ret, vm.head) →
        (WithdrawBalance vmctx vm params).1 = .ok [] ∧
        (∃ st, (WithdrawBalance vmctx vm params).2.trace =
          vm.trace ++ [.getHead, .get vm.head, .send vmctx.From 0 params.Balance [],
            .put st, .commit vm.head st]) ∧
        balanceOf (WithdrawBalance vmctx vm params).2.head vmctx.From =
          { Locked := (balanceOf vm.head vmctx.From).Locked,
            Available := (balanceOf vm.head vmctx.From).Available - params.Balance } ∧
        (∀ a, a ≠ vmctx.From →
          balanceOf (WithdrawBalance vmctx vm params).2.head a = balanceOf vm.head a) ∧
        (WithdrawBalance vmctx vm params).2.head.Deals = vm.head.Deals ∧
        (WithdrawBalance vmctx vm params).2.head.NextDealID = vm.head.NextDealID) ∧
      (∀ err head1, vmctx.Send vm.head vmctx.From 0 params.Balance [] = (.error err, head1) →
        WithdrawBalance vmctx vm params =
          (.error (.wrap err),
            { head := head1,
              trace := vm.trace ++ [.getHead, .get vm.head,
                .send vmctx.From 0 params.Balance []] })) := by
  constructor
  · intro ret hs
    rw [WithdrawBalance_of_send_ok vmctx vm params ret vm.head h hs, if_pos rfl, if_pos rfl]
    refine ⟨rfl, ⟨_, rfl⟩, ?_, ?_, rfl, rfl⟩
    · rw [balanceOf_withBalance, if_pos rfl]
    · intro a ha
      rw [balanceOf_withBalance, if_neg (fun e => ha e.symm)]
  · intro err head1 hs
    exact WithdrawBalance_of_send_error vmctx vm params err head1 h hs

/-- C17, on the scenario: the client of `paidState` withdraws 400 of its 900
available. -/
theorem WithdrawBalance_within_available_witness :
    (400 : BigInt) ≤ (balanceOf paidState (demoCtx 1 10).From).Available ∧
      (WithdrawBalance (demoCtx 1 10) { head := paidState, trace := [] }
        { Balance := 400 }).1 = .ok [] ∧
      balanceOf (WithdrawBalance (demoCtx 1 10) { head := paidState, trace := [] }
          { Balance := 400 }).2.head (demoCtx 1 10).From =
        { Locked := (balanceOf paidState (demoCtx 1 10).From).Locked,
          Available := (balanceOf paidState (demoCtx 1 10).From).Available - 400 } :=
  have h := (WithdrawBalance_within_available (demoCtx 1 10) { head := paidState, trace := [] }
    { Balance := 400 } (by decide)).1 CborBoolFalse rfl
  ⟨by decide, h.1, h.2.2.1⟩

/-- C18.  `AddBalance` succeeds for every state, sender and attached value; in
the committed state the sender's available balance is higher by the attached
value (a sender without an entry ends with locked 0 and the attached value
available), and the sender's locked balance, every other balance, the deals
and the counter are as they were. -/
theorem AddBalance_adds_value (vmctx : VMContext) (vm : VMState) :
    (AddBalance vmctx vm).1 = .ok [] ∧
      balanceOf (AddBalance vmctx vm).2.head vmctx.From =
        { Locked := (balanceOf vm.head vmctx.From).Locked,
          Available := (balanceOf vm.head vmctx.From).Available + vmctx.Value } ∧
      (kvFind vmctx.From vm.head.Balances = none →
        balanceOf (AddBalance vmctx vm).2.head vmctx.From =
          { Locked := 0, Available := vmctx.Value }) ∧
      (∀ a, a ≠ vmctx.From → balanceOf (AddBalance vmctx vm).2.head a = balanceOf vm.head a) ∧
      (AddBalance vmctx vm).2.head.Deals = vm.head.Deals ∧
      (AddBalance vmctx vm).2.head.NextDealID = vm.head.NextDealID := by
  rw [AddBalance_eq]
  refine ⟨rfl, ?_, ?_, ?_, rfl, rfl⟩
  · rw [balanceOf_withBalance, if_pos rfl]
  · intro hnone
    rw [balanceOf_withBalance, if_pos rfl]
    simp [balanceOf, getOrZero, hnone, zeroBalance]
  · intro a ha
    rw [balanceOf_withBalance, if_neg (fun e => ha e.symm)]

/-- C19.  `GetMarketBalances` is positional and get-or-zero: its result has
the length of the address list, and its element `i` is the balance stored for
address `i`, or the balance with locked 0 and available 0 when nothing is
stored for it. -/
theorem GetMarketBalances_positional (rcid : BalanceMap) (addrs : List Address) :
    (GetMarketBalances rcid addrs).1.length = addrs.length ∧
      ∀ (i : Nat) (hi : i < addrs.length),
        (GetMarketBalances rcid addrs).1[i]? =
          some (match kvFind addrs[i] rcid with
            | some balance => balance
            | none => { Locked := 0, Available := 0 }) := by
  constructor
  · simp [GetMarketBalances]
  · intro i hi
    simp only [GetMarketBalances, List.getElem?_map, List.getElem?_eq_getElem hi, Option.map_some',
      getOrZero, zeroBalance]
    cases kvFind addrs[i] rcid <;> rfl

/-! ## Payment -/

/-- C20, at the failing inputs.  In the state left by the scenario the
provider calls `ProcessStorageDealsPayment` on deal 0.  When the storage
power actor answers the `IsMiner` query with true, the call fails with exit
code 1 and nothing is committed; when it answers false, the call does not
fail: it succeeds and commits the payment of 50.  The comparison of the
answer with `CborBoolTrue` is the wrong way round. -/
theorem ProcessStorageDealsPayment_rejects_miners :
    ((ProcessStorageDealsPayment demoEnv (minerCtx 50 20) { head := paidState, trace := [] }
          { DealIDs := [0] }).1 = .error (.new 1) ∧
      (ProcessStorageDealsPayment demoEnv (minerCtx 50 20) { head := paidState, trace := [] }
          { DealIDs := [0] }).2.head = paidState) ∧
    ((ProcessStorageDealsPayment demoEnv (demoCtx 50 20) { head := paidState, trace := [] }
          { DealIDs := [0] }).1 = .ok [] ∧
      (ProcessStorageDealsPayment demoEnv (demoCtx 50 20) { head := paidState, trace := [] }
          { DealIDs := [0] }).2.head.Balances =
        [(10, { Locked := 50, Available := 900 }), (20, { Locked := 50, Available := 500 })]) := by
  refine ⟨⟨?_, ?_⟩, ?_, ?_⟩
  · rfl
  · decide
  · rfl
  · decide

/-! ## Activation epochs are kept -/

/-- C13, counterexample.  `PublishStorageDeals` stores each new record, with
activation epoch 0, under the current counter, whatever is stored there.  In
a state whose counter is at the identifier of its active deal 0 (activation
epoch 50), publishing one deal succeeds and leaves deal 0 with activation
epoch 0; in a state whose counter is at the last `uint64`, publishing two
deals wraps the counter and does the same. -/
theorem PublishStorageDeals_resets_activation :
    (kvFind 0 staleCounterState.Deals =
        some { Deal := demoDeal 10 20, ActivationEpoch := 50 } ∧
      (PublishStorageDeals demoEnv (demoCtx 1 10) { head := staleCounterState, trace := [] }
          { Deals := [demoDeal 10 20] }).1 = .ok [0] ∧
      kvFind 0 (PublishStorageDeals demoEnv (demoCtx 1 10)
          { head := staleCounterState, trace := [] }
          { Deals := [demoDeal 10 20] }).2.head.Deals =
        some { Deal := demoDeal 10 20, ActivationEpoch := 0 }) ∧
    (kvFind 0 fullCounterState.Deals =
        some { Deal := demoDeal 10 20, ActivationEpoch := 50 } ∧
      (PublishStorageDeals demoEnv (demoCtx 1 10) { head := fullCounterState, trace := [] }
          { Deals := [demoDeal 10 20, demoDeal 10 20] }).1 = .ok [2 ^ 64 - 1, 0] ∧
      kvFind 0 (PublishStorageDeals demoEnv (demoCtx 1 10)
          { head := fullCounterState, trace := [] }
          { Deals := [demoDeal 10 20, demoDeal 10 20] }).2.head.Deals =
        some { Deal := demoDeal 10 20, ActivationEpoch := 0 }) := by
  refine ⟨⟨?_, ?_, ?_⟩, ?_, ?_, ?_⟩
  · decide
  · rfl
  · decide
  · decide
  · rfl
  · decide

/-- C13, amended.  Take a context whose nested sends keep the activation epoch
of the active deal stored under `id`.  Then every call of `AddBalance`,
`WithdrawBalance`, `ActivateStorageDeals` and `ProcessStorageDealsPayment`,
successful or not, keeps it: when the deal stored under `id` is active at
entry, it is stored with the same activation epoch in the head after the
call.  So does every call of `PublishStorageDeals` when `id` is below the
counter at entry and the batch does not take the counter past `2^64`. -/
theorem activation_epoch_kept (env : Env) (vmctx : VMContext) (vm : VMState) (id : Nat)
    (hsend : ∀ head dest method value params,
      keepsActivation id head (vmctx.Send head dest method value params).2) :
    keepsActivation id vm.head (AddBalance vmctx vm).2.head ∧
      (∀ params, keepsActivation id vm.head (WithdrawBalance vmctx vm params).2.head) ∧
      (∀ params, id < vm.head.NextDealID →
        vm.head.NextDealID + params.Deals.length ≤ 2 ^ 64 →
        keepsActivation id vm.head (PublishStorageDeals env vmctx vm params).2.head) ∧
      (∀ params, keepsActivation id vm.head (ActivateStorageDeals vmctx vm params).2.head) ∧
      (∀ params,
        keepsActivation id vm.head (ProcessStorageDealsPayment env vmctx vm params).2.head) := by
  refine ⟨?_, ?_, ?_, ?_, ?_⟩
  · rw [AddBalance_eq]
    exact keepsActivation_of_deals_eq _ _ _ rfl
  · intro params
    rcases WithdrawBalance_head vmctx vm params with h | h | ⟨b, h⟩
    · rw [h]
      exact keepsActivation_of_deals_eq _ _ _ rfl
    · rw [h]
      exact hsend _ _ _ _ _
    · rw [h]
      exact keepsActivation_of_deals_eq _ _ _ rfl
  · intro params hid hwrap
    rcases PublishStorageDeals_head env vmctx vm params with h | ⟨s, _, h⟩
    · rw [h]
      exact keepsActivation_of_deals_eq _ _ _ rfl
    · rw [h]
      intro d hk _
      refine ⟨d, ?_, rfl⟩
      simp only
      rw [kvFind_storeDeals_of_not_mem params.Deals vm.head.Deals vm.head.NextDealID id]
      · exact hk
      · intro hmem
        have := le_of_mem_idsFrom params.Deals.length vm.head.NextDealID hwrap id hmem
        omega
  · intro params
    rcases ActivateStorageDeals_head vmctx vm params with h | ⟨deals, hl, h⟩
    · rw [h]
      exact keepsActivation_of_deals_eq _ _ _ rfl
    · rw [h]
      intro d hk hpos
      exact ⟨d, activateLoop_keeps_active vmctx params.Deals vm.head.Deals deals hl id d hk hpos,
        rfl⟩
  · intro params
    have hloop := paymentLoop_head env vmctx vm.head.Deals id hsend params.DealIDs vm.head
      { head := vm.head, trace := vm.trace ++ [.getHead, .get vm.head, .loadAMT vm.head.Deals] }
    obtain ⟨hk, hf⟩ := hloop
    simp only [ProcessStorageDealsPayment, GetHead, Get, VMState.record, List.append_assoc,
      List.singleton_append, List.cons_append, List.nil_append]
    simp only [List.append_assoc, List.singleton_append, List.cons_append,
      List.nil_append] at hk hf
    split
    · rename_i err vm1 heq
      rw [heq] at hk
      exact hk
    · rename_i vm1 heq
      rw [heq] at hk
      exact hk
    · rename_i self1 vm1 heq
      rw [heq] at hk hf
      have hd := (hf self1 rfl).1
      simp only [Put, Commit, VMState.record]
      by_cases hh : vm1.head = vm.head
      · simp only [hh, if_true]
        exact keepsActivation_of_deals_eq _ _ _ hd
      · simp only [hh, if_false]
        exact hk

/-- C13, amended, on the scenario: in `activeState` deal 0 is active since
epoch 50 and the counter is 1; the sends of `demoCtx` leave the head as it is,
and a second publication of the deal of the scenario keeps deal 0 active since
epoch 50. -/
theorem activation_epoch_kept_witness :
    (∀ head dest method value params,
        keepsActivation 0 head ((demoCtx 1 10).Send head dest method value params).2) ∧
      (0 : Nat) < activeState.NextDealID ∧
      activeState.NextDealID + [demoDeal 10 20].length ≤ 2 ^ 64 ∧
      kvFind 0 (PublishStorageDeals demoEnv (demoCtx 1 10) { head := activeState, trace := [] }
          { Deals := [demoDeal 10 20] }).2.head.Deals =
        some { Deal := demoDeal 10 20, ActivationEpoch := 50 } ∧
      keepsActivation 0 activeState
        (PublishStorageDeals demoEnv (demoCtx 1 10) { head := activeState, trace := [] }
          { Deals := [demoDeal 10 20] }).2.head :=
  have hs : ∀ head dest method value params,
      keepsActivation 0 head ((demoCtx 1 10).Send head dest method value params).2 :=
    fun head _ _ _ _ => keepsActivation_of_deals_eq 0 head head rfl
  ⟨hs, by decide, by decide, by decide,
    (activation_epoch_kept demoEnv (demoCtx 1 10) { head := activeState, trace := [] } 0
      hs).2.2.1 { Deals := [demoDeal 10 20] } (by decide) (by decide)⟩

/-! ## Dispatch table -/

/-- C25, counterexample.  The dispatch table has no handler at method number
8, the number that `SMAMethods` gives to `ProcessStorageDealsPayment`, and
`ProcessStorageDealsPayment` is at no index of the table: its entry is
commented out. -/
theorem Exports_lacks_ProcessStorageDealsPayment :
    SMAMethods.ProcessStorageDealsPayment = 8 ∧ handlerAt 8 = none ∧
      some Handler.ProcessStorageDealsPayment ∉ Exports := by
  refine ⟨rfl, ?_, ?_⟩
  · decide
  · decide

/-- C25, amended.  The dispatch table exposes exactly the four methods
`WithdrawBalance`, `AddBalance`, `PublishStorageDeals` and
`ActivateStorageDeals`, each at the method number that `SMAMethods` gives to
it (2, 3, 5 and 11); every other method number, 8 included, has no handler. -/
theorem Exports_exposes_four :
    handlerAt SMAMethods.WithdrawBalance = some .WithdrawBalance ∧
      handlerAt SMAMethods.AddBalance = some .AddBalance ∧
      handlerAt SMAMethods.PublishStorageDeals = some .PublishStorageDeals ∧
      handlerAt SMAMethods.ActivateStorageDeals = some .ActivateStorageDeals ∧
      SMAMethods.WithdrawBalance = 2 ∧ SMAMethods.AddBalance = 3 ∧
      SMAMethods.PublishStorageDeals = 5 ∧ SMAMethods.ActivateStorageDeals = 11 ∧
      Exports.length = 12 ∧
      ∀ n, n ≠ 2 → n ≠ 3 → n ≠ 5 → n ≠ 11 → handlerAt n = none := by
  refine ⟨by decide, by decide, by decide, by decide, rfl, rfl, rfl, rfl, by decide, ?_⟩
  intro n h2 h3 h5 h11
  by_cases hn : n < 12
  · interval_cases n <;> first | contradiction | decide
  · unfold handlerAt
    rw [List.getD_eq_default]
    have : Exports.length = 12 := by decide
    omega

/-! ## Fund transfer primitives -/

/-- C27.  `transferFunds` returns `(from - amt, to + amt)` for all integers,
with no bounds check: the first component is negative when `amt > from`, and
the two components add up to `from + to`.  `lockFunds` is `transferFunds` on
the available and locked fields: the result has `Available = p.Available -
amt`, `Locked = p.Locked + amt` and the total of `p`. -/
theorem transferFunds_lockFunds (frm dest amt : BigInt) (p : StorageParticipantBalance) :
    transferFunds frm dest amt = (frm - amt, dest + amt) ∧
      (amt > frm → (transferFunds frm dest amt).1 < 0) ∧
      (transferFunds frm dest amt).1 + (transferFunds frm dest amt).2 = frm + dest ∧
      ((lockFunds p amt).Available, (lockFunds p amt).Locked) =
        transferFunds p.Available p.Locked amt ∧
      (lockFunds p amt).Available = p.Available - amt ∧
      (lockFunds p amt).Locked = p.Locked + amt ∧
      (lockFunds p amt).Locked + (lockFunds p amt).Available = p.Locked + p.Available := by
  refine ⟨rfl, ?_, ?_, rfl, rfl, rfl, ?_⟩
  · intro h
    simp only [transferFunds]
    exact sub_neg.mpr h
  · simp only [transferFunds]
    ring
  · simp only [lockFunds, transferFunds]
    ring

/-! ## Payment settlement -/

/-- C21.  For every call of `ProcessStorageDealsPayment` by an authorised
caller, one for whom the `IsMiner` query answers true, on a list whose first
identifier is stored, so on every single stored deal, unexpired or not,
whatever its duration, client and provider: the call fails with exit code 1
after the three reads at entry and the one query, without put or commit, and
the head of the actor is as it was at entry, so every balance is what it was:
nothing is paid. -/
theorem ProcessStorageDealsPayment_authorised_pays_nothing (env : Env) (vmctx : VMContext)
    (vm : VMState) (id : Nat) (rest : List Nat) (d : OnChainDeal) (encoded : Bytes)
    (hc : authorisedCaller env vmctx encoded)
    (hk : kvFind id vm.head.Deals = some d) :
    ProcessStorageDealsPayment env vmctx vm { DealIDs := id :: rest } =
        (.error (.new 1),
          { head := vm.head,
            trace := vm.trace ++ [.getHead, .get vm.head, .loadAMT vm.head.Deals,
              .send env.StoragePowerAddress env.IsMiner 0 encoded] }) ∧
      ∀ a, balanceOf (ProcessStorageDealsPayment env vmctx vm
          { DealIDs := id :: rest }).2.head a = balanceOf vm.head a := by
  have hl : paymentLoop env vmctx vm.head.Deals vm.head (afterReads vm) (id :: rest) =
      (.returned (some (.new 1)),
        { head := vm.head,
          trace := vm.trace ++ [.getHead, .get vm.head, .loadAMT vm.head.Deals,
            .send env.StoragePowerAddress env.IsMiner 0 encoded] }) := by
    rw [paymentLoop]
    simp only [hk, hc.1, Send, afterReads, hc.2, if_true, List.append_assoc, List.cons_append,
      List.nil_append]
  have h := ProcessStorageDealsPayment_of_returned env vmctx vm _ { DealIDs := id :: rest } _ hl
  refine ⟨h, ?_⟩
  intro a
  rw [h]

/-- C21, on the scenario: deal 0 of client 10 and provider 20 is stored,
unexpired at epoch 50, with duration 200 and price 100, so that `toPay` is 50;
the provider calls and the `IsMiner` query answers true.  The call fails with
exit code 1; the client keeps 100 locked and the provider 450 available,
where the payment of 50 would leave 50 and 500. -/
theorem ProcessStorageDealsPayment_authorised_pays_nothing_witness :
    authorisedCaller demoEnv (minerCtx 50 20) [20] ∧
      kvFind 0 paidState.Deals = some { Deal := demoDeal 10 20, ActivationEpoch := 0 } ∧
      (minerCtx 50 20).BlockHeight ≤ (demoDeal 10 20).Proposal.ProposalExpiration ∧
      0 < (demoDeal 10 20).Proposal.Duration ∧
      (demoDeal 10 20).Proposal.Client ≠ (demoDeal 10 20).Proposal.Provider ∧
      toPayOf demoEnv { Deal := demoDeal 10 20, ActivationEpoch := 0 } = some 50 ∧
      (ProcessStorageDealsPayment demoEnv (minerCtx 50 20)
          { head := paidState, trace := [] } { DealIDs := [0] }).1 = .error (.new 1) ∧
      balanceOf (ProcessStorageDealsPayment demoEnv (minerCtx 50 20)
          { head := paidState, trace := [] } { DealIDs := [0] }).2.head 10 =
        { Locked := 100, Available := 900 } ∧
      balanceOf (ProcessStorageDealsPayment demoEnv (minerCtx 50 20)
          { head := paidState, trace := [] } { DealIDs := [0] }).2.head 20 =
        { Locked := 50, Available := 450 } := by
  have hc : authorisedCaller demoEnv (minerCtx 50 20) [20] := ⟨rfl, fun _ => rfl⟩
  have h := ProcessStorageDealsPayment_authorised_pays_nothing demoEnv (minerCtx 50 20)
    { head := paidState, trace := [] } 0 []
    { Deal := demoDeal 10 20, ActivationEpoch := 0 } [20] hc (by decide)
  refine ⟨hc, by decide, by decide, by decide, by decide, by decide, ?_, ?_, ?_⟩
  · rw [h.1]
  · exact (h.2 10).trans (by decide)
  · exact (h.2 20).trans (by decide)

/-- The settlement of one deal when the call gets through the caller check as
the code makes it (the `IsMiner` query answers anything but true).  On one
stored, unexpired deal with `Duration > 0` and client different from
provider: the amount paid `toPay` is the quotient that
`BigDiv` returns for `StoragePrice * ProvingPeriodDuration` by `Duration`,
which for a non-negative price is the floor of the exact quotient; the call
succeeds, and in the committed state the client's locked balance is lower by
`toPay`, the provider's available balance is higher by `toPay`, and the
client's available balance, the provider's locked balance and every other
balance are as they were. -/
theorem ProcessStorageDealsPayment_single (env : Env) (vmctx : VMContext) (vm : VMState)
    (id : Nat) (d : OnChainDeal) (encoded : Bytes)
    (hc : passesCallerCheck env vmctx encoded)
    (hk : kvFind id vm.head.Deals = some d)
    (hexp : vmctx.BlockHeight ≤ d.Deal.Proposal.ProposalExpiration)
    (hdur : 0 < d.Deal.Proposal.Duration)
    (hne : d.Deal.Proposal.Client ≠ d.Deal.Proposal.Provider) :
    ∃ toPay : BigInt,
      BigDiv (d.Deal.Proposal.StoragePrice * (env.ProvingPeriodDuration : Int))
          (d.Deal.Proposal.Duration : Int) = some toPay ∧
      (0 ≤ d.Deal.Proposal.StoragePrice →
        toPay = Int.floor
          (((d.Deal.Proposal.StoragePrice * (env.ProvingPeriodDuration : Int) : Int) : ℚ) /
            ((d.Deal.Proposal.Duration : Nat) : ℚ))) ∧
      (ProcessStorageDealsPayment env vmctx vm { DealIDs := [id] }).1 = .ok [] ∧
      balanceOf (ProcessStorageDealsPayment env vmctx vm { DealIDs := [id] }).2.head
          d.Deal.Proposal.Client =
        { Locked := (balanceOf vm.head d.Deal.Proposal.Client).Locked - toPay,
          Available := (balanceOf vm.head d.Deal.Proposal.Client).Available } ∧
      balanceOf (ProcessStorageDealsPayment env vmctx vm { DealIDs := [id] }).2.head
          d.Deal.Proposal.Provider =
        { Locked := (balanceOf vm.head d.Deal.Proposal.Provider).Locked,
          Available := (balanceOf vm.head d.Deal.Proposal.Provider).Available + toPay } ∧
      ∀ a, a ≠ d.Deal.Proposal.Client → a ≠ d.Deal.Proposal.Provider →
        balanceOf (ProcessStorageDealsPayment env vmctx vm { DealIDs := [id] }).2.head a =
          balanceOf vm.head a := by
  have hd0 : ¬ ((d.Deal.Proposal.Duration : Nat) : Int) = 0 := by omega
  have ht : toPayOf env d = some (Int.tdiv
      (d.Deal.Proposal.StoragePrice * (env.ProvingPeriodDuration : Int))
      (d.Deal.Proposal.Duration : Int)) := by
    simp only [toPayOf, BigDiv, if_neg hd0]
  refine ⟨_, ht, ?_, ?_⟩
  · intro hprice
    rw [Rat.floor_intCast_div_natCast]
    exact Int.tdiv_eq_ediv (Int.mul_nonneg hprice (Int.ofNat_nonneg _)) (Int.ofNat_nonneg _)
  · have hs := (ProcessStorageDealsPayment_settleAll env vmctx vm { DealIDs := [id] } [d] encoded
      hc (List.Forall₂.cons hk List.Forall₂.nil)
      (by
        intro d' hd'
        simp only [List.mem_singleton] at hd'
        subst hd'
        exact ⟨hexp, hne⟩)).1 _ (by simp only [settleAll, settleOne, ht, Option.map_some']; rfl)
    refine ⟨hs.1, ?_, ?_, ?_⟩
    · rw [hs.2.1, if_pos rfl]
    · rw [hs.2.1, if_neg (fun e => hne e.symm), if_pos rfl]
    · intro a ha hb
      rw [hs.2.1, if_neg ha, if_neg hb]

/-- The settlement of one deal on the scenario, the `IsMiner` query answering
false: price 100, proving period 100, duration 200 move 50 from the client's
locked to the provider's available balance. -/
theorem ProcessStorageDealsPayment_single_witness :
    passesCallerCheck demoEnv (demoCtx 50 20) [20] ∧
      kvFind 0 paidState.Deals = some { Deal := demoDeal 10 20, ActivationEpoch := 0 } ∧
      balanceOf (ProcessStorageDealsPayment demoEnv (demoCtx 50 20)
          { head := paidState, trace := [] } { DealIDs := [0] }).2.head 10 =
        { Locked := 50, Available := 900 } ∧
      balanceOf (ProcessStorageDealsPayment demoEnv (demoCtx 50 20)
          { head := paidState, trace := [] } { DealIDs := [0] }).2.head 20 =
        { Locked := 50, Available := 500 } := by
  have hc : passesCallerCheck demoEnv (demoCtx 50 20) [20] :=
    ⟨rfl, fun head => ⟨CborBoolFalse, rfl, by decide⟩⟩
  obtain ⟨toPay, ht, _, _, h1, h2, _⟩ := ProcessStorageDealsPayment_single demoEnv
    (demoCtx 50 20) { head := paidState, trace := [] } 0
    { Deal := demoDeal 10 20, ActivationEpoch := 0 } [20] hc (by decide) (by decide) (by decide)
    (by decide)
  have h50 : toPay = 50 := by
    have h0 : BigDiv ((demoDeal 10 20).Proposal.StoragePrice *
        (demoEnv.ProvingPeriodDuration : Int)) ((demoDeal 10 20).Proposal.Duration : Int) =
        some 50 := by decide
    exact (Option.some.inj (h0.symm.trans ht)).symm
  subst h50
  exact ⟨hc, by decide, h1, h2⟩

/-- C24.  For a call of `ProcessStorageDealsPayment` that gets through the
caller check, on a list of stored, unexpired deals each with client different
from provider: when the per-deal settlement applied to the deals one at a
time, in list order, each to the balances produced by the one before, is
defined, the call succeeds and the committed balances are its result (the
deals and the counter are as they were); when it is not defined, because a
division panics, the call ends in that panic and commits nothing.  In
particular, for two deals with the same client, that client's locked balance
falls by the sum of the two amounts. -/
theorem ProcessStorageDealsPayment_sequential (env : Env) (vmctx : VMContext) (vm : VMState)
    (params : ProcessStorageDealsPaymentParams) (ds : List OnChainDeal) (encoded : Bytes)
    (hc : passesCallerCheck env vmctx encoded)
    (hids : List.Forall₂ (fun id d => kvFind id vm.head.Deals = some d) params.DealIDs ds)
    (hall : ∀ d ∈ ds, vmctx.BlockHeight ≤ d.Deal.Proposal.ProposalExpiration ∧
      d.Deal.Proposal.Client ≠ d.Deal.Proposal.Provider) :
    (∀ final, settleAll env (balanceOf vm.head) ds = some final →
        (ProcessStorageDealsPayment env vmctx vm params).1 = .ok [] ∧
        (∀ a, balanceOf (ProcessStorageDealsPayment env vmctx vm params).2.head a = final a) ∧
        (ProcessStorageDealsPayment env vmctx vm params).2.head.Deals = vm.head.Deals ∧
        (ProcessStorageDealsPayment env vmctx vm params).2.head.NextDealID =
          vm.head.NextDealID) ∧
      (settleAll env (balanceOf vm.head) ds = none →
        (ProcessStorageDealsPayment env vmctx vm params).1 = .error .runtimePanic ∧
        (ProcessStorageDealsPayment env vmctx vm params).2.head = vm.head) ∧
      (∀ d1 d2 t1 t2, ds = [d1, d2] → d1.Deal.Proposal.Client = d2.Deal.Proposal.Client →
        toPayOf env d1 = some t1 → toPayOf env d2 = some t2 →
        (ProcessStorageDealsPayment env vmctx vm params).1 = .ok [] ∧
        (balanceOf (ProcessStorageDealsPayment env vmctx vm params).2.head
            d1.Deal.Proposal.Client).Locked =
          (balanceOf vm.head d1.Deal.Proposal.Client).Locked - (t1 + t2)) := by
  have hmain := ProcessStorageDealsPayment_settleAll env vmctx vm params ds encoded hc hids hall
  refine ⟨hmain.1, hmain.2, ?_⟩
  intro d1 d2 t1 t2 hds hsame ht1 ht2
  subst hds
  have hs := hmain.1 _ (by
    simp only [settleAll, settleOne, ht1, ht2, Option.map_some']
    rfl)
  refine ⟨hs.1, ?_⟩
  rw [hs.2.1, ← hsame, if_pos rfl, if_pos rfl]
  simp only
  ring

/-- C24, on two stored deals of client 10 and provider 20 with price 100 and
duration 200: one call on `[0, 1]` takes 50 + 50 from the client's locked
balance of 200. -/
theorem ProcessStorageDealsPayment_sequential_witness :
    passesCallerCheck demoEnv (demoCtx 50 20) [20] ∧
      (ProcessStorageDealsPayment demoEnv (demoCtx 50 20)
          { head := twoDealState, trace := [] } { DealIDs := [0, 1] }).1 = .ok [] ∧
      (balanceOf (ProcessStorageDealsPayment demoEnv (demoCtx 50 20)
          { head := twoDealState, trace := [] } { DealIDs := [0, 1] }).2.head
            (demoDeal 10 20).Proposal.Client).Locked =
        (balanceOf twoDealState (demoDeal 10 20).Proposal.Client).Locked - (50 + 50) :=
  have hc : passesCallerCheck demoEnv (demoCtx 50 20) [20] :=
    ⟨rfl, fun head => ⟨CborBoolFalse, rfl, by decide⟩⟩
  have h := (ProcessStorageDealsPayment_sequential demoEnv (demoCtx 50 20)
    { head := twoDealState, trace := [] } { DealIDs := [0, 1] }
    [{ Deal := demoDeal 10 20, ActivationEpoch := 0 },
     { Deal := demoDeal 10 20, ActivationEpoch := 0 }] [20] hc
    (List.Forall₂.cons (by decide) (List.Forall₂.cons (by decide) List.Forall₂.nil))
    (by
      intro d hd
      simp only [List.mem_cons, List.mem_singleton, List.not_mem_nil, or_false, or_self] at hd
      subst hd
      exact ⟨by decide, by decide⟩)).2.2
    { Deal := demoDeal 10 20, ActivationEpoch := 0 }
    { Deal := demoDeal 10 20, ActivationEpoch := 0 } 50 50 rfl rfl (by decide) (by decide)
  ⟨hc, h.1, h.2⟩

/-- C22, at the failing input.  In the state committed by the publication of
the deal of which address 10 is both client and provider (price 100, duration
200), address 10 calls `ProcessStorageDealsPayment` on that deal.  The call
succeeds and commits, for address 10, locked 50 and available 1000: the 50
paid are added to the available balance and not taken from the locked
balance, so the sum of `locked + available` over all participants rises from
1500 to 1550. -/
theorem ProcessStorageDealsPayment_same_address_creates_funds :
    fundsSum soloState.Balances = 1500 ∧
      (ProcessStorageDealsPayment demoEnv (demoCtx 50 10) { head := soloState, trace := [] }
          { DealIDs := [0] }).1 = .ok [] ∧
      (ProcessStorageDealsPayment demoEnv (demoCtx 50 10) { head := soloState, trace := [] }
          { DealIDs := [0] }).2.head.Balances =
        [(10, { Locked := 50, Available := 1000 }), (20, { Locked := 0, Available := 500 })] ∧
      fundsSum (ProcessStorageDealsPayment demoEnv (demoCtx 50 10)
          { head := soloState, trace := [] } { DealIDs := [0] }).2.head.Balances = 1550 := by
  refine ⟨?_, ?_, ?_, ?_⟩
  · decide
  · rfl
  · decide
  · decide

/-- C23, at the failing input.  At epoch 50 the provider calls
`ProcessStorageDealsPayment` on `[0, 1]` in a state in which both deals are
stored, deal 1 has expired at epoch 40 and deal 0 is unexpired with a duration
of 0; the caller gets through the caller check.  The call does not return
success: the round of deal 0 divides by zero. -/
theorem ProcessStorageDealsPayment_panics_before_expired :
    passesCallerCheck demoEnv (demoCtx 50 20) [20] ∧
      kvFind 0 mixedState.Deals = some { Deal := zeroDurationDeal, ActivationEpoch := 0 } ∧
      kvFind 1 mixedState.Deals = some { Deal := expiredDeal, ActivationEpoch := 0 } ∧
      (demoCtx 50 20).BlockHeight > expiredDeal.Proposal.ProposalExpiration ∧
      (ProcessStorageDealsPayment demoEnv (demoCtx 50 20) { head := mixedState, trace := [] }
          { DealIDs := [0, 1] }).1 = .error .runtimePanic :=
  ⟨⟨rfl, fun head => ⟨CborBoolFalse, rfl, by decide⟩⟩, by decide, by decide, by decide, by rfl⟩

/-- The early return of `ProcessStorageDealsPayment`.  For a call whose caller
gets through the caller check and whose list holds a stored deal with the
current epoch above its proposal expiration, after identifiers that are all
stored and whose deals, when unexpired, have a duration above 0: the call
returns success with empty output, the head of the actor is the state at
entry, and after the three reads at entry the call makes sends only, so
neither a put nor a commit. -/
theorem ProcessStorageDealsPayment_expired (env : Env) (vmctx : VMContext) (vm : VMState)
    (pre post : List Nat) (id : Nat) (d : OnChainDeal) (encoded : Bytes)
    (hc : passesCallerCheck env vmctx encoded)
    (hpre : ∀ id1 ∈ pre, ∃ d1, kvFind id1 vm.head.Deals = some d1 ∧
      (vmctx.BlockHeight ≤ d1.Deal.Proposal.ProposalExpiration →
        0 < d1.Deal.Proposal.Duration))
    (hk : kvFind id vm.head.Deals = some d)
    (hexp : vmctx.BlockHeight > d.Deal.Proposal.ProposalExpiration) :
    (ProcessStorageDealsPayment env vmctx vm { DealIDs := pre ++ id :: post }).1 = .ok [] ∧
      (ProcessStorageDealsPayment env vmctx vm { DealIDs := pre ++ id :: post }).2.head =
        vm.head ∧
      ∃ sends,
        (ProcessStorageDealsPayment env vmctx vm { DealIDs := pre ++ id :: post }).2.trace =
          vm.trace ++ [.getHead, .get vm.head, .loadAMT vm.head.Deals] ++ sends ∧
        ∀ e ∈ sends, e.isSend = true := by
  obtain ⟨vm1, sends, hl, hh, ht, hs⟩ := paymentLoop_of_expired env vmctx vm.head.Deals encoded
    hc id d post hk hexp pre vm.head (afterReads vm) hpre
  rw [ProcessStorageDealsPayment_of_returned env vmctx vm vm1 _ none hl]
  exact ⟨rfl, hh, sends, ht, hs⟩

/-- The early return on a state with the deal of the scenario under identifier
0 and a deal expired at epoch 40 under identifier 1: the call on `[0, 1]` at
epoch 50 returns success and the head stays as it was, deal 0 unpaid. -/
theorem ProcessStorageDealsPayment_expired_witness :
    passesCallerCheck demoEnv (demoCtx 50 20) [20] ∧
      kvFind 1 expiringState.Deals = some { Deal := expiredDeal, ActivationEpoch := 0 } ∧
      (ProcessStorageDealsPayment demoEnv (demoCtx 50 20)
          { head := expiringState, trace := [] } { DealIDs := [0] ++ 1 :: [] }).1 = .ok [] ∧
      (ProcessStorageDealsPayment demoEnv (demoCtx 50 20)
          { head := expiringState, trace := [] } { DealIDs := [0] ++ 1 :: [] }).2.head =
        expiringState :=
  have hc : passesCallerCheck demoEnv (demoCtx 50 20) [20] :=
    ⟨rfl, fun head => ⟨CborBoolFalse, rfl, by decide⟩⟩
  have h := ProcessStorageDealsPayment_expired demoEnv (demoCtx 50 20)
    { head := expiringState, trace := [] } [0] [] 1
    { Deal := expiredDeal, ActivationEpoch := 0 } [20] hc
    (by
      intro id1 h1
      simp only [List.mem_singleton] at h1
      subst h1
      exact ⟨{ Deal := demoDeal 10 20, ActivationEpoch := 0 }, by decide, fun _ => by decide⟩)
    (by decide) (by decide)
  ⟨hc, by decide, h.1, h.2.1⟩

/-- C29, at the failing input.  `validateDeal` accepts the deal of the scenario
with a duration of 0 (it never looks at the duration), `PublishStorageDeals`
stores it under identifier 0, and `ProcessStorageDealsPayment` on that
identifier divides by zero. -/
theorem zero_duration_deal_is_published_and_panics :
    zeroDurationDeal.Proposal.Duration = 0 ∧
      (validateDeal demoEnv (demoCtx 1 10) demoState zeroDurationDeal).1 = none ∧
      (PublishStorageDeals demoEnv (demoCtx 1 10) { head := demoState, trace := [] }
          { Deals := [zeroDurationDeal] }).1 = .ok [0] ∧
      (PublishStorageDeals demoEnv (demoCtx 1 10) { head := demoState, trace := [] }
          { Deals := [zeroDurationDeal] }).2.head = zeroDurationState ∧
      toPayOf demoEnv { Deal := zeroDurationDeal, ActivationEpoch := 0 } = none ∧
      (ProcessStorageDealsPayment demoEnv (demoCtx 50 20)
          { head := zeroDurationState, trace := [] } { DealIDs := [0] }).1 =
        .error .runtimePanic := by
  refine ⟨rfl, ?_, ?_, ?_, ?_, ?_⟩
  · decide
  · rfl
  · decide
  · decide
  · rfl

/-! ## Identifiers are not reused -/

/-- C26, counterexample.  In a state whose one deal is stored under identifier
0 and whose counter is at the last `uint64` (so that every stored identifier
is below the counter), `PublishStorageDeals` on two deals succeeds and hands
out the identifiers `2^64 - 1` and 0: the counter wraps.  The counter falls to
1, the second deal is written under identifier 0, below the counter at entry,
over the record that was stored there, whose deal is another one, and the
identifier `2^64 - 1` is now stored at or above the counter. -/
theorem PublishStorageDeals_wraps_counter :
    dealsBelowCounter fullCounterState ∧
      kvFind 0 fullCounterState.Deals =
        some { Deal := demoDeal 10 20, ActivationEpoch := 50 } ∧
      (PublishStorageDeals demoEnv (demoCtx 1 10) { head := fullCounterState, trace := [] }
          { Deals := [demoDeal 10 20, demoDeal 10 10] }).1 = .ok [2 ^ 64 - 1, 0] ∧
      (PublishStorageDeals demoEnv (demoCtx 1 10) { head := fullCounterState, trace := [] }
          { Deals := [demoDeal 10 20, demoDeal 10 10] }).2.head.NextDealID = 1 ∧
      kvFind 0 (PublishStorageDeals demoEnv (demoCtx 1 10)
          { head := fullCounterState, trace := [] }
          { Deals := [demoDeal 10 20, demoDeal 10 10] }).2.head.Deals =
        some { Deal := demoDeal 10 10, ActivationEpoch := 0 } ∧
      demoDeal 10 10 ≠ demoDeal 10 20 ∧
      ¬ dealsBelowCounter (PublishStorageDeals demoEnv (demoCtx 1 10)
          { head := fullCounterState, trace := [] }
          { Deals := [demoDeal 10 20, demoDeal 10 10] }).2.head := by
  refine ⟨?_, ?_, ?_, ?_, ?_, ?_, ?_⟩
  · intro id d hk
    have h0 : id = 0 := by
      by_contra hne
      have : kvFind id fullCounterState.Deals = none := by
        simp only [fullCounterState, activeState, kvFind]
        rw [if_neg (fun e => hne e.symm)]
      rw [this] at hk
      simp at hk
    subst h0
    decide
  · decide
  · rfl
  · decide
  · decide
  · decide
  · intro hinv
    have hk : kvFind (2 ^ 64 - 1) (PublishStorageDeals demoEnv (demoCtx 1 10)
        { head := fullCounterState, trace := [] }
        { Deals := [demoDeal 10 20, demoDeal 10 10] }).2.head.Deals =
        some { Deal := demoDeal 10 20, ActivationEpoch := 0 } := by decide
    have hlt := hinv _ _ hk
    have hn : (PublishStorageDeals demoEnv (demoCtx 1 10)
        { head := fullCounterState, trace := [] }
        { Deals := [demoDeal 10 20, demoDeal 10 10] }).2.head.NextDealID = 1 := by decide
    rw [hn] at hlt
    exact absurd hlt (by decide)

/-- C26, amended.  Take a state in which every stored identifier is below the
counter, and a context whose nested sends keep that and extend the state.
Then the head after every call of `AddBalance`, `WithdrawBalance`,
`ActivateStorageDeals` and `ProcessStorageDealsPayment`, successful or not,
extends the head at entry: every stored identifier is below the counter, the
counter has not decreased, and every record that was stored is still stored
with the same deal.  So does the head after every call of
`PublishStorageDeals` on a batch that keeps the counter below `2^64`, and such
a call leaves the lookup of every identifier below the counter at entry as it
was. -/
theorem deal_records_kept (env : Env) (vmctx : VMContext) (vm : VMState)
    (hsend : ∀ head dest method value params,
      keepsDeals head (vmctx.Send head dest method value params).2)
    (hinv : dealsBelowCounter vm.head) :
    extendsDeals vm.head (AddBalance vmctx vm).2.head ∧
      (∀ params, extendsDeals vm.head (WithdrawBalance vmctx vm params).2.head) ∧
      (∀ params, vm.head.NextDealID + params.Deals.length < 2 ^ 64 →
        extendsDeals vm.head (PublishStorageDeals env vmctx vm params).2.head ∧
        ∀ id, id < vm.head.NextDealID →
          kvFind id (PublishStorageDeals env vmctx vm params).2.head.Deals =
            kvFind id vm.head.Deals) ∧
      (∀ params, extendsDeals vm.head (ActivateStorageDeals vmctx vm params).2.head) ∧
      (∀ params,
        extendsDeals vm.head (ProcessStorageDealsPayment env vmctx vm params).2.head) := by
  refine ⟨?_, ?_, ?_, ?_, ?_⟩
  · rw [AddBalance_eq]
    exact extendsDeals_of_eq _ _ rfl rfl hinv
  · intro params
    rcases WithdrawBalance_head vmctx vm params with h | h | ⟨b, h⟩
    · rw [h]
      exact extendsDeals_of_eq _ _ rfl rfl hinv
    · rw [h]
      exact hsend _ _ _ _ _ hinv
    · rw [h]
      exact extendsDeals_of_eq _ _ rfl rfl hinv
  · intro params hwrap
    have hnot : ∀ id, id < vm.head.NextDealID →
        id ∉ idsFrom vm.head.NextDealID params.Deals.length := by
      intro id hid hmem
      have := le_of_mem_idsFrom params.Deals.length vm.head.NextDealID (by omega) id hmem
      omega
    rcases PublishStorageDeals_head env vmctx vm params with h | ⟨s, _, h⟩
    · rw [h]
      exact ⟨extendsDeals_of_eq _ _ rfl rfl hinv, fun _ _ => rfl⟩
    · rw [h]
      have hcnt : counterAfter vm.head.NextDealID params.Deals.length =
          vm.head.NextDealID + params.Deals.length := by
        rw [counterAfter_eq _ _ (by omega)]
        exact Nat.mod_eq_of_lt hwrap
      refine ⟨⟨?_, ?_, ?_⟩, ?_⟩
      · intro id d hk
        simp only at hk ⊢
        rw [hcnt]
        by_cases hmem : id ∈ idsFrom vm.head.NextDealID params.Deals.length
        · exact lt_of_mem_idsFrom _ _ (by omega) id hmem
        · rw [kvFind_storeDeals_of_not_mem params.Deals vm.head.Deals _ id hmem] at hk
          have := hinv id d hk
          omega
      · simp only
        rw [hcnt]
        omega
      · intro id d hk
        refine ⟨d, ?_, rfl⟩
        simp only
        rw [kvFind_storeDeals_of_not_mem params.Deals vm.head.Deals _ id
          (hnot id (hinv id d hk))]
        exact hk
      · intro id hid
        simp only
        exact kvFind_storeDeals_of_not_mem params.Deals vm.head.Deals _ id (hnot id hid)
  · intro params
    rcases ActivateStorageDeals_head vmctx vm params with h | ⟨deals, hl, h⟩
    · rw [h]
      exact extendsDeals_of_eq _ _ rfl rfl hinv
    · rw [h]
      have hmap := activateLoop_keeps_deal vmctx params.Deals vm.head.Deals deals hl
      refine ⟨?_, Nat.le_refl _, ?_⟩
      · intro id d1 hk
        simp only at hk ⊢
        have h1 := hmap id
        rw [hk] at h1
        cases hk0 : kvFind id vm.head.Deals with
        | none =>
          rw [hk0] at h1
          simp at h1
        | some d => exact hinv id d hk0
      · intro id d hk
        simp only
        have h1 := hmap id
        rw [hk] at h1
        cases hk1 : kvFind id deals with
        | none =>
          rw [hk1] at h1
          simp at h1
        | some d1 =>
          rw [hk1] at h1
          simp only [Option.map_some', Option.some.injEq] at h1
          exact ⟨d1, rfl, h1⟩
  · intro params
    exact ProcessStorageDealsPayment_rel env vmctx vm params keepsDeals
      (fun s => keepsDeals_of_eq s s rfl rfl) keepsDeals_trans hsend
      (fun s s1 hd hn => keepsDeals_of_eq s s1 hd hn) hinv

/-- C26, amended, on the scenario: in `activeState` the one stored identifier 0
is below the counter 1; after a second publication of the deal of the
scenario the counter is 2 and deal 0 is stored as before. -/
theorem deal_records_kept_witness :
    (∀ head dest method value params,
        keepsDeals head ((demoCtx 1 10).Send head dest method value params).2) ∧
      dealsBelowCounter activeState ∧
      activeState.NextDealID + [demoDeal 10 20].length < 2 ^ 64 ∧
      extendsDeals activeState
        (PublishStorageDeals demoEnv (demoCtx 1 10) { head := activeState, trace := [] }
          { Deals := [demoDeal 10 20] }).2.head ∧
      (PublishStorageDeals demoEnv (demoCtx 1 10) { head := activeState, trace := [] }
          { Deals := [demoDeal 10 20] }).2.head.NextDealID = 2 :=
  have hs : ∀ head dest method value params,
      keepsDeals head ((demoCtx 1 10).Send head dest method value params).2 :=
    fun head _ _ _ _ => keepsDeals_of_eq head head rfl rfl
  have hinv : dealsBelowCounter activeState := by
    intro id d hk
    have h0 : id = 0 := by
      by_contra hne
      have : kvFind id activeState.Deals = none := by
        simp only [activeState, kvFind]
        rw [if_neg (fun e => hne e.symm)]
      rw [this] at hk
      simp at hk
    subst h0
    decide
  ⟨hs, hinv, by decide,
    ((deal_records_kept demoEnv (demoCtx 1 10) { head := activeState, trace := [] } hs
      hinv).2.2.1 { Deals := [demoDeal 10 20] } (by decide)).1, by decide⟩

/-! ## One commit, at the end -/

/-- C28.  Every execution of each of the five methods adds to the trace calls
that start with the read of the head and either hold no commit, or end with
the put of the final state followed by the one commit, whose expected root is
the head read at entry and whose new root is the state just put (the head
afterwards, unless the commit fails); and an execution that returns an error
other than that of the commit itself (or, in `PublishStorageDeals`, of the
encoding of the output after the commit) has issued no commit. -/
theorem methods_commit_once_at_end (env : Env) (vmctx : VMContext) (vm : VMState) :
    commitsOnceAtEnd vm (AddBalance vmctx vm) ∧
      (∀ params, commitsOnceAtEnd vm (WithdrawBalance vmctx vm params)) ∧
      (∀ params, commitsOnceAtEnd vm (PublishStorageDeals env vmctx vm params)) ∧
      (∀ params, commitsOnceAtEnd vm (ActivateStorageDeals vmctx vm params)) ∧
      (∀ params, commitsOnceAtEnd vm (ProcessStorageDealsPayment env vmctx vm params)) := by
  refine ⟨?_, ?_, ?_, ?_, ?_⟩
  · apply commitsOnceAtEnd_of_commit vm _ [.get vm.head]
    · rw [AddBalance_eq]
      rfl
    · intro e he
      simp only [List.mem_singleton] at he
      subst he
      rfl
    · intro _
      rw [AddBalance_eq]
    · intro e he
      rw [AddBalance_eq] at he
      simp at he
  · intro params
    by_cases h : (balanceOf vm.head vmctx.From).Available < params.Balance
    · apply commitsOnceAtEnd_of_no_commit vm _ [.get vm.head]
      · rw [WithdrawBalance_of_short vmctx vm params h]
      · intro e he
        simp only [List.mem_singleton] at he
        subst he
        rfl
    · have h' := not_lt.mp h
      cases hs : vmctx.Send vm.head vmctx.From 0 params.Balance [] with
      | mk r head1 =>
        cases r with
        | error err =>
          apply commitsOnceAtEnd_of_no_commit vm _
            [.get vm.head, .send vmctx.From 0 params.Balance []]
          · rw [WithdrawBalance_of_send_error vmctx vm params err head1 h' hs]
          · intro e he
            simp only [List.mem_cons, List.mem_singleton, List.not_mem_nil, or_false] at he
            rcases he with he | he <;> subst he <;> rfl
        | ok ret =>
          apply commitsOnceAtEnd_of_commit vm _
            [.get vm.head, .send vmctx.From 0 params.Balance []]
          · rw [WithdrawBalance_of_send_ok vmctx vm params ret head1 h' hs]
            rfl
          · intro e he
            simp only [List.mem_cons, List.mem_singleton, List.not_mem_nil, or_false] at he
            rcases he with he | he <;> subst he <;> rfl
          · rw [WithdrawBalance_of_send_ok vmctx vm params ret head1 h' hs]
            by_cases hh : head1 = vm.head
            · simp [hh]
            · simp [hh]
          · intro e he
            rw [WithdrawBalance_of_send_ok vmctx vm params ret head1 h' hs] at he
            by_cases hh : head1 = vm.head
            · simp [hh] at he
            · simp only [if_neg hh, Except.error.injEq] at he
              exact Or.inl he.symm
  · intro params
    cases hl : publishLoop env vmctx vm.head vm.head.Deals [] params.Deals with
    | error e =>
      apply commitsOnceAtEnd_of_no_commit vm _ [.get vm.head, .loadAMT vm.head.Deals]
      · rw [PublishStorageDeals_of_loop_error env vmctx vm params e hl]
      · intro e he
        simp only [List.mem_cons, List.mem_singleton, List.not_mem_nil, or_false] at he
        rcases he with he | he <;> subst he <;> rfl
    | ok r =>
      obtain ⟨self, deals, out⟩ := r
      apply commitsOnceAtEnd_of_commit vm _
        [.get vm.head, .loadAMT vm.head.Deals, .flushAMT deals]
      · rw [PublishStorageDeals_of_loop_ok env vmctx vm params self deals out hl]
        rfl
      · intro e he
        simp only [List.mem_cons, List.mem_singleton, List.not_mem_nil, or_false] at he
        rcases he with he | he | he <;> subst he <;> rfl
      · intro _
        rw [PublishStorageDeals_of_loop_ok env vmctx vm params self deals out hl]
      · intro e he
        rw [PublishStorageDeals_of_loop_ok env vmctx vm params self deals out hl] at he
        cases hm : env.marshalResponse { DealIDs := out } with
        | none =>
          rw [hm] at he
          simp only [Except.error.injEq] at he
          exact Or.inr he.symm
        | some b =>
          rw [hm] at he
          simp at he
  · intro params
    cases hl : activateLoop vmctx vm.head.Deals params.Deals with
    | error e =>
      apply commitsOnceAtEnd_of_no_commit vm _ [.get vm.head, .loadAMT vm.head.Deals]
      · rw [ActivateStorageDeals_of_loop_error vmctx vm params e hl]
      · intro e he
        simp only [List.mem_cons, List.mem_singleton, List.not_mem_nil, or_false] at he
        rcases he with he | he <;> subst he <;> rfl
    | ok deals =>
      apply commitsOnceAtEnd_of_commit vm _
        [.get vm.head, .loadAMT vm.head.Deals, .flushAMT deals]
      · rw [ActivateStorageDeals_of_loop_ok vmctx vm params deals hl]
        rfl
      · intro e he
        simp only [List.mem_cons, List.mem_singleton, List.not_mem_nil, or_false] at he
        rcases he with he | he | he <;> subst he <;> rfl
      · intro _
        rw [ActivateStorageDeals_of_loop_ok vmctx vm params deals hl]
      · intro e he
        rw [ActivateStorageDeals_of_loop_ok vmctx vm params deals hl] at he
        simp at he
  · intro params
    obtain ⟨sends, htr, hsends⟩ := paymentLoop_trace env vmctx vm.head.Deals params.DealIDs
      vm.head (afterReads vm)
    have hpre : ∀ e ∈ [Event.get vm.head, Event.loadAMT vm.head.Deals] ++ sends,
        e.isCommit = false := by
      intro e he
      simp only [List.mem_append, List.mem_cons, List.mem_singleton, List.not_mem_nil,
        or_false] at he
      rcases he with (he | he) | he
      · subst he; rfl
      · subst he; rfl
      · exact isCommit_of_isSend e (hsends e he)
    cases hl : paymentLoop env vmctx vm.head.Deals vm.head (afterReads vm) params.DealIDs with
    | mk r vm1 =>
      rw [hl] at htr
      simp only [afterReads] at htr
      cases r with
      | returned err =>
        apply commitsOnceAtEnd_of_no_commit vm _
          ([.get vm.head, .loadAMT vm.head.Deals] ++ sends)
        · rw [ProcessStorageDealsPayment_of_returned env vmctx vm vm1 params err hl]
          simp only [htr]
          simp
        · exact hpre
      | finished self1 =>
        apply commitsOnceAtEnd_of_commit vm _
          ([.get vm.head, .loadAMT vm.head.Deals] ++ sends) self1
        · rw [ProcessStorageDealsPayment_of_finished env vmctx vm vm1 params self1 hl]
          simp only [htr]
          simp
        · exact hpre
        · rw [ProcessStorageDealsPayment_of_finished env vmctx vm vm1 params self1 hl]
          by_cases hh : vm1.head = vm.head
          · simp [hh]
          · simp [hh]
        · intro e he
          rw [ProcessStorageDealsPayment_of_finished env vmctx vm vm1 params self1 hl] at he
          by_cases hh : vm1.head = vm.head
          · simp [hh] at he
          · simp only [if_neg hh, Except.error.injEq] at he
            exact Or.inl he.symm

end StorageMarket
